import Mathlib

/-!
# PSIOP: a four-operator FM voice (FehlerFabrik)

A shallow embedding of `src/PSIOP.hpp` (`Ramp`, `Operator`, the routing and
selection tables) and of `PSIOP::process` in `src/PSIOP.cpp`.

Conventions of the embedding.

* In `Ramp.process`, `Operator.process` and `PSIOP.process` C++
  `float`/`double` values are exact rationals (`ℚ`) and the arithmetic is
  exact.  `0.95f`, `0.90f`, `1e-3`, `0.2`, `0.3`, `0.6f`, `1.8f` are the
  fractions `19/20`, `9/10`, `1/1000`, `1/5`, `3/10`, `3/5`, `9/5`.
  Where the rounding of binary32 decides a property, the method is given a
  second time with every `float` operation rounded (`f32`):
  `Ramp.processF32`.  The products `RATIO_INPUT * RATIOATTEN_PARAM` and
  `WAVE_INPUT * WAVEATTEN_PARAM`, whose rounded value becomes an `int`, are
  rounded to binary32 in `PSIOP.latch` as well.
* C++ `int` values are 32-bit: a sum is reduced into `[-2^31, 2^31)`
  (`wrap32`), and the conversion `(int)x` is truncation toward zero when the
  result fits (`castInt`).
* What the source takes from outside the two files is a field of `Env`:
  `pow(2, x)`, `M_E`, `dsp::FREQ_C4`, the 23 values of
  `fm_frequency_ratios` (computed with `pow`, `sqrt`, `M_PI`), the wavetable
  data of `wavetables/Wavetables.hpp`, the edge detector
  `dsp::SchmittTrigger::process`, the remainder `eucMod(a, 1.f)` (whose last
  step rounds in binary32), and the value of a conversion `(int)x` whose
  result does not fit in `int`.
* The small helpers of the host SDK (`sgn`, `crossfade`, `clamp`,
  `interpolateLinear`, `dsp::PulseGenerator::trigger`) are written out.
-/

namespace FehlerFabrik

/-! ## Host helpers -/

/-- Truncation toward zero, as an integer of any size. -/
def truncInt (x : ℚ) : Int := if 0 ≤ x then ⌊x⌋ else ⌈x⌉

/-- C `round`: the nearest integer, halves away from zero, as an integer of any
size. -/
def roundInt (x : ℚ) : Int := if 0 ≤ x then ⌊x + 1 / 2⌋ else ⌈x - 1 / 2⌉

/-- The integer `z` fits in the 32-bit `int`. -/
def FitsInt (z : Int) : Prop := -2147483648 ≤ z ∧ z < 2147483648

/-- Reduction of an integer into the range `[-2^31, 2^31)` of the 32-bit `int`:
the result of `int` arithmetic in two's complement. -/
def wrap32 (z : Int) : Int := (z + 2147483648) % 4294967296 - 2147483648

/-- Sign of a number: `1`, `-1` or `0`. -/
def sgn (x : ℚ) : ℚ := if x > 0 then 1 else if x < 0 then -1 else 0

/-- Linear blend `a + (b - a) * p`. -/
def crossfade (a b p : ℚ) : ℚ := a + (b - a) * p

/-- Power `2^e` for an integer exponent. -/
def pow2z (e : Int) : ℚ := if 0 ≤ e then 2 ^ e.toNat else 1 / 2 ^ (-e).toNat

/-- Search, downward from `e` in at most `n` steps, of the largest exponent with
`2^e ≤ x`. -/
def f32Exponent (x : ℚ) : Nat → Int → Int
  | 0, e => e
  | n + 1, e => if pow2z e ≤ x then e else f32Exponent x n (e - 1)

/-- Nearest integer, ties to the even one. -/
def roundHalfEven (q : ℚ) : Int :=
  if q - (⌊q⌋ : ℚ) < 1 / 2 then ⌊q⌋
  else if q - (⌊q⌋ : ℚ) > 1 / 2 then ⌊q⌋ + 1
  else if ⌊q⌋ % 2 = 0 then ⌊q⌋ else ⌊q⌋ + 1

/-- Nearest binary32 value of `x`: 24-bit significand, exponents `-126..127` with
gradual underflow, ties to even; overflow to infinity is not modelled. -/
def f32 (x : ℚ) : ℚ :=
  let e := f32Exponent |x| 253 127
  let ulp := pow2z (e - 23)
  (roundHalfEven (x / ulp) : ℚ) * ulp

/-- Float clamp: `max (min x b) a`. -/
def clamp (x a b : ℚ) : ℚ := max (min x b) a

/-- Integer clamp: `max (min x b) a`. -/
def clampInt (x a b : Int) : Int := max (min x b) a

/-- C `fmod(a, 1)`: `a` minus its truncation toward zero. -/
def fmod1 (a : ℚ) : ℚ := a - (truncInt a : ℚ)

/-- Euclidean remainder `eucMod(a, base)` for `base = 1`, the only base used,
in exact arithmetic: the sum `mod + base` is not rounded. -/
def eucMod1 (a : ℚ) : ℚ :=
  let m := fmod1 a
  if m ≥ 0 then m else m + 1

/-- State of a Schmitt trigger. -/
inductive SchmittState where
  | LOW
  | HIGH
  | UNKNOWN
  deriving DecidableEq, Repr

/-- Edge detector object `dsp::SchmittTrigger`. -/
structure SchmittTrigger where
  state : SchmittState := SchmittState.UNKNOWN
  deriving DecidableEq, Repr

/-- Pulse generator `dsp::PulseGenerator`: the time left of the pulse. -/
structure PulseGenerator where
  remaining : ℚ := 0
  deriving DecidableEq

/-- Call `trigger(duration)`: the pulse lasts at least `duration`. -/
def PulseGenerator.trigger (g : PulseGenerator) (duration : ℚ) : PulseGenerator :=
  if duration > g.remaining then { g with remaining := duration } else g

/-- What the two source files take from their environment. -/
structure Env where
  /-- Value of `pow(2, x)`. -/
  pow2 : ℚ → ℚ
  /-- Constant `M_E`. -/
  M_E : ℚ
  /-- Constant `dsp::FREQ_C4`. -/
  FREQ_C4 : ℚ
  /-- Table `fm_frequency_ratios[k]`. -/
  fm_frequency_ratios : Nat → ℚ
  /-- Sample `wavetable_opal[table][k]`. -/
  wavetable_opal : Nat → Nat → ℚ
  /-- Length `wavetable_opal_lengths[table]`. -/
  wavetable_opal_lengths : Nat → Nat
  /-- Call `dsp::SchmittTrigger::process(in)`: the edge report and the new detector. -/
  schmitt : SchmittTrigger → ℚ → Bool × SchmittTrigger
  /-- Value of `eucMod(a, 1.f)`. -/
  eucMod : ℚ → ℚ
  /-- Value produced by a conversion `(int)x` whose truncated value does not fit
  in `int` (undefined in C++; `INT_MIN` on x86). -/
  intOverflow : ℚ → Int

/-- Conversion `(int)x` of a floating value to the 32-bit `int`: truncation
toward zero when the truncated value fits, the value of the platform otherwise. -/
def castInt (env : Env) (x : ℚ) : Int :=
  if -2147483648 ≤ truncInt x ∧ truncInt x < 2147483648 then truncInt x
  else wrap32 (env.intOverflow x)

/-- Linear interpolation `interpolateLinear(p, x)` in the array `p`. -/
def interpolateLinear (env : Env) (p : Nat → ℚ) (x : ℚ) : ℚ :=
  let xi := castInt env x
  let xf := x - (xi : ℚ)
  crossfade (p xi.toNat) (p (xi + 1).toNat) xf

/-! ## Ramp -/

/-- Ramp generator `struct Ramp`. -/
structure Ramp where
  shape : ℚ := 0
  out : ℚ := 0
  gate : Bool := false
  endOfCyclePulse : PulseGenerator := {}
  deriving DecidableEq

/-- Member `minTime = 1e-3`; no code assigns it. -/
def Ramp.minTime (_ : Ramp) : ℚ := 1 / 1000

/-- Method `Ramp::shapeDelta`. -/
def Ramp.shapeDelta (env : Env) (delta tau shape : ℚ) : ℚ :=
  let lin := sgn delta * 10 / tau
  if shape < 0 then
    let log := sgn delta * 40 / tau / (|delta| + 1)
    crossfade lin log (-shape * (19 / 20))
  else
    let exp := env.M_E * delta / tau
    crossfade lin exp (shape * (9 / 10))

/-- Method `Ramp::process`. -/
def Ramp.process (env : Env) (r : Ramp) (shape riseRate fallRate time : ℚ)
    (cycle : Bool) : Ramp :=
  let inp : ℚ := if r.gate then 1 else 0
  let delta := inp - r.out
  if delta > 0 then
    -- Rise
    let riseCv := riseRate
    let rise := r.minTime * env.pow2 (riseCv * 20)
    let out1 := r.out + Ramp.shapeDelta env delta rise shape * time
    let rising : Bool := decide (inp - out1 > 1 / 1000)
    let gate1 := if !rising then false else r.gate
    { r with out := if !rising then inp else out1, gate := gate1 }
  else if delta < 0 then
    -- Fall
    let fallCv := clamp fallRate 0 1
    let fall := r.minTime * env.pow2 (fallCv * 20)
    let out1 := r.out + Ramp.shapeDelta env delta fall shape * time
    let falling : Bool := decide (inp - out1 < -(1 / 1000))
    let pulse1 := if !falling then r.endOfCyclePulse.trigger (1 / 1000) else r.endOfCyclePulse
    let gate1 := if !falling && cycle then true else r.gate
    { r with out := if !falling then inp else out1, gate := gate1, endOfCyclePulse := pulse1 }
  else
    { r with out := inp, gate := false }

/-! ## Operator -/

/-- Wavetable operator `struct Operator`. -/
structure Operator where
  phase : ℚ := 0
  freq : ℚ := 0
  wave : ℚ := 0
  out : ℚ := 0
  bufferSample1 : ℚ := 0
  bufferSample2 : ℚ := 0
  feedbackSample : ℚ := 0
  deriving DecidableEq

/-- Method `Operator::setPitch`. -/
def Operator.setPitch (env : Env) (o : Operator) (pitch : ℚ) : Operator :=
  { o with freq := env.FREQ_C4 * env.pow2 pitch }

/-- Method `Operator::applyRatio`. -/
def Operator.applyRatio (o : Operator) (ratio : ℚ) : Operator :=
  { o with freq := o.freq * ratio }

/-- Phase accumulation and wrap at the head of `Operator::process`. -/
def Operator.wrapPhase (phase freq time fmMod : ℚ) : ℚ :=
  let phase1 := phase + (freq * time + fmMod * (1 / 2))
  if phase1 ≥ 1 / 2 then phase1 - 1
  else if phase1 ≤ -(1 / 2) then phase1 + 1
  else phase1

/-- Method `Operator::process`. -/
def Operator.process (env : Env) (o : Operator) (time amplitude fmMod feedback : ℚ)
    (table : Nat) : Operator :=
  let phase := Operator.wrapPhase o.phase o.freq time fmMod
  let wtPOS := env.eucMod (phase + feedback * o.feedbackSample)
  let waveTable := env.wavetable_opal table
  let tableLength : ℚ := (env.wavetable_opal_lengths table : ℚ)
  let wtPOS := wtPOS * tableLength
  let wave := interpolateLinear env waveTable wtPOS
  let bufferSample1 := wave
  let bufferSample2 := bufferSample1
  { o with
    phase := phase
    wave := wave
    out := wave * amplitude
    bufferSample1 := bufferSample1
    bufferSample2 := bufferSample2
    feedbackSample := (bufferSample1 + bufferSample2) / 2 }

/-! ## Routing and selection tables -/

/-- Table `modMatrix[6][4][5]`: algorithm, source operator, destination. -/
def modMatrix : List (List (List ℚ)) :=
  [[[0, 1, 0, 0, 0], [0, 0, 0, 0, 1], [0, 0, 0, 0, 0], [0, 0, 0, 0, 0]],
   [[0, 0, 0, 0, 1 / 2], [0, 0, 0, 0, 1 / 2], [0, 0, 0, 0, 0], [0, 0, 0, 0, 0]],
   [[0, 1, 0, 0, 0], [0, 0, 1, 0, 0], [0, 0, 0, 1, 0], [0, 0, 0, 0, 1]],
   [[0, 1, 0, 0, 0], [0, 0, 0, 0, 1 / 2], [0, 0, 0, 1, 0], [0, 0, 0, 0, 1 / 2]],
   [[0, 0, 0, 0, 1 / 2], [0, 0, 1, 0, 0], [0, 0, 0, 1, 0], [0, 0, 0, 0, 1 / 2]],
   [[0, 0, 0, 0, 3 / 10], [0, 0, 1, 0, 0], [0, 0, 0, 0, 3 / 10], [0, 0, 0, 0, 3 / 10]]]

/-- Table `ratioMatrix[32][4]`: indices into `fm_frequency_ratios`. -/
def ratioMatrix : List (List Nat) :=
  [[5, 5, 5, 5], [3, 5, 7, 5], [0, 5, 8, 5], [7, 5, 2, 5], [9, 5, 10, 5], [14, 5, 15, 5],
   [14, 8, 9, 5], [14, 11, 8, 5], [9, 8, 12, 5], [22, 14, 17, 4], [14, 14, 12, 4],
   [9, 11, 14, 7], [22, 9, 9, 13], [15, 8, 17, 13], [10, 12, 6, 15], [10, 12, 6, 16],
   [17, 12, 6, 11], [5, 14, 8, 12], [5, 10, 13, 12], [5, 14, 14, 14], [4, 2, 5, 2],
   [0, 8, 16, 9], [3, 13, 14, 1], [4, 12, 14, 1], [0, 10, 9, 0], [0, 14, 13, 13],
   [0, 10, 4, 16], [0, 3, 4, 18], [0, 1, 4, 13], [14, 0, 12, 22], [15, 0, 5, 22],
   [1, 14, 9, 4]]

/-- Table `tableMatrix[64][4]`: indices into `wavetable_opal`. -/
def tableMatrix : List (List Nat) :=
  [[0, 0, 0, 0], [0, 1, 0, 1], [0, 2, 0, 2], [0, 3, 0, 3], [0, 4, 0, 4], [0, 5, 0, 5],
   [0, 6, 0, 6], [0, 7, 0, 7], [1, 0, 1, 0], [1, 1, 1, 1], [1, 2, 1, 2], [1, 3, 1, 3],
   [1, 4, 1, 4], [1, 5, 1, 5], [1, 6, 1, 6], [1, 7, 1, 7], [2, 0, 2, 0], [2, 1, 2, 1],
   [2, 2, 2, 2], [2, 3, 2, 3], [2, 4, 2, 4], [2, 5, 2, 5], [2, 6, 2, 6], [2, 7, 2, 7],
   [3, 0, 3, 0], [3, 1, 3, 1], [3, 2, 3, 2], [3, 3, 3, 3], [3, 4, 3, 4], [3, 5, 3, 5],
   [3, 6, 3, 6], [3, 7, 3, 7], [4, 0, 4, 0], [4, 1, 4, 1], [4, 2, 4, 2], [4, 3, 4, 3],
   [4, 4, 4, 4], [4, 5, 4, 5], [4, 6, 4, 6], [4, 7, 4, 7], [5, 0, 5, 0], [5, 1, 5, 1],
   [5, 2, 5, 2], [5, 3, 5, 3], [5, 4, 5, 4], [5, 5, 5, 5], [5, 6, 5, 6], [5, 7, 5, 7],
   [6, 0, 6, 0], [6, 1, 6, 1], [6, 2, 6, 2], [6, 3, 6, 3], [6, 4, 6, 4], [6, 5, 6, 5],
   [6, 6, 6, 6], [6, 7, 6, 7], [7, 0, 7, 0], [7, 1, 7, 1], [7, 2, 7, 2], [7, 3, 7, 3],
   [7, 4, 7, 4], [7, 5, 7, 5], [7, 6, 7, 6], [7, 7, 7, 7]]

/-- Checked read `m[r][i]` of an integer matrix with an `int` row index:
`none` when either index is outside the array. -/
def matrixGet? (m : List (List Nat)) (r : Int) (i : Nat) : Option Nat :=
  if r < 0 then none else (m.get? r.toNat).bind (fun row => row.get? i)

/-- Read `m[r][i]` of an integer matrix (`0` stands for a read outside the array). -/
def matrixGet (m : List (List Nat)) (r : Int) (i : Nat) : Nat :=
  (matrixGet? m r i).getD 0

/-- Checked read `modMatrix[a][j][i]`: `none` when an index is outside the array. -/
def modMatrixGet? (a : Int) (j i : Nat) : Option ℚ :=
  if a < 0 then none
  else ((modMatrix.get? a.toNat).bind (fun m => m.get? j)).bind (fun row => row.get? i)

/-- Read `modMatrix[a][j][i]` (`0` stands for a read outside the array). -/
def modMatrixGet (a : Int) (j i : Nat) : ℚ :=
  (modMatrixGet? a j i).getD 0

/-! ## The module -/

/-! Identifiers of `enum ParamIds`, `enum InputIds` and `enum OutputIds`. -/

def START_PARAM : Nat := 0
def FINE_PARAM : Nat := 1
def END_PARAM : Nat := 2
def RATIO_PARAM : Nat := 3
def WAVE_PARAM : Nat := 4
def ALGO_PARAM : Nat := 5
def FB_PARAM : Nat := 6
def RATE1_PARAM : Nat := 7
def RATE2_PARAM : Nat := 8
def SPEED_PARAM : Nat := 9
def RATE2ATTEN_PARAM : Nat := 10
def WAVEATTEN_PARAM : Nat := 11
def RATIOATTEN_PARAM : Nat := 12

def START_INPUT : Nat := 0
def END_INPUT : Nat := 1
def RATIO_INPUT : Nat := 2
def WAVE_INPUT : Nat := 3
def ALGO_INPUT : Nat := 4
def FB_INPUT : Nat := 5
def RATE1_INPUT : Nat := 6
def RATE2_INPUT : Nat := 7
def SPEED_INPUT : Nat := 8
def TRIGGER_INPUT : Nat := 9
def ACCENT_INPUT : Nat := 10
def CHOKE_INPUT : Nat := 11

def OUT_OUTPUT : Nat := 0
def DEBUG1_OUTPUT : Nat := 1
def DEBUG2_OUTPUT : Nat := 2
def DEBUG3_OUTPUT : Nat := 3
def DEBUG4_OUTPUT : Nat := 4

/-- Argument `ProcessArgs` of a tick. -/
structure ProcessArgs where
  sampleTime : ℚ

/-- What the host hands to one call of `PSIOP::process`: the knob values
`params[k].getValue()`, the jack voltages `inputs[k].getVoltage()` and `args`. -/
structure Tick where
  params : Nat → ℚ
  inputs : Nat → ℚ
  args : ProcessArgs

/-- Module `struct PSIOP`: the members of the class and the output jacks. -/
structure PSIOP where
  operators : Nat → Operator := fun _ => {}
  ramps : Nat → Ramp := fun _ => {}
  trigger : SchmittTrigger := {}
  choke : SchmittTrigger := {}
  accent : SchmittTrigger := {}
  startPitch : ℚ := 0
  endPitch : ℚ := 0
  finePitch : ℚ := 0
  rates : Nat → ℚ := fun _ => 0
  algo : Int := 0
  ratioIndex : Int := 0
  feedback : ℚ := 0
  table : Int := 0
  index : ℚ := 3 / 5
  level : ℚ := 1
  outputs : Nat → ℚ := fun _ => 0

/-- Store `a[i] = v` in an array member. -/
def setAt {α : Type} (a : Nat → α) (i : Nat) (v : α) : Nat → α :=
  fun k => if k = i then v else a k

/-- Lines 97 to 153 of `PSIOP::process`: the body of `if (trigger.process(..))`,
run when the trigger detector reports an edge. -/
def PSIOP.latch (env : Env) (s : PSIOP) (t : Tick) : PSIOP :=
  -- Look for accent trigger
  let acc := env.schmitt s.accent (t.inputs ACCENT_INPUT / 2)
  let index : ℚ := if acc.1 then 1 else 3 / 5
  let level : ℚ := if acc.1 then 9 / 5 else 1
  -- Compute the start and end pitches
  let startPitch := t.params START_PARAM
  let startPitch := startPitch + t.inputs START_INPUT
  let finePitch := t.params FINE_PARAM
  let startPitch := startPitch + finePitch
  let startPitch := clamp startPitch (-4) 4
  let endPitch := t.params END_PARAM
  let endPitch := endPitch + t.inputs END_INPUT
  let endPitch := clamp endPitch (-4) 4
  -- Get the index for the ratio matrix
  let ratioIndex := castInt env (t.params RATIO_PARAM)
  let ratioIndex := wrap32 (ratioIndex
    + castInt env (roundInt (f32 (t.inputs RATIO_INPUT * t.params RATIOATTEN_PARAM))))
  let ratioIndex := clampInt ratioIndex 0 31
  -- Get the wavetable index
  let table := castInt env (t.params WAVE_PARAM)
  let table := wrap32 (table
    + castInt env (roundInt (f32 (t.inputs WAVE_INPUT * t.params WAVEATTEN_PARAM))))
  let table := clampInt table 0 63
  -- Get the algorithim
  let algo := castInt env (t.params ALGO_PARAM)
  let algo := wrap32 (algo + castInt env (roundInt (t.inputs ALGO_INPUT)))
  let algo := clampInt algo 0 5
  -- Get the OP1 feedback amount
  let feedback := t.params FB_PARAM
  let feedback := feedback + 1 / 5 * t.inputs FB_INPUT
  let feedback := clamp feedback 0 1
  -- Get the rates for the volume and pitch envelopes
  let rates := [0, 1, 2].foldl
    (fun (rates : Nat → ℚ) (i : Nat) =>
      let v := t.params (RATE1_PARAM + i)
      let v := v + (if i = 1
        then 1 / 5 * t.params RATE2ATTEN_PARAM * t.inputs RATE2_INPUT
        else 1 / 5 * t.inputs (RATE1_INPUT + i))
      setAt rates i (clamp v 0 1))
    s.rates
  -- Trigger: set the gate for the ramps to active
  let ramps := [0, 1, 2].foldl
    (fun (ramps : Nat → Ramp) (i : Nat) => setAt ramps i { ramps i with gate := true })
    s.ramps
  { s with
    accent := acc.2
    index := index
    level := level
    startPitch := startPitch
    finePitch := finePitch
    endPitch := endPitch
    ratioIndex := ratioIndex
    table := table
    algo := algo
    feedback := feedback
    rates := rates
    ramps := ramps }

/-- Lines 95 to 154 of `PSIOP::process`: the trigger detector is consulted and,
on an edge, the controls are latched. -/
def PSIOP.triggerStage (env : Env) (s : PSIOP) (t : Tick) : PSIOP :=
  let trg := env.schmitt s.trigger (t.inputs TRIGGER_INPUT / 2)
  let s := { s with trigger := trg.2 }
  if trg.1 then PSIOP.latch env s t else s

/-- Lines 156 to 165 of `PSIOP::process`: the choke detector is consulted and,
on an edge, the three ramps are muted. -/
def PSIOP.chokeStage (env : Env) (s : PSIOP) (t : Tick) : PSIOP :=
  let chk := env.schmitt s.choke (t.inputs CHOKE_INPUT / 2)
  let s := { s with choke := chk.2 }
  if chk.1 then
    { s with
      ramps := [0, 1, 2].foldl
        (fun (ramps : Nat → Ramp) (i : Nat) =>
          setAt ramps i { ramps i with gate := false, out := 0 })
        s.ramps }
  else s

/-- Lines 167 to 171 of `PSIOP::process`: the two amplitude ramps advance. -/
def PSIOP.ampRampStage (env : Env) (s : PSIOP) (t : Tick) : PSIOP :=
  { s with
    ramps := [0, 1].foldl
      (fun (ramps : Nat → Ramp) (i : Nat) =>
        setAt ramps i ((ramps i).process env 0 0 (s.rates i) t.args.sampleTime false))
      s.ramps }

/-- Lines 173 to 183 of `PSIOP::process`: the pitch ramp advances when the
latched speed exceeds `0.2`; the result is the new state and the local `pitch`. -/
def PSIOP.pitchStage (env : Env) (s : PSIOP) (t : Tick) : PSIOP × ℚ :=
  let pitch := s.startPitch
  if s.rates 2 > 1 / 5 then
    let ramps := setAt s.ramps 2
      ((s.ramps 2).process env (3 / 10) 0 (1 - s.rates 2) t.args.sampleTime true)
    let xf := (ramps 2).out
    ({ s with ramps := ramps }, crossfade s.endPitch s.startPitch xf)
  else (s, pitch)

/-- Loop state of the operator loop (lines 186 to 224): the operators, the
output jacks, the local accumulator `output`, and a record `fmMod i` of the value
of the local `fmMod` handed to `operators[i].process`. -/
structure OpLoop where
  operators : Nat → Operator
  outputs : Nat → ℚ
  output : ℚ
  fmMod : Nat → ℚ

/-- Inner loop, lines 197 to 203: the FM input of operator `i` summed over the
sources `j` from the current contents of `operators`. -/
def PSIOP.fmSum (operators : Nat → Operator) (index : ℚ) (algo : Int) (i : Nat) : ℚ :=
  [0, 1, 2, 3].foldl
    (fun (fmMod : ℚ) (j : Nat) => fmMod + (operators j).out * index * modMatrixGet algo j i)
    0

/-- Body of the operator loop for operator `i`, lines 190 to 223. -/
def PSIOP.operatorStep (env : Env) (s : PSIOP) (time pitch : ℚ) (l : OpLoop) (i : Nat) :
    OpLoop :=
  -- Set initial pitch for each operator
  let op := (l.operators i).setPitch env pitch
  -- Actual per operator ratio to be used is taken from the LUT of magic ratios
  let ratio := env.fm_frequency_ratios (matrixGet ratioMatrix s.ratioIndex i)
  let op := op.applyRatio ratio
  let operators := setAt l.operators i op
  -- Determine how much operator i is modulated by other modulators j++
  let fmMod := PSIOP.fmSum operators s.index s.algo i
  let amplitude := if i = 0 then (s.ramps 0).out else if i = 2 then (s.ramps 0).out
    else (s.ramps 1).out
  let feedback := if i = 0 then s.feedback else 0
  let op := op.process env time amplitude fmMod feedback (matrixGet tableMatrix s.table i)
  let operators := setAt operators i op
  -- Send to output as dependent on Algorithim
  { operators := operators
    output := l.output + (operators i).out * modMatrixGet s.algo i 4
    outputs := setAt l.outputs (DEBUG1_OUTPUT + i) (operators i).out
    fmMod := setAt l.fmMod i fmMod }

/-- Operator loop, lines 186 to 224, run on the state `s` left by the ramps. -/
def PSIOP.operatorLoop (env : Env) (s : PSIOP) (time pitch : ℚ) : OpLoop :=
  [0, 1, 2, 3].foldl (PSIOP.operatorStep env s time pitch)
    { operators := s.operators, outputs := s.outputs, output := 0, fmMod := fun _ => 0 }

/-- State and local `pitch` at line 185 of `PSIOP::process`, after the edge
detectors and the ramps and before the operator loop. -/
def PSIOP.beforeOperators (env : Env) (s : PSIOP) (t : Tick) : PSIOP × ℚ :=
  let s := PSIOP.triggerStage env s t
  let s := PSIOP.chokeStage env s t
  let s := PSIOP.ampRampStage env s t
  PSIOP.pitchStage env s t

/-- The operator loop of the tick `t` started in state `s`. -/
def PSIOP.tickLoop (env : Env) (s : PSIOP) (t : Tick) : OpLoop :=
  let b := PSIOP.beforeOperators env s t
  PSIOP.operatorLoop env b.1 t.args.sampleTime b.2

/-- Method `PSIOP::process`: one audio tick. -/
def PSIOP.process (env : Env) (s : PSIOP) (t : Tick) : PSIOP :=
  let b := PSIOP.beforeOperators env s t
  let l := PSIOP.operatorLoop env b.1 t.args.sampleTime b.2
  -- Send output signal to output jack
  { b.1 with
    operators := l.operators
    outputs := setAt l.outputs OUT_OUTPUT (l.output * 4 * b.1.level) }

/-- Value of the local `fmMod` handed to `operators[i].process` in the tick `t`. -/
def PSIOP.fmInput (env : Env) (s : PSIOP) (t : Tick) (i : Nat) : ℚ :=
  (PSIOP.tickLoop env s t).fmMod i

/-- Module as constructed: every member at its initialiser. -/
def PSIOP.init : PSIOP := {}

/-- State after the ticks `ts`, run in order from `s`. -/
def PSIOP.run (env : Env) (s : PSIOP) (ts : List Tick) : PSIOP :=
  ts.foldl (PSIOP.process env) s

/-! ## A concrete environment -/

/-- Edge detector of the host SDK: an edge is a passage from `LOW` at or above `1`. -/
def rackSchmitt (d : SchmittTrigger) (v : ℚ) : Bool × SchmittTrigger :=
  match d.state with
  | SchmittState.LOW => if v ≥ 1 then (true, { state := SchmittState.HIGH }) else (false, d)
  | SchmittState.HIGH => if v ≤ 0 then (false, { state := SchmittState.LOW }) else (false, d)
  | SchmittState.UNKNOWN =>
    if v ≥ 1 then (false, { state := SchmittState.HIGH })
    else if v ≤ 0 then (false, { state := SchmittState.LOW })
    else (false, d)

/-- Positive stand-in for `pow(2, x)`, exact at the integers. -/
def pow2Floor (x : ℚ) : ℚ :=
  if 0 ≤ ⌊x⌋ then 2 ^ ⌊x⌋.toNat else 1 / 2 ^ (-⌊x⌋).toNat

/-- Environment used to evaluate the model: a square wave in every table. -/
def sampleEnv : Env where
  pow2 := pow2Floor
  M_E := 2718 / 1000
  FREQ_C4 := 2616256 / 10000
  fm_frequency_ratios := fun k => (k + 1 : ℚ) / 4
  wavetable_opal := fun _ k => if k % 8 < 4 then 1 else -1
  wavetable_opal_lengths := fun _ => 8
  schmitt := rackSchmitt
  eucMod := eucMod1
  intOverflow := fun _ => -2147483648

/-- Facts about `pow` and `M_E` that the ramps rely on: both are positive. -/
def Env.Positive (env : Env) : Prop :=
  (∀ x, 0 < env.pow2 x) ∧ 0 < env.M_E

/-! ## Sample ticks and states -/

/-- Tick with every knob and jack at zero, at 48 kHz. -/
def quietTick : Tick :=
  { params := fun _ => 0, inputs := fun _ => 0, args := { sampleTime := 1 / 48000 } }

/-- Tick with 2 V on the trigger jack and everything else at zero, at 48 kHz. -/
def triggerTick : Tick :=
  { params := fun _ => 0
    inputs := fun k => if k = TRIGGER_INPUT then 2 else 0
    args := { sampleTime := 1 / 48000 } }

/-- Tick with 2 V on the choke jack and everything else at zero, at 48 kHz. -/
def chokeTick : Tick :=
  { params := fun _ => 0
    inputs := fun k => if k = CHOKE_INPUT then 2 else 0
    args := { sampleTime := 1 / 48000 } }

/-- Tick with 2 V on the trigger jack and 999 V, passed unattenuated, on the
ratio, wave and algorithm jacks. -/
def farTick : Tick :=
  { params := fun k => if k = RATIOATTEN_PARAM ∨ k = WAVEATTEN_PARAM then 1 else 0
    inputs := fun k =>
      if k = TRIGGER_INPUT then 2
      else if k = RATIO_INPUT ∨ k = WAVE_INPUT ∨ k = ALGO_INPUT then 999 else 0
    args := { sampleTime := 1 / 48000 } }

/-- State after one quiet tick from construction: the three detectors are armed. -/
def armed : PSIOP := PSIOP.process sampleEnv PSIOP.init quietTick

/-! ## Notions used in the statements -/

/-- Integer index computed for the ratio matrix on a trigger tick, before the clamp. -/
def ratioRaw (env : Env) (t : Tick) : Int :=
  wrap32 (castInt env (t.params RATIO_PARAM)
    + castInt env (roundInt (f32 (t.inputs RATIO_INPUT * t.params RATIOATTEN_PARAM))))

/-- Integer index computed for the wavetable matrix on a trigger tick, before the clamp. -/
def tableRaw (env : Env) (t : Tick) : Int :=
  wrap32 (castInt env (t.params WAVE_PARAM)
    + castInt env (roundInt (f32 (t.inputs WAVE_INPUT * t.params WAVEATTEN_PARAM))))

/-- Integer index computed for the algorithm on a trigger tick, before the clamp. -/
def algoRaw (env : Env) (t : Tick) : Int :=
  wrap32 (castInt env (t.params ALGO_PARAM) + castInt env (roundInt (t.inputs ALGO_INPUT)))

/-- Bounds of the three latched indices. -/
def PSIOP.IndicesInRange (s : PSIOP) : Prop :=
  (0 ≤ s.ratioIndex ∧ s.ratioIndex ≤ 31) ∧ (0 ≤ s.table ∧ s.table ≤ 63)
    ∧ (0 ≤ s.algo ∧ s.algo ≤ 5)

/-- Every ramp output of the module is in `[0, 1]`. -/
def PSIOP.RampsUnit (s : PSIOP) : Prop :=
  ∀ i, 0 ≤ (s.ramps i).out ∧ (s.ramps i).out ≤ 1

/-- One call of `Ramp::process` at shape `0` with the gate held true by the caller. -/
def Ramp.heldStep (env : Env) (riseRate fallRate dt : ℚ) (cycle : Bool) (r : Ramp) : Ramp :=
  ({ r with gate := true }).process env 0 riseRate fallRate dt cycle

/-- One call of `Ramp::process` at shape `0` with `cycle` off, as for the amplitude ramps. -/
def Ramp.freeStep (env : Env) (riseRate fallRate dt : ℚ) (r : Ramp) : Ramp :=
  r.process env 0 riseRate fallRate dt false

/-- Run of `n` successive calls of `Ramp::process` with the same arguments and no
write to the ramp between the calls. -/
def Ramp.processN (env : Env) (shape riseRate fallRate time : ℚ) (cycle : Bool) (n : Nat)
    (r : Ramp) : Ramp :=
  (fun q : Ramp => q.process env shape riseRate fallRate time cycle)^[n] r

/-- Tick with 2 V on the trigger jack, the algorithm knob at 1 and everything
else at zero, at 48 kHz. -/
def plainTick : Tick :=
  { params := fun k => if k = ALGO_PARAM then 1 else 0
    inputs := fun k => if k = TRIGGER_INPUT then 2 else 0
    args := { sampleTime := 1 / 48000 } }

/-- Tick with 2 V on the trigger and accent jacks, the algorithm knob at 1 and
everything else at zero, at 48 kHz. -/
def accentTick : Tick :=
  { params := fun k => if k = ALGO_PARAM then 1 else 0
    inputs := fun k => if k = TRIGGER_INPUT ∨ k = ACCENT_INPUT then 2 else 0
    args := { sampleTime := 1 / 48000 } }

/-- State after a first strike: quiet tick, trigger tick, quiet tick. -/
def struck : PSIOP := PSIOP.run sampleEnv PSIOP.init [quietTick, triggerTick, quietTick]

/-- Tick with every knob at 7 and 999 V on every jack but the trigger jack, which
is at zero. -/
def wildTick : Tick :=
  { params := fun _ => 7
    inputs := fun k => if k = TRIGGER_INPUT then 0 else 999
    args := { sampleTime := 1 / 48000 } }

/-- Tick with 2 V on the trigger jack, the speed knob at `1/2`, the end knob at 1
and everything else at zero, at 48 kHz. -/
def glideTick : Tick :=
  { params := fun k => if k = SPEED_PARAM then 1 / 2 else if k = END_PARAM then 1 else 0
    inputs := fun k => if k = TRIGGER_INPUT then 2 else 0
    args := { sampleTime := 1 / 48000 } }

/-- Tick with 2 V on the trigger jack, the ratio knob at 3 and `-1/2` V, passed
unattenuated, on the ratio jack. -/
def halfTick : Tick :=
  { params := fun k => if k = RATIO_PARAM then 3 else if k = RATIOATTEN_PARAM then 1 else 0
    inputs := fun k => if k = TRIGGER_INPUT then 2 else if k = RATIO_INPUT then -(1 / 2) else 0
    args := { sampleTime := 1 / 48000 } }

/-- Environment whose tables hold the ramp `0, 1, 2, ...`, entry 8 included. -/
def rampEnv : Env :=
  { sampleEnv with wavetable_opal := fun _ k => (k : ℚ) }

/-- Scaled read position `wtPOS` handed to `interpolateLinear` in `Operator::process`. -/
def Operator.wtPOS (env : Env) (o : Operator) (time fmMod feedback : ℚ) (table : Nat) : ℚ :=
  env.eucMod (Operator.wrapPhase o.phase o.freq time fmMod + feedback * o.feedbackSample)
    * (env.wavetable_opal_lengths table : ℚ)

/-- No tick of the list `ts`, run in order from `s`, has a trigger edge. -/
def PSIOP.NoTrigger (env : Env) : PSIOP → List Tick → Prop
  | _, [] => True
  | s, t :: ts =>
    (env.schmitt s.trigger (t.inputs TRIGGER_INPUT / 2)).1 = false
      ∧ PSIOP.NoTrigger env (PSIOP.process env s t) ts

/-- FM edge of algorithm `a`: source `j` modulates destination `i` with a
nonzero weight. -/
def fmEdge (a : Int) (j i : Nat) : Prop :=
  j < 4 ∧ i < 4 ∧ modMatrixGet a j i ≠ 0

/-- Both amplitude ramps rest at `0` with the gate off. -/
def PSIOP.AmpsAtRest (s : PSIOP) : Prop :=
  ∀ i, i < 2 → (s.ramps i).out = 0 ∧ (s.ramps i).gate = false

/-- The module is silent: the amplitude ramps rest at `0`, and the four operator
outputs, the four debug jacks and the audio jack are `0`. -/
def PSIOP.Silent (s : PSIOP) : Prop :=
  s.AmpsAtRest
    ∧ (∀ i, i < 4 → (s.operators i).out = 0 ∧ s.outputs (DEBUG1_OUTPUT + i) = 0)
    ∧ s.outputs OUT_OUTPUT = 0

/-- Whether the most recent trigger edge of the run `ts` from `s` came with an
accent edge; `b` is the answer before the run. -/
def PSIOP.accentedLast (env : Env) : PSIOP → Bool → List Tick → Bool
  | _, b, [] => b
  | s, b, t :: ts =>
    PSIOP.accentedLast env (PSIOP.process env s t)
      (if (env.schmitt s.trigger (t.inputs TRIGGER_INPUT / 2)).1
        then (env.schmitt s.accent (t.inputs ACCENT_INPUT / 2)).1 else b)
      ts

/-- Bounds kept by every tick: ramps in `[0, 1]`, indices in range, the level at
one of its two presets, operator outputs of size at most `1` and the audio
output of size at most `4 * level`. -/
def PSIOP.Bounded (s : PSIOP) : Prop :=
  s.RampsUnit ∧ s.IndicesInRange ∧ (s.level = 1 ∨ s.level = 9 / 5)
    ∧ (∀ i, i < 4 → |(s.operators i).out| ≤ 1)
    ∧ |s.outputs OUT_OUTPUT| ≤ 4 * s.level

/-! ## Binary32 arithmetic -/

/-- Remainder `eucMod(a, 1.f)` in binary32: `fmod` is exact, the sum
`mod + base` is rounded. -/
def eucModF32 (a : ℚ) : ℚ :=
  let m := fmod1 a
  if m ≥ 0 then m else f32 (m + 1)

/-- Blend `crossfade(a, b, p)` with each operation rounded to binary32. -/
def crossfadeF32 (a b p : ℚ) : ℚ := f32 (a + f32 (f32 (b - a) * p))

/-- Method `Ramp::shapeDelta` on binary32 arguments with every `float` operation
rounded; the `double` expression `M_E * delta / tau` is rounded when it is
stored in the `float`. -/
def Ramp.shapeDeltaF32 (env : Env) (delta tau shape : ℚ) : ℚ :=
  let lin := f32 (sgn delta * 10 / tau)
  if shape < 0 then
    let log := f32 (f32 (sgn delta * 40 / tau) / f32 (|delta| + 1))
    crossfadeF32 lin log (f32 (-shape * f32 (19 / 20)))
  else
    let exp := f32 (env.M_E * delta / tau)
    crossfadeF32 lin exp (f32 (shape * f32 (9 / 10)))

/-- Method `Ramp::process` on a binary32 state and binary32 arguments with every
`float` operation rounded: `minTime` is the `float` nearest to `1e-3`, and the
`double` expression of the rise time is rounded when it is stored in the `float`. -/
def Ramp.processF32 (env : Env) (r : Ramp) (shape riseRate fallRate time : ℚ)
    (cycle : Bool) : Ramp :=
  let inp : ℚ := if r.gate then 1 else 0
  let delta := f32 (inp - r.out)
  if delta > 0 then
    -- Rise
    let riseCv := riseRate
    let rise := f32 (f32 (1 / 1000) * env.pow2 (riseCv * 20))
    let out1 := f32 (r.out + f32 (Ramp.shapeDeltaF32 env delta rise shape * time))
    let rising : Bool := decide (f32 (inp - out1) > 1 / 1000)
    let gate1 := if !rising then false else r.gate
    { r with out := if !rising then inp else out1, gate := gate1 }
  else if delta < 0 then
    -- Fall
    let fallCv := clamp fallRate 0 1
    let fall := f32 (f32 (1 / 1000) * f32 (env.pow2 (f32 (fallCv * 20))))
    let out1 := f32 (r.out + f32 (Ramp.shapeDeltaF32 env delta fall shape * time))
    let falling : Bool := decide (f32 (inp - out1) < -(1 / 1000))
    let pulse1 := if !falling then r.endOfCyclePulse.trigger (1 / 1000) else r.endOfCyclePulse
    let gate1 := if !falling && cycle then true else r.gate
    { r with out := if !falling then inp else out1, gate := gate1, endOfCyclePulse := pulse1 }
  else
    { r with out := inp, gate := false }

/-- One call of `Ramp.processF32` at shape `0` with the gate held true by the caller. -/
def Ramp.heldStepF32 (env : Env) (riseRate fallRate dt : ℚ) (cycle : Bool) (r : Ramp) : Ramp :=
  Ramp.processF32 env { r with gate := true } 0 riseRate fallRate dt cycle

/-- One call of `Ramp.processF32` at shape `0` with `cycle` off. -/
def Ramp.freeStepF32 (env : Env) (riseRate fallRate dt : ℚ) (r : Ramp) : Ramp :=
  Ramp.processF32 env r 0 riseRate fallRate dt false

/-- Environment of `sampleEnv` with the binary32 remainder and the ramp table
`0, 1, 2, ...`. -/
def f32Env : Env :=
  { sampleEnv with eucMod := eucModF32, wavetable_opal := fun _ k => (k : ℚ) }

/-- Tick with 2 V on the trigger jack and 3000000000 V, passed unattenuated, on the
ratio jack. -/
def hugeTick : Tick :=
  { params := fun k => if k = RATIOATTEN_PARAM then 1 else 0
    inputs := fun k =>
      if k = TRIGGER_INPUT then 2 else if k = RATIO_INPUT then 3000000000 else 0
    args := { sampleTime := 1 / 48000 } }

/-- Tick with 2 V on the trigger jack, the start knob at 4, the first rate knob at
`1/2` and everything else at zero, at 48 kHz. -/
def highTick : Tick :=
  { params := fun k => if k = START_PARAM then 4 else if k = RATE1_PARAM then 1 / 2 else 0
    inputs := fun k => if k = TRIGGER_INPUT then 2 else 0
    args := { sampleTime := 1 / 48000 } }

/-- Environment of `sampleEnv` whose tables hold the square wave in the samples
`0..7` and `100` in the entry 8 behind them. -/
def spikeEnv : Env :=
  { sampleEnv with
    wavetable_opal := fun _ k => if k = 8 then 100 else if k % 8 < 4 then 1 else -1 }

/-- Fact about `eucMod(a, 1.f)`: the remainder lies in `[0, 1]`; the exact
remainder is below `1`, the binary32 one can round up to `1`. -/
def Env.EucModUnit (env : Env) : Prop :=
  ∀ a, 0 ≤ env.eucMod a ∧ env.eucMod a ≤ 1

/-- Every table length fits in the 32-bit `int`. -/
def Env.LengthsFit (env : Env) : Prop :=
  ∀ table, env.wavetable_opal_lengths table < 2147483648

/-- Every entry of a table that can be read has size at most `1`: the `L`
samples and the entries `L` and `L + 1` behind them. -/
def Env.TablesBounded (env : Env) : Prop :=
  ∀ table k, k ≤ env.wavetable_opal_lengths table + 1 → |env.wavetable_opal table k| ≤ 1

/-! ## Operator phase (C2) -/

theorem Operator.process_phase (env : Env) (o : Operator)
    (time amplitude fmMod feedback : ℚ) (table : Nat) :
    (o.process env time amplitude fmMod feedback table).phase
      = Operator.wrapPhase o.phase o.freq time fmMod := rfl

/-- C2, as stated, fails: an operator at phase `0` with `freq * time = 1/100`
and `fmMod = -51/50` has increment `-1/2` (of size below `1`), and
`Operator::process` leaves the phase at `1/2`, outside `[-1/2, 1/2)`. -/
theorem Operator.process_phase_half_open_fails :
    (-(1 / 2) ≤ ({ phase := 0, freq := 440 } : Operator).phase
      ∧ ({ phase := 0, freq := 440 } : Operator).phase < 1 / 2)
    ∧ |({ phase := 0, freq := 440 } : Operator).freq * (1 / 44000) + 1 / 2 * (-51 / 50)| < 1
    ∧ ¬ ((Operator.process sampleEnv { phase := 0, freq := 440 }
            (1 / 44000) 1 (-51 / 50) 0 0).phase < 1 / 2) := by
  decide!

/-- C2, amended: for an operator whose phase is in the closed range
`[-1/2, 1/2]` and an increment `freq * time + fmMod / 2` of size below `1`,
the phase after `Operator::process` is in the closed range `[-1/2, 1/2]`, and
it is `1/2` exactly when the unwrapped sum is `-1/2`. -/
theorem Operator.process_phase_closed_range (env : Env) (o : Operator)
    (time amplitude fmMod feedback : ℚ) (table : Nat)
    (hlo : -(1 / 2) ≤ o.phase) (hhi : o.phase ≤ 1 / 2)
    (hinc : |o.freq * time + 1 / 2 * fmMod| < 1) :
    -(1 / 2) ≤ (o.process env time amplitude fmMod feedback table).phase
    ∧ (o.process env time amplitude fmMod feedback table).phase ≤ 1 / 2
    ∧ ((o.process env time amplitude fmMod feedback table).phase = 1 / 2
        ↔ o.phase + (o.freq * time + 1 / 2 * fmMod) = -(1 / 2)) := by
  rw [Operator.process_phase]
  obtain ⟨h1, h2⟩ := abs_lt.mp hinc
  unfold Operator.wrapPhase
  simp only []
  have e : fmMod * (1 / 2) = 1 / 2 * fmMod := by ring
  rw [e]
  split_ifs with c1 c2
  · refine ⟨by linarith, by linarith, ?_⟩
    constructor <;> intro h <;> linarith
  · refine ⟨by linarith, by linarith, ?_⟩
    constructor <;> intro h <;> linarith
  · push_neg at c1 c2
    refine ⟨by linarith, by linarith, ?_⟩
    constructor <;> intro h <;> linarith

/-- Instance: an operator at phase `1/4` advanced by `0.01 + 0.25` ends in range. -/
theorem Operator.process_phase_closed_range_witness :
    (-(1 / 2) ≤ (Operator.process sampleEnv { phase := 1 / 4, freq := 440 }
        (1 / 44000) 1 (1 / 2) 0 0).phase
    ∧ (Operator.process sampleEnv { phase := 1 / 4, freq := 440 }
        (1 / 44000) 1 (1 / 2) 0 0).phase ≤ 1 / 2
    ∧ ((Operator.process sampleEnv { phase := 1 / 4, freq := 440 }
        (1 / 44000) 1 (1 / 2) 0 0).phase = 1 / 2
        ↔ ({ phase := 1 / 4, freq := 440 } : Operator).phase
            + (({ phase := 1 / 4, freq := 440 } : Operator).freq * (1 / 44000)
                + 1 / 2 * (1 / 2)) = -(1 / 2))) :=
  Operator.process_phase_closed_range sampleEnv { phase := 1 / 4, freq := 440 }
    (1 / 44000) 1 (1 / 2) 0 0 (by decide!) (by decide!) (by decide!)

/-! ## Choke (C3) -/

/-- A ramp at rest at `0` with its gate off is left at rest by `Ramp::process`. -/
theorem Ramp.process_at_rest (env : Env) (r : Ramp) (shape riseRate fallRate time : ℚ)
    (cycle : Bool) (hg : r.gate = false) (ho : r.out = 0) :
    (r.process env shape riseRate fallRate time cycle).out = 0
    ∧ (r.process env shape riseRate fallRate time cycle).gate = false := by
  simp [Ramp.process, hg, ho]

/-- The ramps after a choke edge: gate off and output `0`. -/
theorem PSIOP.chokeStage_ramps (env : Env) (s : PSIOP) (t : Tick)
    (h : (env.schmitt s.choke (t.inputs CHOKE_INPUT / 2)).1 = true) (i : Nat) (hi : i < 3) :
    ((PSIOP.chokeStage env s t).ramps i).out = 0
    ∧ ((PSIOP.chokeStage env s t).ramps i).gate = false := by
  have hi' : i = 0 ∨ i = 1 ∨ i = 2 := by omega
  rcases hi' with rfl | rfl | rfl <;> simp [PSIOP.chokeStage, h, setAt]

theorem PSIOP.triggerStage_choke (env : Env) (s : PSIOP) (t : Tick) :
    (PSIOP.triggerStage env s t).choke = s.choke := by
  unfold PSIOP.triggerStage PSIOP.latch
  simp only []
  split_ifs <;> rfl

theorem PSIOP.process_ramps (env : Env) (s : PSIOP) (t : Tick) :
    (PSIOP.process env s t).ramps = (PSIOP.beforeOperators env s t).1.ramps := rfl

/-- The amplitude stage applies `Ramp::process` to ramps 0 and 1 only. -/
theorem PSIOP.ampRampStage_ramps (env : Env) (s : PSIOP) (t : Tick) (i : Nat) :
    (PSIOP.ampRampStage env s t).ramps i
      = if i < 2 then (s.ramps i).process env 0 0 (s.rates i) t.args.sampleTime false
        else s.ramps i := by
  by_cases h0 : i = 0
  · subst h0; simp [PSIOP.ampRampStage, setAt]
  · by_cases h1 : i = 1
    · subst h1; simp [PSIOP.ampRampStage, setAt]
    · have : ¬ i < 2 := by omega
      simp [PSIOP.ampRampStage, setAt, h0, h1, this]

/-- The pitch stage applies `Ramp::process` to ramp 2 only, and only above the
speed threshold. -/
theorem PSIOP.pitchStage_ramps (env : Env) (s : PSIOP) (t : Tick) (i : Nat) :
    (PSIOP.pitchStage env s t).1.ramps i
      = if i = 2 ∧ s.rates 2 > 1 / 5
        then (s.ramps 2).process env (3 / 10) 0 (1 - s.rates 2) t.args.sampleTime true
        else s.ramps i := by
  unfold PSIOP.pitchStage
  simp only []
  by_cases hr : s.rates 2 > 1 / 5
  · rw [if_pos hr]
    by_cases hi : i = 2
    · subst hi
      rw [if_pos ⟨rfl, hr⟩]
      simp only [setAt, if_true]
    · rw [if_neg (fun c => hi c.1)]
      simp only [setAt, hi, if_false]
  · rw [if_neg hr, if_neg (fun c => hr c.2)]

/-- C3: on every tick in which the choke detector reports a rising edge,
whatever the state, the other inputs and the trigger, all three ramps end the
tick of `PSIOP::process` with `out` exactly `0` and `gate` false. -/
theorem PSIOP.choke_hard_reset (env : Env) (s : PSIOP) (t : Tick)
    (h : (env.schmitt s.choke (t.inputs CHOKE_INPUT / 2)).1 = true) :
    ∀ i, i < 3 →
      ((PSIOP.process env s t).ramps i).out = 0
      ∧ ((PSIOP.process env s t).ramps i).gate = false := by
  intro i hi
  rw [PSIOP.process_ramps]
  unfold PSIOP.beforeOperators
  simp only []
  have h' : (env.schmitt (PSIOP.triggerStage env s t).choke (t.inputs CHOKE_INPUT / 2)).1
      = true := by rw [PSIOP.triggerStage_choke]; exact h
  have hc := PSIOP.chokeStage_ramps env (PSIOP.triggerStage env s t) t h'
  rw [PSIOP.pitchStage_ramps]
  split_ifs with c
  · obtain ⟨rfl, _⟩ := c
    rw [PSIOP.ampRampStage_ramps]
    simp only [show ¬ (2 < 2) by decide, if_false]
    exact Ramp.process_at_rest env _ _ _ _ _ _ (hc 2 (by decide)).2 (hc 2 (by decide)).1
  · rw [PSIOP.ampRampStage_ramps]
    split_ifs with c2
    · exact Ramp.process_at_rest env _ _ _ _ _ _ (hc i hi).2 (hc i hi).1
    · exact hc i hi

/-- Instance: a choke edge on the tick after a trigger mutes the three ramps. -/
theorem PSIOP.choke_hard_reset_witness :
    (sampleEnv.schmitt (PSIOP.process sampleEnv armed triggerTick).choke
        (chokeTick.inputs CHOKE_INPUT / 2)).1 = true
    ∧ ∀ i, i < 3 →
      ((PSIOP.process sampleEnv (PSIOP.process sampleEnv armed triggerTick) chokeTick).ramps i).out
        = 0
      ∧ ((PSIOP.process sampleEnv (PSIOP.process sampleEnv armed triggerTick) chokeTick).ramps
          i).gate = false :=
  ⟨by decide!, PSIOP.choke_hard_reset sampleEnv (PSIOP.process sampleEnv armed triggerTick)
    chokeTick (by decide!)⟩

/-! ## Latched indices (C4, C5) -/

/-- After the trigger stage nothing in the tick writes the three latched indices. -/
theorem PSIOP.process_indices (env : Env) (s : PSIOP) (t : Tick) :
    (PSIOP.process env s t).ratioIndex = (PSIOP.triggerStage env s t).ratioIndex
    ∧ (PSIOP.process env s t).table = (PSIOP.triggerStage env s t).table
    ∧ (PSIOP.process env s t).algo = (PSIOP.triggerStage env s t).algo := by
  unfold PSIOP.process PSIOP.beforeOperators PSIOP.pitchStage PSIOP.ampRampStage
    PSIOP.chokeStage
  simp only []
  split_ifs <;> exact ⟨rfl, rfl, rfl⟩

/-- The three latched indices after the trigger stage. -/
theorem PSIOP.triggerStage_indices (env : Env) (s : PSIOP) (t : Tick) :
    (PSIOP.triggerStage env s t).ratioIndex
        = (if (env.schmitt s.trigger (t.inputs TRIGGER_INPUT / 2)).1
            then clampInt (ratioRaw env t) 0 31 else s.ratioIndex)
    ∧ (PSIOP.triggerStage env s t).table
        = (if (env.schmitt s.trigger (t.inputs TRIGGER_INPUT / 2)).1
            then clampInt (tableRaw env t) 0 63 else s.table)
    ∧ (PSIOP.triggerStage env s t).algo
        = (if (env.schmitt s.trigger (t.inputs TRIGGER_INPUT / 2)).1
            then clampInt (algoRaw env t) 0 5 else s.algo) := by
  unfold PSIOP.triggerStage PSIOP.latch ratioRaw tableRaw algoRaw
  simp only []
  split_ifs <;> exact ⟨rfl, rfl, rfl⟩

theorem clampInt_above (x b : Int) (hb : 0 ≤ b) (h : b < x) : clampInt x 0 b = b := by
  unfold clampInt
  rw [min_eq_right (le_of_lt h), max_eq_left hb]

theorem clampInt_below (x b : Int) (hb : 0 ≤ b) (h : x < 0) : clampInt x 0 b = 0 := by
  unfold clampInt
  rw [min_eq_left (by omega), max_eq_right (le_of_lt h)]

theorem clampInt_inside (x b : Int) (h0 : 0 ≤ x) (h1 : x ≤ b) : clampInt x 0 b = x := by
  unfold clampInt
  rw [min_eq_left h1, max_eq_left h0]

theorem clampInt_range (x b : Int) (hb : 0 ≤ b) : 0 ≤ clampInt x 0 b ∧ clampInt x 0 b ≤ b := by
  unfold clampInt
  exact ⟨le_max_right _ _, max_le (min_le_right _ _) hb⟩

/-- The result of `int` arithmetic is a 32-bit value. -/
theorem wrap32_fits (z : Int) : FitsInt (wrap32 z) := by
  unfold FitsInt wrap32
  constructor <;> omega

/-- C5: on a tick in which the trigger detector reports an edge, the latched
ratio, wavetable and algorithm indices are the computed integers, the 32-bit
`int` values `(int)param + (int)round(cv)`, clamped to `[0, 31]`, `[0, 63]` and
`[0, 5]`: a computed index above the bound latches the bound, one below `0`
latches `0`, and one in range is latched as it is. -/
theorem PSIOP.latch_indices_clamped (env : Env) (s : PSIOP) (t : Tick)
    (h : (env.schmitt s.trigger (t.inputs TRIGGER_INPUT / 2)).1 = true) :
    (FitsInt (ratioRaw env t) ∧ FitsInt (tableRaw env t) ∧ FitsInt (algoRaw env t))
    ∧ ((PSIOP.process env s t).ratioIndex = clampInt (ratioRaw env t) 0 31
      ∧ (PSIOP.process env s t).table = clampInt (tableRaw env t) 0 63
      ∧ (PSIOP.process env s t).algo = clampInt (algoRaw env t) 0 5)
    ∧ ((31 < ratioRaw env t → (PSIOP.process env s t).ratioIndex = 31)
      ∧ (ratioRaw env t < 0 → (PSIOP.process env s t).ratioIndex = 0)
      ∧ (0 ≤ ratioRaw env t → ratioRaw env t ≤ 31 → (PSIOP.process env s t).ratioIndex = ratioRaw env t))
    ∧ ((63 < tableRaw env t → (PSIOP.process env s t).table = 63)
      ∧ (tableRaw env t < 0 → (PSIOP.process env s t).table = 0)
      ∧ (0 ≤ tableRaw env t → tableRaw env t ≤ 63 → (PSIOP.process env s t).table = tableRaw env t))
    ∧ ((5 < algoRaw env t → (PSIOP.process env s t).algo = 5)
      ∧ (algoRaw env t < 0 → (PSIOP.process env s t).algo = 0)
      ∧ (0 ≤ algoRaw env t → algoRaw env t ≤ 5 → (PSIOP.process env s t).algo = algoRaw env t)) := by
  obtain ⟨p1, p2, p3⟩ := PSIOP.process_indices env s t
  obtain ⟨q1, q2, q3⟩ := PSIOP.triggerStage_indices env s t
  rw [h] at q1 q2 q3
  simp only [if_true] at q1 q2 q3
  rw [p1, p2, p3, q1, q2, q3]
  refine ⟨⟨wrap32_fits _, wrap32_fits _, wrap32_fits _⟩, ⟨rfl, rfl, rfl⟩, ⟨?_, ?_, ?_⟩,
    ⟨?_, ?_, ?_⟩, ⟨?_, ?_, ?_⟩⟩
  · exact clampInt_above _ _ (by decide)
  · exact clampInt_below _ _ (by decide)
  · exact clampInt_inside _ _
  · exact clampInt_above _ _ (by decide)
  · exact clampInt_below _ _ (by decide)
  · exact clampInt_inside _ _
  · exact clampInt_above _ _ (by decide)
  · exact clampInt_below _ _ (by decide)
  · exact clampInt_inside _ _

/-- Instance: computed indices of `999` latch `31`, `63` and `5`; at 3000000000 V
the conversion does not fit, the computed ratio index is `INT_MIN` on x86, and
`0` is latched. -/
theorem PSIOP.latch_indices_clamped_witness :
    (sampleEnv.schmitt armed.trigger (farTick.inputs TRIGGER_INPUT / 2)).1 = true
    ∧ ratioRaw sampleEnv farTick = 999 ∧ tableRaw sampleEnv farTick = 999
    ∧ algoRaw sampleEnv farTick = 999
    ∧ (PSIOP.process sampleEnv armed farTick).ratioIndex = 31
    ∧ (PSIOP.process sampleEnv armed farTick).table = 63
    ∧ (PSIOP.process sampleEnv armed farTick).algo = 5
    ∧ (sampleEnv.schmitt armed.trigger (hugeTick.inputs TRIGGER_INPUT / 2)).1 = true
    ∧ ratioRaw sampleEnv hugeTick = -2147483648
    ∧ (PSIOP.process sampleEnv armed hugeTick).ratioIndex = 0 :=
  have h := PSIOP.latch_indices_clamped sampleEnv armed farTick (by decide!)
  have h2 := PSIOP.latch_indices_clamped sampleEnv armed hugeTick (by decide!)
  ⟨by decide!, by decide!, by decide!, by decide!,
    h.2.2.1.1 (by decide!), h.2.2.2.1.1 (by decide!), h.2.2.2.2.1 (by decide!),
    by decide!, by decide!, h2.2.2.1.2.1 (by decide!)⟩

/-- Every row `0..31` of `ratioMatrix` has four entries, each at most `22`. -/
theorem ratioMatrix_entries :
    ∀ r, r < 32 → ∀ i, i < 4 →
      matrixGet? ratioMatrix (r : Nat) i = some (matrixGet ratioMatrix (r : Nat) i)
      ∧ matrixGet ratioMatrix (r : Nat) i ≤ 22 := by
  decide!

/-- Every row `0..63` of `tableMatrix` has four entries, each at most `7`. -/
theorem tableMatrix_entries :
    ∀ r, r < 64 → ∀ i, i < 4 →
      matrixGet? tableMatrix (r : Nat) i = some (matrixGet tableMatrix (r : Nat) i)
      ∧ matrixGet tableMatrix (r : Nat) i ≤ 7 := by
  decide!

/-- Every algorithm `0..5` of `modMatrix` has four sources and five destinations. -/
theorem modMatrix_entries :
    ∀ a, a < 6 → ∀ j, j < 4 → ∀ d, d < 5 →
      modMatrixGet? (a : Nat) j d = some (modMatrixGet (a : Nat) j d) := by
  decide!

theorem PSIOP.process_indicesInRange (env : Env) (s : PSIOP) (t : Tick)
    (h : s.IndicesInRange) : (PSIOP.process env s t).IndicesInRange := by
  obtain ⟨p1, p2, p3⟩ := PSIOP.process_indices env s t
  obtain ⟨q1, q2, q3⟩ := PSIOP.triggerStage_indices env s t
  unfold PSIOP.IndicesInRange at *
  rw [p1, p2, p3, q1, q2, q3]
  split_ifs
  · exact ⟨clampInt_range _ _ (by decide), clampInt_range _ _ (by decide),
      clampInt_range _ _ (by decide)⟩
  · exact h

theorem PSIOP.run_indicesInRange (env : Env) (ts : List Tick) :
    ∀ s : PSIOP, s.IndicesInRange → (PSIOP.run env s ts).IndicesInRange := by
  induction ts with
  | nil => intro s h; exact h
  | cons t ts ih =>
    intro s h
    exact ih _ (PSIOP.process_indicesInRange env s t h)

/-- C4: in every state reached from the constructed module by any ticks,
`ratioIndex` is in `0..31`, `table` in `0..63`, `algo` in `0..5`, and for
every operator slot `i < 4` the reads `ratioMatrix[ratioIndex][i]` and
`tableMatrix[table][i]` are inside the arrays and give a value at most `22`
(an index of the 23 ratios) and at most `7`; the reads
`modMatrix[algo][j][d]` with `j < 4`, `d < 5` are inside the array too. -/
theorem PSIOP.reachable_indices_in_bounds (env : Env) (ts : List Tick) :
    ((0 ≤ (PSIOP.run env PSIOP.init ts).ratioIndex
        ∧ (PSIOP.run env PSIOP.init ts).ratioIndex ≤ 31)
      ∧ (0 ≤ (PSIOP.run env PSIOP.init ts).table ∧ (PSIOP.run env PSIOP.init ts).table ≤ 63)
      ∧ (0 ≤ (PSIOP.run env PSIOP.init ts).algo ∧ (PSIOP.run env PSIOP.init ts).algo ≤ 5))
    ∧ ∀ i, i < 4 →
      (∃ k, matrixGet? ratioMatrix (PSIOP.run env PSIOP.init ts).ratioIndex i = some k
          ∧ k ≤ 22)
      ∧ (∃ w, matrixGet? tableMatrix (PSIOP.run env PSIOP.init ts).table i = some w ∧ w ≤ 7)
      ∧ ∀ d, d < 5 →
          ∃ c, modMatrixGet? (PSIOP.run env PSIOP.init ts).algo i d = some c := by
  have hinit : PSIOP.init.IndicesInRange := by
    unfold PSIOP.IndicesInRange PSIOP.init
    decide
  have h := PSIOP.run_indicesInRange env ts PSIOP.init hinit
  refine ⟨h, ?_⟩
  obtain ⟨⟨r0, r1⟩, ⟨w0, w1⟩, ⟨a0, a1⟩⟩ := h
  generalize (PSIOP.run env PSIOP.init ts).ratioIndex = r at r0 r1
  generalize (PSIOP.run env PSIOP.init ts).table = w at w0 w1
  generalize (PSIOP.run env PSIOP.init ts).algo = a at a0 a1
  lift r to ℕ using r0
  lift w to ℕ using w0
  lift a to ℕ using a0
  intro i hi
  refine ⟨⟨_, ratioMatrix_entries r (by omega) i hi⟩, ⟨_, tableMatrix_entries w (by omega) i hi⟩,
    ?_⟩
  intro d hd
  exact ⟨_, modMatrix_entries a (by omega) i hi d hd⟩

/-! ## The operator loop and the mix (C1, C10) -/

theorem PSIOP.operatorStep_output (env : Env) (s : PSIOP) (time pitch : ℚ) (l : OpLoop)
    (i : Nat) :
    (PSIOP.operatorStep env s time pitch l i).output
      = l.output + ((PSIOP.operatorStep env s time pitch l i).operators i).out
          * modMatrixGet s.algo i 4 := rfl

/-- Iteration `i` of the operator loop writes `operators[i]` only. -/
theorem PSIOP.operatorStep_operators_ne (env : Env) (s : PSIOP) (time pitch : ℚ) (l : OpLoop)
    (i k : Nat) (h : k ≠ i) :
    (PSIOP.operatorStep env s time pitch l i).operators k = l.operators k := by
  simp [PSIOP.operatorStep, setAt, h]

/-- Four iterations from any loop state add the mix-column dot product of the
operator outputs to the accumulator. -/
theorem PSIOP.operatorSteps_output (env : Env) (s : PSIOP) (time pitch : ℚ) (l0 : OpLoop) :
    ([0, 1, 2, 3].foldl (PSIOP.operatorStep env s time pitch) l0).output
      = l0.output + ∑ i in Finset.range 4,
          (([0, 1, 2, 3].foldl (PSIOP.operatorStep env s time pitch) l0).operators i).out
            * modMatrixGet s.algo i 4 := by
  simp only [List.foldl]
  simp only [Finset.sum_range_succ, Finset.sum_range_zero]
  rw [PSIOP.operatorStep_output env s time pitch _ 3,
    PSIOP.operatorStep_output env s time pitch _ 2,
    PSIOP.operatorStep_output env s time pitch _ 1,
    PSIOP.operatorStep_output env s time pitch _ 0]
  rw [PSIOP.operatorStep_operators_ne env s time pitch _ 3 0 (by decide),
    PSIOP.operatorStep_operators_ne env s time pitch _ 2 0 (by decide),
    PSIOP.operatorStep_operators_ne env s time pitch _ 1 0 (by decide),
    PSIOP.operatorStep_operators_ne env s time pitch _ 3 1 (by decide),
    PSIOP.operatorStep_operators_ne env s time pitch _ 2 1 (by decide),
    PSIOP.operatorStep_operators_ne env s time pitch _ 3 2 (by decide)]
  ring

/-- The accumulator `output` after the loop is the mix-column dot product of
the operator outputs after the loop. -/
theorem PSIOP.operatorLoop_output (env : Env) (s : PSIOP) (time pitch : ℚ) :
    (PSIOP.operatorLoop env s time pitch).output
      = ∑ i in Finset.range 4,
          ((PSIOP.operatorLoop env s time pitch).operators i).out * modMatrixGet s.algo i 4 := by
  unfold PSIOP.operatorLoop
  rw [PSIOP.operatorSteps_output]
  simp only [zero_add]

/-- C10: on every tick the audio output sample written by `PSIOP::process` is
`4 * level * Σ_{i<4} out_i * modMatrix[algo][i][4]`, with `out_i` the output of
operator `i` after this tick and `level`, `algo` the latched values. -/
theorem PSIOP.audio_output_is_mix (env : Env) (s : PSIOP) (t : Tick) :
    (PSIOP.process env s t).outputs OUT_OUTPUT
      = 4 * (PSIOP.process env s t).level
          * ∑ i in Finset.range 4,
              ((PSIOP.process env s t).operators i).out
                * modMatrixGet (PSIOP.process env s t).algo i 4 := by
  have h := PSIOP.operatorLoop_output env (PSIOP.beforeOperators env s t).1
    t.args.sampleTime (PSIOP.beforeOperators env s t).2
  have e : (PSIOP.process env s t).outputs OUT_OUTPUT
      = (PSIOP.operatorLoop env (PSIOP.beforeOperators env s t).1 t.args.sampleTime
          (PSIOP.beforeOperators env s t).2).output * 4
        * (PSIOP.beforeOperators env s t).1.level := by
    simp only [PSIOP.process, setAt, if_true]
  rw [e]
  show (PSIOP.operatorLoop env (PSIOP.beforeOperators env s t).1 t.args.sampleTime
      (PSIOP.beforeOperators env s t).2).output * 4 * (PSIOP.beforeOperators env s t).1.level
    = 4 * (PSIOP.beforeOperators env s t).1.level
      * ∑ i in Finset.range 4,
          ((PSIOP.operatorLoop env (PSIOP.beforeOperators env s t).1 t.args.sampleTime
            (PSIOP.beforeOperators env s t).2).operators i).out
            * modMatrixGet (PSIOP.beforeOperators env s t).1.algo i 4
  rw [h]
  ring

/-- Iteration `i` of the operator loop records `fmMod i` only. -/
theorem PSIOP.operatorStep_fmMod_ne (env : Env) (s : PSIOP) (time pitch : ℚ) (l : OpLoop)
    (i k : Nat) (h : k ≠ i) :
    (PSIOP.operatorStep env s time pitch l i).fmMod k = l.fmMod k := by
  simp [PSIOP.operatorStep, setAt, h]

/-- The FM sum as a sum over the four sources. -/
theorem PSIOP.fmSum_eq (operators : Nat → Operator) (index : ℚ) (algo : Int) (i : Nat) :
    PSIOP.fmSum operators index algo i
      = ∑ j in Finset.range 4, (operators j).out * index * modMatrixGet algo j i := by
  simp only [PSIOP.fmSum, List.foldl, Finset.sum_range_succ, Finset.sum_range_zero]

/-- The FM input of iteration `i` is summed from the outputs held in
`operators` when the iteration starts. -/
theorem PSIOP.operatorStep_fmMod_self (env : Env) (s : PSIOP) (time pitch : ℚ) (l : OpLoop)
    (i : Nat) :
    (PSIOP.operatorStep env s time pitch l i).fmMod i
      = ∑ j in Finset.range 4, (l.operators j).out * s.index * modMatrixGet s.algo j i := by
  have e : (PSIOP.operatorStep env s time pitch l i).fmMod i
      = PSIOP.fmSum (setAt l.operators i
          (((l.operators i).setPitch env pitch).applyRatio
            (env.fm_frequency_ratios (matrixGet ratioMatrix s.ratioIndex i))))
          s.index s.algo i := by
    simp only [PSIOP.operatorStep, setAt, if_true]
  rw [e, PSIOP.fmSum_eq]
  apply Finset.sum_congr rfl
  intro j _
  by_cases hj : j = i
  · subst hj; simp [setAt, Operator.setPitch, Operator.applyRatio]
  · simp [setAt, hj]

/-- Four iterations from any loop state: the FM input of operator `i` uses the
outputs already written in this loop for the sources below `i` and the
outputs held at the start of the loop for the sources from `i` up. -/
theorem PSIOP.operatorSteps_fmMod (env : Env) (s : PSIOP) (time pitch : ℚ) (l0 : OpLoop)
    (i : Nat) (hi : i < 4) :
    ([0, 1, 2, 3].foldl (PSIOP.operatorStep env s time pitch) l0).fmMod i
      = ∑ j in Finset.range 4,
          (if j < i
            then (([0, 1, 2, 3].foldl (PSIOP.operatorStep env s time pitch) l0).operators j).out
            else (l0.operators j).out) * s.index * modMatrixGet s.algo j i := by
  simp only [List.foldl]
  have hi' : i = 0 ∨ i = 1 ∨ i = 2 ∨ i = 3 := by omega
  rcases hi' with rfl | rfl | rfl | rfl
  · rw [PSIOP.operatorStep_fmMod_ne env s time pitch _ 3 0 (by decide),
      PSIOP.operatorStep_fmMod_ne env s time pitch _ 2 0 (by decide),
      PSIOP.operatorStep_fmMod_ne env s time pitch _ 1 0 (by decide),
      PSIOP.operatorStep_fmMod_self]
    simp [Finset.sum_range_succ]
  · rw [PSIOP.operatorStep_fmMod_ne env s time pitch _ 3 1 (by decide),
      PSIOP.operatorStep_fmMod_ne env s time pitch _ 2 1 (by decide),
      PSIOP.operatorStep_fmMod_self]
    simp only [Finset.sum_range_succ, Finset.sum_range_zero]
    rw [PSIOP.operatorStep_operators_ne env s time pitch _ 3 0 (by decide),
      PSIOP.operatorStep_operators_ne env s time pitch _ 2 0 (by decide),
      PSIOP.operatorStep_operators_ne env s time pitch _ 1 0 (by decide),
      PSIOP.operatorStep_operators_ne env s time pitch _ 0 1 (by decide),
      PSIOP.operatorStep_operators_ne env s time pitch _ 0 2 (by decide),
      PSIOP.operatorStep_operators_ne env s time pitch _ 0 3 (by decide)]
    simp
  · rw [PSIOP.operatorStep_fmMod_ne env s time pitch _ 3 2 (by decide),
      PSIOP.operatorStep_fmMod_self]
    simp only [Finset.sum_range_succ, Finset.sum_range_zero]
    rw [PSIOP.operatorStep_operators_ne env s time pitch _ 3 0 (by decide),
      PSIOP.operatorStep_operators_ne env s time pitch _ 2 0 (by decide),
      PSIOP.operatorStep_operators_ne env s time pitch _ 3 1 (by decide),
      PSIOP.operatorStep_operators_ne env s time pitch _ 2 1 (by decide),
      PSIOP.operatorStep_operators_ne env s time pitch _ 1 2 (by decide),
      PSIOP.operatorStep_operators_ne env s time pitch _ 0 2 (by decide),
      PSIOP.operatorStep_operators_ne env s time pitch _ 1 3 (by decide),
      PSIOP.operatorStep_operators_ne env s time pitch _ 0 3 (by decide)]
    simp
  · rw [PSIOP.operatorStep_fmMod_self]
    simp only [Finset.sum_range_succ, Finset.sum_range_zero]
    rw [PSIOP.operatorStep_operators_ne env s time pitch _ 3 0 (by decide),
      PSIOP.operatorStep_operators_ne env s time pitch _ 3 1 (by decide),
      PSIOP.operatorStep_operators_ne env s time pitch _ 3 2 (by decide),
      PSIOP.operatorStep_operators_ne env s time pitch _ 2 3 (by decide),
      PSIOP.operatorStep_operators_ne env s time pitch _ 1 3 (by decide),
      PSIOP.operatorStep_operators_ne env s time pitch _ 0 3 (by decide)]
    simp

/-- The stages before the operator loop do not write `operators`. -/
theorem PSIOP.beforeOperators_operators (env : Env) (s : PSIOP) (t : Tick) :
    (PSIOP.beforeOperators env s t).1.operators = s.operators := by
  unfold PSIOP.beforeOperators PSIOP.pitchStage PSIOP.ampRampStage PSIOP.chokeStage
    PSIOP.triggerStage PSIOP.latch
  simp only []
  split_ifs <;> rfl

theorem PSIOP.process_operators (env : Env) (s : PSIOP) (t : Tick) :
    (PSIOP.process env s t).operators = (PSIOP.tickLoop env s t).operators := rfl

theorem PSIOP.process_index (env : Env) (s : PSIOP) (t : Tick) :
    (PSIOP.process env s t).index = (PSIOP.beforeOperators env s t).1.index := rfl

theorem PSIOP.process_algo (env : Env) (s : PSIOP) (t : Tick) :
    (PSIOP.process env s t).algo = (PSIOP.beforeOperators env s t).1.algo := rfl

/-- C1, as stated, fails: in the trigger tick of the armed module with
algorithm 0, operator 0 outputs `5/24` after an output of `0` on the previous
tick, and the FM input handed to operator 1 is `1/8 = 5/24 * 3/5 * 1`, not the
sum over the previous tick outputs, which is `0`. -/
theorem PSIOP.fm_input_previous_tick_fails :
    PSIOP.fmInput sampleEnv armed triggerTick 1 = 1 / 8
    ∧ (∑ j in Finset.range 4,
        (armed.operators j).out * (PSIOP.process sampleEnv armed triggerTick).index
          * modMatrixGet (PSIOP.process sampleEnv armed triggerTick).algo j 1) = 0
    ∧ PSIOP.fmInput sampleEnv armed triggerTick 1
      ≠ ∑ j in Finset.range 4,
        (armed.operators j).out * (PSIOP.process sampleEnv armed triggerTick).index
          * modMatrixGet (PSIOP.process sampleEnv armed triggerTick).algo j 1 := by
  decide!

/-- C1, amended: in one tick of `PSIOP::process`, for every algorithm and every
operator `i < 4`, the FM input handed to operator `i` is
`Σ_{j<4} o_j * index * modMatrix[algo][j][i]`, where `o_j` is the output of
operator `j` from this same tick for the sources `j < i`, already processed,
and the output left by the previous tick for the sources `j ≥ i`. -/
theorem PSIOP.fm_input_mixed_ticks (env : Env) (s : PSIOP) (t : Tick) (i : Nat) (hi : i < 4) :
    PSIOP.fmInput env s t i
      = ∑ j in Finset.range 4,
          (if j < i then ((PSIOP.process env s t).operators j).out else (s.operators j).out)
            * (PSIOP.process env s t).index * modMatrixGet (PSIOP.process env s t).algo j i := by
  have h := PSIOP.operatorSteps_fmMod env (PSIOP.beforeOperators env s t).1 t.args.sampleTime
    (PSIOP.beforeOperators env s t).2
    { operators := (PSIOP.beforeOperators env s t).1.operators
      outputs := (PSIOP.beforeOperators env s t).1.outputs
      output := 0
      fmMod := fun _ => 0 } i hi
  simp only [PSIOP.beforeOperators_operators] at h
  rw [PSIOP.process_operators, PSIOP.process_index, PSIOP.process_algo]
  unfold PSIOP.fmInput PSIOP.tickLoop PSIOP.operatorLoop
  simp only [PSIOP.beforeOperators_operators]
  exact h

/-- Instance: the FM input of operator 1 in the trigger tick of the armed module. -/
theorem PSIOP.fm_input_mixed_ticks_witness :
    PSIOP.fmInput sampleEnv armed triggerTick 1
      = ∑ j in Finset.range 4,
          (if j < 1 then ((PSIOP.process sampleEnv armed triggerTick).operators j).out
            else (armed.operators j).out)
            * (PSIOP.process sampleEnv armed triggerTick).index
            * modMatrixGet (PSIOP.process sampleEnv armed triggerTick).algo j 1 :=
  PSIOP.fm_input_mixed_ticks sampleEnv armed triggerTick 1 (by decide)

/-! ## Ramp range (C6) -/

theorem crossfade_eq (a b p : ℚ) : crossfade a b p = a * (1 - p) + b * p := by
  unfold crossfade; ring

theorem sampleEnv_positive : sampleEnv.Positive := by
  refine ⟨fun x => ?_, by decide!⟩
  show 0 < pow2Floor x
  unfold pow2Floor
  split_ifs <;> positivity

/-- Time constant of a ramp is positive. -/
theorem Ramp.tau_pos (env : Env) (hpos : env.Positive) (r : Ramp) (x : ℚ) :
    0 < r.minTime * env.pow2 x := by
  have h : (0 : ℚ) < r.minTime := by unfold Ramp.minTime; norm_num
  exact mul_pos h (hpos.1 x)

/-- For a positive gap the shaped rate is positive. -/
theorem Ramp.shapeDelta_pos (env : Env) (hpos : env.Positive) (delta tau shape : ℚ)
    (hd : 0 < delta) (ht : 0 < tau) (h1 : -1 ≤ shape) (h2 : shape ≤ 1) :
    0 < Ramp.shapeDelta env delta tau shape := by
  unfold Ramp.shapeDelta
  have hs : sgn delta = 1 := by simp [sgn, hd]
  simp only [hs]
  have hlin : (0 : ℚ) < 1 * 10 / tau := by positivity
  split_ifs with c
  · have hlog : (0 : ℚ) < 1 * 40 / tau / (|delta| + 1) := by positivity
    rw [crossfade_eq]
    have hw : 0 ≤ -shape * (19 / 20) := by nlinarith
    have hw' : 0 < 1 - -shape * (19 / 20) := by nlinarith
    exact add_pos_of_pos_of_nonneg (mul_pos hlin hw') (mul_nonneg hlog.le hw)
  · push_neg at c
    have hexp : 0 < env.M_E * delta / tau := div_pos (mul_pos hpos.2 hd) ht
    rw [crossfade_eq]
    have hw : 0 ≤ shape * (9 / 10) := by nlinarith
    have hw' : 0 < 1 - shape * (9 / 10) := by nlinarith
    exact add_pos_of_pos_of_nonneg (mul_pos hlin hw') (mul_nonneg hexp.le hw)

/-- For a negative gap the shaped rate is negative. -/
theorem Ramp.shapeDelta_neg (env : Env) (hpos : env.Positive) (delta tau shape : ℚ)
    (hd : delta < 0) (ht : 0 < tau) (h1 : -1 ≤ shape) (h2 : shape ≤ 1) :
    Ramp.shapeDelta env delta tau shape < 0 := by
  unfold Ramp.shapeDelta
  have hs : sgn delta = -1 := by simp [sgn, hd, not_lt.mpr hd.le]
  simp only [hs]
  have hlin : -1 * 10 / tau < 0 := by
    have : (0 : ℚ) < 10 / tau := by positivity
    have e : -1 * 10 / tau = -(10 / tau) := by ring
    rw [e]; linarith
  split_ifs with c
  · have hlog : -1 * 40 / tau / (|delta| + 1) < 0 := by
      have : (0 : ℚ) < 40 / tau / (|delta| + 1) := by positivity
      have e : -1 * 40 / tau / (|delta| + 1) = -(40 / tau / (|delta| + 1)) := by ring
      rw [e]; linarith
    rw [crossfade_eq]
    have hw : 0 ≤ -shape * (19 / 20) := by nlinarith
    have hw' : 0 < 1 - -shape * (19 / 20) := by nlinarith
    have a1 := mul_neg_of_neg_of_pos hlin hw'
    have a2 := mul_nonpos_of_nonpos_of_nonneg hlog.le hw
    linarith
  · push_neg at c
    have hexp : env.M_E * delta / tau < 0 :=
      div_neg_of_neg_of_pos (mul_neg_of_pos_of_neg hpos.2 hd) ht
    rw [crossfade_eq]
    have hw : 0 ≤ shape * (9 / 10) := by nlinarith
    have hw' : 0 < 1 - shape * (9 / 10) := by nlinarith
    have a1 := mul_neg_of_neg_of_pos hlin hw'
    have a2 := mul_nonpos_of_nonpos_of_nonneg hexp.le hw
    linarith

/-- One call of `Ramp::process` keeps `out` in `[0, 1]`. -/
theorem Ramp.process_out_unit (env : Env) (hpos : env.Positive) (r : Ramp)
    (shape riseRate fallRate time : ℚ) (cycle : Bool)
    (h0 : 0 ≤ r.out) (h1 : r.out ≤ 1) (hs1 : -1 ≤ shape) (hs2 : shape ≤ 1) (ht : 0 ≤ time) :
    0 ≤ (r.process env shape riseRate fallRate time cycle).out
    ∧ (r.process env shape riseRate fallRate time cycle).out ≤ 1 := by
  have hin : (0 : ℚ) ≤ (if r.gate then 1 else 0) ∧ ((if r.gate then 1 else 0) : ℚ) ≤ 1 := by
    split_ifs <;> constructor <;> norm_num
  unfold Ramp.process
  simp only []
  generalize ((if r.gate then 1 else 0) : ℚ) = inp at hin ⊢
  obtain ⟨hi0, hi1⟩ := hin
  by_cases c1 : inp - r.out > 0
  · rw [if_pos c1]
    have hsd := Ramp.shapeDelta_pos env hpos (inp - r.out)
      (r.minTime * env.pow2 (riseRate * 20)) shape c1 (Ramp.tau_pos env hpos r _) hs1 hs2
    have hstep := mul_nonneg hsd.le ht
    by_cases c2 : inp - (r.out + Ramp.shapeDelta env (inp - r.out)
        (r.minTime * env.pow2 (riseRate * 20)) shape * time) > 1 / 1000
    · simp only [c2, decide_True, Bool.not_true, Bool.false_eq_true, if_false]
      constructor <;> linarith
    · simp only [c2, decide_False, Bool.not_false, if_true]
      exact ⟨hi0, hi1⟩
  · rw [if_neg c1]
    by_cases c3 : inp - r.out < 0
    · rw [if_pos c3]
      have hsd := Ramp.shapeDelta_neg env hpos (inp - r.out)
        (r.minTime * env.pow2 (clamp fallRate 0 1 * 20)) shape c3 (Ramp.tau_pos env hpos r _)
        hs1 hs2
      have hstep := mul_nonpos_of_nonpos_of_nonneg hsd.le ht
      by_cases c4 : inp - (r.out + Ramp.shapeDelta env (inp - r.out)
          (r.minTime * env.pow2 (clamp fallRate 0 1 * 20)) shape * time) < -(1 / 1000)
      · simp only [c4, decide_True, Bool.not_true, Bool.false_eq_true, if_false]
        constructor <;> linarith
      · simp only [c4, decide_False, Bool.not_false, if_true]
        exact ⟨hi0, hi1⟩
    · rw [if_neg c3]
      exact ⟨hi0, hi1⟩

theorem setAt_apply {α : Type} (a : Nat → α) (i : Nat) (v : α) (k : Nat) :
    setAt a i v k = if k = i then v else a k := rfl

/-- The trigger stage writes the gates of the ramps, not their outputs. -/
theorem PSIOP.triggerStage_ramps_out (env : Env) (s : PSIOP) (t : Tick) (i : Nat) :
    ((PSIOP.triggerStage env s t).ramps i).out = (s.ramps i).out := by
  unfold PSIOP.triggerStage PSIOP.latch
  simp only [List.foldl]
  by_cases c : (env.schmitt s.trigger (t.inputs TRIGGER_INPUT / 2)).1 = true
  · rw [if_pos c]
    simp only [setAt_apply]
    split_ifs <;> simp_all
  · rw [if_neg c]

/-- The choke stage leaves a ramp output as it is or sets it to `0`. -/
theorem PSIOP.chokeStage_ramps_out (env : Env) (s : PSIOP) (t : Tick) (i : Nat) :
    ((PSIOP.chokeStage env s t).ramps i).out = 0
    ∨ ((PSIOP.chokeStage env s t).ramps i).out = (s.ramps i).out := by
  unfold PSIOP.chokeStage
  simp only [List.foldl]
  by_cases c : (env.schmitt s.choke (t.inputs CHOKE_INPUT / 2)).1 = true
  · rw [if_pos c]
    simp only [setAt_apply]
    split_ifs <;> simp_all
  · rw [if_neg c]
    exact Or.inr rfl

theorem PSIOP.process_rampsUnit (env : Env) (hpos : env.Positive) (s : PSIOP) (t : Tick)
    (ht : 0 ≤ t.args.sampleTime) (h : s.RampsUnit) : (PSIOP.process env s t).RampsUnit := by
  have h1 : (PSIOP.triggerStage env s t).RampsUnit := by
    intro i; rw [PSIOP.triggerStage_ramps_out]; exact h i
  have h2 : (PSIOP.chokeStage env (PSIOP.triggerStage env s t) t).RampsUnit := by
    intro i
    rcases PSIOP.chokeStage_ramps_out env (PSIOP.triggerStage env s t) t i with e | e
    · rw [e]; constructor <;> norm_num
    · rw [e]; exact h1 i
  have h3 : (PSIOP.ampRampStage env
      (PSIOP.chokeStage env (PSIOP.triggerStage env s t) t) t).RampsUnit := by
    intro i
    rw [PSIOP.ampRampStage_ramps]
    split_ifs
    · exact Ramp.process_out_unit env hpos _ _ _ _ _ _ (h2 i).1 (h2 i).2 (by norm_num)
        (by norm_num) ht
    · exact h2 i
  intro i
  rw [PSIOP.process_ramps]
  unfold PSIOP.beforeOperators
  simp only []
  rw [PSIOP.pitchStage_ramps]
  split_ifs
  · exact Ramp.process_out_unit env hpos _ _ _ _ _ _ (h3 2).1 (h3 2).2 (by norm_num)
      (by norm_num) ht
  · exact h3 i

theorem PSIOP.run_rampsUnit (env : Env) (hpos : env.Positive) (ts : List Tick) :
    ∀ s : PSIOP, (∀ t ∈ ts, 0 ≤ t.args.sampleTime) → s.RampsUnit →
      (PSIOP.run env s ts).RampsUnit := by
  induction ts with
  | nil => intro s _ h; exact h
  | cons t ts ih =>
    intro s hts h
    exact ih _ (fun u hu => hts u (List.mem_cons_of_mem _ hu))
      (PSIOP.process_rampsUnit env hpos s t (hts t (List.mem_cons_self _ _)) h)

/-- C6: with `pow` and `M_E` positive, every call of `Ramp::process` on a ramp
with `out` in `[0, 1]`, a shape in `[-1, 1]`, any rise and fall rate, a time
step `≥ 0` and either value of `cycle` and `gate` leaves `out` in `[0, 1]`;
hence the three ramps of the module have `out` in `[0, 1]` in every state
reached from construction by ticks of non-negative sample time. -/
theorem Ramp.out_stays_in_unit_interval (env : Env) (hpos : env.Positive) :
    (∀ (r : Ramp) (shape riseRate fallRate time : ℚ) (cycle : Bool),
      0 ≤ r.out → r.out ≤ 1 → -1 ≤ shape → shape ≤ 1 → 0 ≤ time →
        0 ≤ (r.process env shape riseRate fallRate time cycle).out
        ∧ (r.process env shape riseRate fallRate time cycle).out ≤ 1)
    ∧ (∀ ts : List Tick, (∀ t ∈ ts, 0 ≤ t.args.sampleTime) →
        ∀ i, i < 3 →
          0 ≤ ((PSIOP.run env PSIOP.init ts).ramps i).out
          ∧ ((PSIOP.run env PSIOP.init ts).ramps i).out ≤ 1) := by
  refine ⟨fun r shape riseRate fallRate time cycle h0 h1 hs1 hs2 ht =>
    Ramp.process_out_unit env hpos r shape riseRate fallRate time cycle h0 h1 hs1 hs2 ht, ?_⟩
  intro ts hts i _
  have hinit : PSIOP.init.RampsUnit := by
    intro k
    show (0 : ℚ) ≤ 0 ∧ (0 : ℚ) ≤ 1
    constructor <;> norm_num
  exact PSIOP.run_rampsUnit env hpos ts PSIOP.init hts hinit i

/-- Instance: one call on a half-open ramp, and ramp 0 across a trigger. -/
theorem Ramp.out_stays_in_unit_interval_witness :
    sampleEnv.Positive
    ∧ (0 ≤ (Ramp.process sampleEnv { out := 1 / 2, gate := true } (3 / 10) 0 (1 / 2)
          (1 / 48000) true).out
      ∧ (Ramp.process sampleEnv { out := 1 / 2, gate := true } (3 / 10) 0 (1 / 2)
          (1 / 48000) true).out ≤ 1)
    ∧ (0 ≤ ((PSIOP.run sampleEnv PSIOP.init [quietTick, triggerTick, quietTick]).ramps 0).out
      ∧ ((PSIOP.run sampleEnv PSIOP.init [quietTick, triggerTick, quietTick]).ramps 0).out
          ≤ 1) :=
  ⟨sampleEnv_positive,
    (Ramp.out_stays_in_unit_interval sampleEnv sampleEnv_positive).1
      { out := 1 / 2, gate := true } (3 / 10) 0 (1 / 2) (1 / 48000) true
      (by decide!) (by decide!) (by decide!) (by decide!) (by decide!),
    (Ramp.out_stays_in_unit_interval sampleEnv sampleEnv_positive).2
      [quietTick, triggerTick, quietTick]
      (by
        intro t ht
        simp only [List.mem_cons, List.mem_singleton, List.not_mem_nil, or_false] at ht
        rcases ht with rfl | rfl | rfl <;> decide!)
      0 (by decide)⟩

/-! ## Ramp convergence (C7, C8) -/

/-- At shape `0` the shaped rate is the linear rate. -/
theorem Ramp.shapeDelta_zero (env : Env) (delta tau : ℚ) :
    Ramp.shapeDelta env delta tau 0 = sgn delta * 10 / tau := by
  simp [Ramp.shapeDelta, crossfade]

/-- One held call from `out ≤ 1`: `out` does not decrease, stays at most `1`, and
is either exactly `1` or one linear step further and still below `0.999`. -/
theorem Ramp.heldStep_out (env : Env) (hpow : ∀ x, 0 < env.pow2 x)
    (riseRate fallRate dt : ℚ) (cycle : Bool) (r : Ramp) (hdt : 0 < dt) (h1 : r.out ≤ 1) :
    r.out ≤ (Ramp.heldStep env riseRate fallRate dt cycle r).out
    ∧ (Ramp.heldStep env riseRate fallRate dt cycle r).out ≤ 1
    ∧ ((Ramp.heldStep env riseRate fallRate dt cycle r).out = 1
      ∨ ((Ramp.heldStep env riseRate fallRate dt cycle r).out
            = r.out + 10 / (r.minTime * env.pow2 (riseRate * 20)) * dt
          ∧ (Ramp.heldStep env riseRate fallRate dt cycle r).out < 999 / 1000)) := by
  have htau : 0 < r.minTime * env.pow2 (riseRate * 20) := by
    have h : (0 : ℚ) < r.minTime := by unfold Ramp.minTime; norm_num
    exact mul_pos h (hpow _)
  have hstep : 0 < 10 / (r.minTime * env.pow2 (riseRate * 20)) * dt := by positivity
  unfold Ramp.heldStep Ramp.process
  simp only [if_true, Ramp.shapeDelta_zero]
  have hm : ({ r with gate := true } : Ramp).minTime = r.minTime := rfl
  rw [hm]
  by_cases c1 : (1 : ℚ) - r.out > 0
  · rw [if_pos c1]
    have hs : sgn (1 - r.out) = 1 := by simp [sgn, c1]
    rw [hs, one_mul]
    by_cases c2 : 1 - (r.out + 10 / (r.minTime * env.pow2 (riseRate * 20)) * dt) > 1 / 1000
    · simp only [c2, decide_True, Bool.not_true, Bool.false_eq_true, if_false]
      refine ⟨by linarith, by linarith, Or.inr ⟨trivial, by linarith⟩⟩
    · simp only [c2, decide_False, Bool.not_false, if_true]
      exact ⟨h1, le_refl _, Or.inl trivial⟩
  · rw [if_neg c1]
    have c3 : ¬ ((1 : ℚ) - r.out < 0) := by linarith
    rw [if_neg c3]
    exact ⟨h1, le_refl _, Or.inl rfl⟩

/-- After `n` held calls from `out ≤ 1`: `out` is at most `1`, and is either
exactly `1` or `n` linear steps above the start, below `0.999` when `n ≥ 1`. -/
theorem Ramp.heldStep_iterate (env : Env) (hpow : ∀ x, 0 < env.pow2 x)
    (riseRate fallRate dt : ℚ) (cycle : Bool) (r : Ramp) (hdt : 0 < dt) (h1 : r.out ≤ 1)
    (n : Nat) :
    ((Ramp.heldStep env riseRate fallRate dt cycle)^[n] r).out ≤ 1
    ∧ (((Ramp.heldStep env riseRate fallRate dt cycle)^[n] r).out = 1
      ∨ (((Ramp.heldStep env riseRate fallRate dt cycle)^[n] r).out
            = r.out + n * (10 / (r.minTime * env.pow2 (riseRate * 20)) * dt)
          ∧ (1 ≤ n → ((Ramp.heldStep env riseRate fallRate dt cycle)^[n] r).out
              < 999 / 1000))) := by
  induction n with
  | zero =>
    refine ⟨h1, Or.inr ⟨by simp, fun h => absurd h (by decide)⟩⟩
  | succ n ih =>
    rw [Function.iterate_succ_apply']
    obtain ⟨ihle, ih2⟩ := ih
    obtain ⟨_, b, c⟩ := Ramp.heldStep_out env hpow riseRate fallRate dt cycle
      ((Ramp.heldStep env riseRate fallRate dt cycle)^[n] r) hdt ihle
    refine ⟨b, ?_⟩
    rcases c with c | ⟨c, c'⟩
    · exact Or.inl c
    · rcases ih2 with e | ⟨e, _⟩
      · rw [e] at c
        have hm : ((Ramp.heldStep env riseRate fallRate dt cycle)^[n] r).minTime
            = r.minTime := rfl
        rw [hm] at c
        have htau : 0 < r.minTime * env.pow2 (riseRate * 20) := by
          have h : (0 : ℚ) < r.minTime := by unfold Ramp.minTime; norm_num
          exact mul_pos h (hpow _)
        have hstep : 0 < 10 / (r.minTime * env.pow2 (riseRate * 20)) * dt := by positivity
        linarith
      · right
        refine ⟨?_, fun _ => c'⟩
        rw [c, e]
        have hm : ((Ramp.heldStep env riseRate fallRate dt cycle)^[n] r).minTime
            = r.minTime := rfl
        rw [hm]
        push_cast
        ring

/-- In exact arithmetic, with no rounding of `out += ...`: for a ramp with
`out = o0` in `[0, 1)`, shape `0`, a time step `dt > 0` and the rise time
constant `tau = minTime * 2^(20 * riseRate)` (`pow` positive), successive calls
with the gate held true give a non-decreasing `out` that never exceeds `1` and
is exactly `1` after `⌈(1 - o0) * tau / (10 * dt)⌉` calls and after every later
call. -/
theorem Ramp.rise_reaches_one_exact (env : Env) (hpow : ∀ x, 0 < env.pow2 x)
    (riseRate fallRate dt : ℚ) (cycle : Bool) (r : Ramp)
    (h0 : 0 ≤ r.out) (h1 : r.out < 1) (hdt : 0 < dt) :
    (∀ n, ((Ramp.heldStep env riseRate fallRate dt cycle)^[n] r).out
        ≤ ((Ramp.heldStep env riseRate fallRate dt cycle)^[n + 1] r).out)
    ∧ (∀ n, 0 ≤ ((Ramp.heldStep env riseRate fallRate dt cycle)^[n] r).out
        ∧ ((Ramp.heldStep env riseRate fallRate dt cycle)^[n] r).out ≤ 1)
    ∧ (∀ n, ⌈(1 - r.out) * (r.minTime * env.pow2 (riseRate * 20)) / (10 * dt)⌉₊ ≤ n →
        ((Ramp.heldStep env riseRate fallRate dt cycle)^[n] r).out = 1) := by
  have hmono : ∀ n, ((Ramp.heldStep env riseRate fallRate dt cycle)^[n] r).out
      ≤ ((Ramp.heldStep env riseRate fallRate dt cycle)^[n + 1] r).out := by
    intro n
    rw [Function.iterate_succ_apply']
    exact (Ramp.heldStep_out env hpow riseRate fallRate dt cycle _ hdt
      (Ramp.heldStep_iterate env hpow riseRate fallRate dt cycle r hdt h1.le n).1).1
  refine ⟨hmono, ?_, ?_⟩
  · intro n
    refine ⟨?_, (Ramp.heldStep_iterate env hpow riseRate fallRate dt cycle r hdt h1.le n).1⟩
    induction n with
    | zero => exact h0
    | succ n ih => exact le_trans ih (hmono n)
  · intro n hn
    have htau : 0 < r.minTime * env.pow2 (riseRate * 20) := by
      have h : (0 : ℚ) < r.minTime := by unfold Ramp.minTime; norm_num
      exact mul_pos h (hpow _)
    have hx : 0 < (1 - r.out) * (r.minTime * env.pow2 (riseRate * 20)) / (10 * dt) := by
      have : 0 < 1 - r.out := by linarith
      positivity
    have hN : (1 - r.out) * (r.minTime * env.pow2 (riseRate * 20)) / (10 * dt) ≤ (n : ℚ) :=
      le_trans (Nat.le_ceil _) (by exact_mod_cast hn)
    have hn1 : 1 ≤ n := by
      have : (0 : ℚ) < n := lt_of_lt_of_le hx hN
      exact_mod_cast this
    rcases (Ramp.heldStep_iterate env hpow riseRate fallRate dt cycle r hdt h1.le n).2
      with e | ⟨e, e'⟩
    · exact e
    · exfalso
      have hlt := e' hn1
      rw [e] at hlt
      have h10 : (0 : ℚ) < 10 * dt := by positivity
      rw [div_le_iff₀ h10] at hN
      have key : (n : ℚ) * (10 / (r.minTime * env.pow2 (riseRate * 20)) * dt)
          = (n * (10 * dt)) / (r.minTime * env.pow2 (riseRate * 20)) := by
        field_simp
      rw [key] at hlt
      have : 1 - r.out ≤ (n * (10 * dt)) / (r.minTime * env.pow2 (riseRate * 20)) := by
        rw [le_div_iff₀ htau]; exact hN
      linarith

/-- One free call from a ramp with the gate off and `out ≥ 0`: the gate stays
off, `out` does not increase and stays `≥ 0`, and is either exactly `0` or one
linear step lower and still above `0.001`. -/
theorem Ramp.freeStep_out (env : Env) (hpow : ∀ x, 0 < env.pow2 x)
    (riseRate fallRate dt : ℚ) (r : Ramp) (hdt : 0 < dt) (hg : r.gate = false)
    (h0 : 0 ≤ r.out) :
    (Ramp.freeStep env riseRate fallRate dt r).gate = false
    ∧ 0 ≤ (Ramp.freeStep env riseRate fallRate dt r).out
    ∧ (Ramp.freeStep env riseRate fallRate dt r).out ≤ r.out
    ∧ ((Ramp.freeStep env riseRate fallRate dt r).out = 0
      ∨ ((Ramp.freeStep env riseRate fallRate dt r).out
            = r.out - 10 / (r.minTime * env.pow2 (clamp fallRate 0 1 * 20)) * dt
          ∧ 1 / 1000 < (Ramp.freeStep env riseRate fallRate dt r).out)) := by
  have htau : 0 < r.minTime * env.pow2 (clamp fallRate 0 1 * 20) := by
    have h : (0 : ℚ) < r.minTime := by unfold Ramp.minTime; norm_num
    exact mul_pos h (hpow _)
  have hstep : 0 < 10 / (r.minTime * env.pow2 (clamp fallRate 0 1 * 20)) * dt := by positivity
  unfold Ramp.freeStep Ramp.process
  simp only [hg, Bool.false_eq_true, if_false, Ramp.shapeDelta_zero, zero_sub]
  have c1 : ¬ (-r.out > 0) := by linarith
  rw [if_neg c1]
  by_cases c3 : -r.out < 0
  · rw [if_pos c3]
    have hs : sgn (-r.out) = -1 := by simp [sgn, c3, c1]
    rw [hs]
    have e : r.out + -1 * 10 / (r.minTime * env.pow2 (clamp fallRate 0 1 * 20)) * dt
        = r.out - 10 / (r.minTime * env.pow2 (clamp fallRate 0 1 * 20)) * dt := by ring
    rw [e]
    by_cases c4 : -(r.out - 10 / (r.minTime * env.pow2 (clamp fallRate 0 1 * 20)) * dt)
        < -(1 / 1000)
    · simp only [c4, decide_True, Bool.not_true, Bool.false_and, Bool.false_eq_true, if_false]
      refine ⟨trivial, by linarith, by linarith, Or.inr ⟨trivial, by linarith⟩⟩
    · simp only [c4, decide_False, Bool.not_false, Bool.and_false, Bool.false_eq_true,
        if_false, if_true]
      exact ⟨trivial, le_refl _, h0, Or.inl trivial⟩
  · rw [if_neg c3]
    exact ⟨rfl, le_refl _, h0, Or.inl rfl⟩

/-- After `n` free calls from a ramp with the gate off and `out ≥ 0`: the gate
is off, `out ≥ 0`, and `out` is either exactly `0` or `n` linear steps below the
start, above `0.001` when `n ≥ 1`. -/
theorem Ramp.freeStep_iterate (env : Env) (hpow : ∀ x, 0 < env.pow2 x)
    (riseRate fallRate dt : ℚ) (r : Ramp) (hdt : 0 < dt) (hg : r.gate = false)
    (h0 : 0 ≤ r.out) (n : Nat) :
    ((Ramp.freeStep env riseRate fallRate dt)^[n] r).gate = false
    ∧ 0 ≤ ((Ramp.freeStep env riseRate fallRate dt)^[n] r).out
    ∧ (((Ramp.freeStep env riseRate fallRate dt)^[n] r).out = 0
      ∨ (((Ramp.freeStep env riseRate fallRate dt)^[n] r).out
            = r.out - n * (10 / (r.minTime * env.pow2 (clamp fallRate 0 1 * 20)) * dt)
          ∧ (1 ≤ n → 1 / 1000 < ((Ramp.freeStep env riseRate fallRate dt)^[n] r).out))) := by
  induction n with
  | zero =>
    refine ⟨hg, h0, Or.inr ⟨by simp, fun h => absurd h (by decide)⟩⟩
  | succ n ih =>
    rw [Function.iterate_succ_apply']
    obtain ⟨ihg, ih0, ih2⟩ := ih
    obtain ⟨a, b, _, c⟩ := Ramp.freeStep_out env hpow riseRate fallRate dt
      ((Ramp.freeStep env riseRate fallRate dt)^[n] r) hdt ihg ih0
    refine ⟨a, b, ?_⟩
    rcases c with c | ⟨c, c'⟩
    · exact Or.inl c
    · have hm : ((Ramp.freeStep env riseRate fallRate dt)^[n] r).minTime = r.minTime := rfl
      rw [hm] at c
      have htau : 0 < r.minTime * env.pow2 (clamp fallRate 0 1 * 20) := by
        have h : (0 : ℚ) < r.minTime := by unfold Ramp.minTime; norm_num
        exact mul_pos h (hpow _)
      have hstep : 0 < 10 / (r.minTime * env.pow2 (clamp fallRate 0 1 * 20)) * dt := by
        positivity
      rcases ih2 with e | ⟨e, _⟩
      · rw [e] at c
        linarith
      · right
        refine ⟨?_, fun _ => c'⟩
        rw [c, e]
        push_cast
        ring

/-- In exact arithmetic, with no rounding of `out += ...`: for a ramp with the
gate off, `out = o0 > 0`, shape `0`, `cycle` off, a time step `dt > 0` and the
fall time constant `tau = minTime * 2^(20 * clamp(fallRate, 0, 1))` (`pow`
positive), successive calls give a non-increasing, non-negative `out` that is
exactly `0` after `⌈o0 * tau / (10 * dt)⌉` calls and after every later call. -/
theorem Ramp.fall_reaches_zero_exact (env : Env) (hpow : ∀ x, 0 < env.pow2 x)
    (riseRate fallRate dt : ℚ) (r : Ramp)
    (hg : r.gate = false) (h0 : 0 < r.out) (hdt : 0 < dt) :
    (∀ n, ((Ramp.freeStep env riseRate fallRate dt)^[n + 1] r).out
        ≤ ((Ramp.freeStep env riseRate fallRate dt)^[n] r).out)
    ∧ (∀ n, 0 ≤ ((Ramp.freeStep env riseRate fallRate dt)^[n] r).out)
    ∧ (∀ n, ⌈r.out * (r.minTime * env.pow2 (clamp fallRate 0 1 * 20)) / (10 * dt)⌉₊ ≤ n →
        ((Ramp.freeStep env riseRate fallRate dt)^[n] r).out = 0) := by
  refine ⟨?_, ?_, ?_⟩
  · intro n
    rw [Function.iterate_succ_apply']
    obtain ⟨g, p, _⟩ := Ramp.freeStep_iterate env hpow riseRate fallRate dt r hdt hg h0.le n
    exact (Ramp.freeStep_out env hpow riseRate fallRate dt _ hdt g p).2.2.1
  · intro n
    exact (Ramp.freeStep_iterate env hpow riseRate fallRate dt r hdt hg h0.le n).2.1
  · intro n hn
    have htau : 0 < r.minTime * env.pow2 (clamp fallRate 0 1 * 20) := by
      have h : (0 : ℚ) < r.minTime := by unfold Ramp.minTime; norm_num
      exact mul_pos h (hpow _)
    have hx : 0 < r.out * (r.minTime * env.pow2 (clamp fallRate 0 1 * 20)) / (10 * dt) := by
      positivity
    have hN : r.out * (r.minTime * env.pow2 (clamp fallRate 0 1 * 20)) / (10 * dt) ≤ (n : ℚ) :=
      le_trans (Nat.le_ceil _) (by exact_mod_cast hn)
    have hn1 : 1 ≤ n := by
      have : (0 : ℚ) < n := lt_of_lt_of_le hx hN
      exact_mod_cast this
    rcases (Ramp.freeStep_iterate env hpow riseRate fallRate dt r hdt hg h0.le n).2.2
      with e | ⟨e, e'⟩
    · exact e
    · exfalso
      have hlt := e' hn1
      rw [e] at hlt
      have h10 : (0 : ℚ) < 10 * dt := by positivity
      rw [div_le_iff₀ h10] at hN
      have key : (n : ℚ) * (10 / (r.minTime * env.pow2 (clamp fallRate 0 1 * 20)) * dt)
          = (n * (10 * dt)) / (r.minTime * env.pow2 (clamp fallRate 0 1 * 20)) := by
        field_simp
      rw [key] at hlt
      have : r.out ≤ (n * (10 * dt)) / (r.minTime * env.pow2 (clamp fallRate 0 1 * 20)) := by
        rw [le_div_iff₀ htau]; exact hN
      linarith

/-- One held call from `out ≤ 1` sets `out` to the stepped value while that is
more than `0.001` below `1`, and to exactly `1` otherwise. -/
theorem Ramp.heldStep_out_eq (env : Env) (hpow : ∀ x, 0 < env.pow2 x)
    (riseRate fallRate dt : ℚ) (cycle : Bool) (r : Ramp) (hdt : 0 < dt) (h1 : r.out ≤ 1) :
    (Ramp.heldStep env riseRate fallRate dt cycle r).out
      = (if 1 / 1000 < 1 - (r.out + 10 / (r.minTime * env.pow2 (riseRate * 20)) * dt)
          then r.out + 10 / (r.minTime * env.pow2 (riseRate * 20)) * dt else 1) := by
  have htau : 0 < r.minTime * env.pow2 (riseRate * 20) := by
    have h : (0 : ℚ) < r.minTime := by unfold Ramp.minTime; norm_num
    exact mul_pos h (hpow _)
  have hstep : 0 < 10 / (r.minTime * env.pow2 (riseRate * 20)) * dt := by positivity
  obtain ⟨_, _, c⟩ := Ramp.heldStep_out env hpow riseRate fallRate dt cycle r hdt h1
  by_cases c2 : 1 / 1000 < 1 - (r.out + 10 / (r.minTime * env.pow2 (riseRate * 20)) * dt)
  · rw [if_pos c2]
    have hlt : (1 : ℚ) - r.out > 0 := by linarith
    unfold Ramp.heldStep Ramp.process
    simp only [if_true, Ramp.shapeDelta_zero]
    have hm : ({ r with gate := true } : Ramp).minTime = r.minTime := rfl
    rw [hm, if_pos hlt]
    have hs : sgn (1 - r.out) = 1 := by simp [sgn, hlt]
    rw [hs, one_mul]
    have c2' : 1 - (r.out + 10 / (r.minTime * env.pow2 (riseRate * 20)) * dt) > 1 / 1000 := c2
    simp only [c2', decide_True, Bool.not_true, Bool.false_eq_true, if_false]
  · rw [if_neg c2]
    rcases c with c | ⟨c, c'⟩
    · exact c
    · exfalso
      rw [c] at c'
      apply c2
      linarith

/-- One free call from a ramp with the gate off and `out ≥ 0` sets `out` to the
stepped value while that is above `0.001`, and to exactly `0` otherwise. -/
theorem Ramp.freeStep_out_eq (env : Env) (hpow : ∀ x, 0 < env.pow2 x)
    (riseRate fallRate dt : ℚ) (r : Ramp) (hdt : 0 < dt) (hg : r.gate = false)
    (h0 : 0 ≤ r.out) :
    (Ramp.freeStep env riseRate fallRate dt r).out
      = (if 1 / 1000 < r.out - 10 / (r.minTime * env.pow2 (clamp fallRate 0 1 * 20)) * dt
          then r.out - 10 / (r.minTime * env.pow2 (clamp fallRate 0 1 * 20)) * dt else 0) := by
  have htau : 0 < r.minTime * env.pow2 (clamp fallRate 0 1 * 20) := by
    have h : (0 : ℚ) < r.minTime := by unfold Ramp.minTime; norm_num
    exact mul_pos h (hpow _)
  have hstep : 0 < 10 / (r.minTime * env.pow2 (clamp fallRate 0 1 * 20)) * dt := by positivity
  obtain ⟨_, _, _, c⟩ := Ramp.freeStep_out env hpow riseRate fallRate dt r hdt hg h0
  by_cases c2 : 1 / 1000 < r.out - 10 / (r.minTime * env.pow2 (clamp fallRate 0 1 * 20)) * dt
  · rw [if_pos c2]
    have hlt : -r.out < 0 := by linarith
    have hnp : ¬ (-r.out > 0) := by linarith
    unfold Ramp.freeStep Ramp.process
    simp only [hg, Bool.false_eq_true, if_false, Ramp.shapeDelta_zero, zero_sub]
    rw [if_neg hnp, if_pos hlt]
    have hs : sgn (-r.out) = -1 := by simp [sgn, hlt, hnp]
    rw [hs]
    have e : r.out + -1 * 10 / (r.minTime * env.pow2 (clamp fallRate 0 1 * 20)) * dt
        = r.out - 10 / (r.minTime * env.pow2 (clamp fallRate 0 1 * 20)) * dt := by ring
    rw [e]
    have c4 : -(r.out - 10 / (r.minTime * env.pow2 (clamp fallRate 0 1 * 20)) * dt)
        < -(1 / 1000) := by linarith
    simp only [c4, decide_True, Bool.not_true, Bool.false_eq_true, if_false]
  · rw [if_neg c2]
    rcases c with c | ⟨c, c'⟩
    · exact c
    · exfalso
      rw [c] at c'
      exact c2 c'

/-- C7, as stated, fails on the binary32 code: at 384 kHz and rise rate `1` a
ramp at `out = 1/2` with the gate held true is left at `1/2` by the call, since
the step `10 * dt / tau` is below half the spacing of the `float` values above
`1/2`; `out` is `1/2` after every number of calls, also after the
`⌈(1 - o0) * tau / (10 * dt)⌉` calls of the claim, and never `1`. -/
theorem Ramp.rise_bound_fails_in_binary32 :
    Ramp.heldStepF32 sampleEnv 1 0 (f32 (1 / 384000)) false { out := 1 / 2, gate := true }
        = { out := 1 / 2, gate := true }
    ∧ (∀ n, ((Ramp.heldStepF32 sampleEnv 1 0 (f32 (1 / 384000)) false)^[n]
          { out := 1 / 2, gate := true }).out = 1 / 2)
    ∧ ((Ramp.heldStepF32 sampleEnv 1 0 (f32 (1 / 384000)) false)^[
          ⌈(1 - ({ out := 1 / 2, gate := true } : Ramp).out)
            * (({ out := 1 / 2, gate := true } : Ramp).minTime * sampleEnv.pow2 (1 * 20))
            / (10 * f32 (1 / 384000))⌉₊]
          { out := 1 / 2, gate := true }).out ≠ 1 := by
  have hfix : Ramp.heldStepF32 sampleEnv 1 0 (f32 (1 / 384000)) false
      { out := 1 / 2, gate := true } = { out := 1 / 2, gate := true } := by decide!
  refine ⟨hfix, fun n => ?_, ?_⟩
  · rw [Function.iterate_fixed hfix]
  · rw [Function.iterate_fixed hfix]
    decide!

/-- C7, amended: for a ramp with `out = o0` in `[0, 1)`, shape `0`, a time step
`dt > 0` and the rise time constant `tau = minTime * 2^(20 * riseRate)` (`pow`
positive), successive calls of `Ramp::process` with the gate held true give a
non-decreasing `out` in `[0, 1]`; each call sets `out` to the stepped value
`out + 10 * dt / tau` while that is more than `0.001` below `1` and to exactly
`1` otherwise, and once `out` is `1` it is `1` after every later call. -/
theorem Ramp.rise_steps_then_snaps (env : Env) (hpow : ∀ x, 0 < env.pow2 x)
    (riseRate fallRate dt : ℚ) (cycle : Bool) (r : Ramp)
    (h0 : 0 ≤ r.out) (h1 : r.out < 1) (hdt : 0 < dt) :
    (∀ n, ((Ramp.heldStep env riseRate fallRate dt cycle)^[n] r).out
        ≤ ((Ramp.heldStep env riseRate fallRate dt cycle)^[n + 1] r).out)
    ∧ (∀ n, 0 ≤ ((Ramp.heldStep env riseRate fallRate dt cycle)^[n] r).out
        ∧ ((Ramp.heldStep env riseRate fallRate dt cycle)^[n] r).out ≤ 1)
    ∧ (∀ n, ((Ramp.heldStep env riseRate fallRate dt cycle)^[n + 1] r).out
        = (if 1 / 1000 < 1 - (((Ramp.heldStep env riseRate fallRate dt cycle)^[n] r).out
              + 10 / (r.minTime * env.pow2 (riseRate * 20)) * dt)
            then ((Ramp.heldStep env riseRate fallRate dt cycle)^[n] r).out
              + 10 / (r.minTime * env.pow2 (riseRate * 20)) * dt
            else 1))
    ∧ (∀ n m, n ≤ m → ((Ramp.heldStep env riseRate fallRate dt cycle)^[n] r).out = 1 →
        ((Ramp.heldStep env riseRate fallRate dt cycle)^[m] r).out = 1) := by
  have hle : ∀ n, ((Ramp.heldStep env riseRate fallRate dt cycle)^[n] r).out ≤ 1 := fun n =>
    (Ramp.heldStep_iterate env hpow riseRate fallRate dt cycle r hdt h1.le n).1
  have hmono : ∀ n, ((Ramp.heldStep env riseRate fallRate dt cycle)^[n] r).out
      ≤ ((Ramp.heldStep env riseRate fallRate dt cycle)^[n + 1] r).out := by
    intro n
    rw [Function.iterate_succ_apply']
    exact (Ramp.heldStep_out env hpow riseRate fallRate dt cycle _ hdt (hle n)).1
  have hmono' : ∀ n m, n ≤ m → ((Ramp.heldStep env riseRate fallRate dt cycle)^[n] r).out
      ≤ ((Ramp.heldStep env riseRate fallRate dt cycle)^[m] r).out := by
    intro n m hnm
    induction hnm with
    | refl => exact le_refl _
    | step _ ih => exact le_trans ih (hmono _)
  refine ⟨hmono, fun n => ⟨le_trans h0 (hmono' 0 n (Nat.zero_le n)), hle n⟩, ?_, ?_⟩
  · intro n
    rw [Function.iterate_succ_apply']
    exact Ramp.heldStep_out_eq env hpow riseRate fallRate dt cycle _ hdt (hle n)
  · intro n m hnm hn
    exact le_antisymm (hle m) (hn ▸ hmono' n m hnm)

/-- Instance: at 48 kHz and rise rate `0` a ramp at `0` steps by `5/24` and is
at `1` after 5 calls and after 7. -/
theorem Ramp.rise_steps_then_snaps_witness :
    ((Ramp.heldStep sampleEnv 0 0 (1 / 48000) false)^[0 + 1] {}).out = 5 / 24
    ∧ ((Ramp.heldStep sampleEnv 0 0 (1 / 48000) false)^[4] {}).out
        ≤ ((Ramp.heldStep sampleEnv 0 0 (1 / 48000) false)^[4 + 1] {}).out
    ∧ ((Ramp.heldStep sampleEnv 0 0 (1 / 48000) false)^[5] {}).out = 1
    ∧ ((Ramp.heldStep sampleEnv 0 0 (1 / 48000) false)^[7] {}).out = 1 :=
  have h := Ramp.rise_steps_then_snaps sampleEnv sampleEnv_positive.1 0 0 (1 / 48000) false {}
    (by decide!) (by decide!) (by decide!)
  ⟨(h.2.2.1 0).trans (by decide!), h.1 4, by decide!, h.2.2.2 5 7 (by decide) (by decide!)⟩

/-- C8, as stated, fails on the binary32 code: at 384 kHz and fall rate `1` a
ramp at `out = 1` with the gate off is left at `1` by the call, since the step
`10 * dt / tau` is below half the spacing of the `float` values below `1`;
`out` is `1` after every number of calls, also after the
`⌈o0 * tau / (10 * dt)⌉` calls of the claim, and never `0`. -/
theorem Ramp.fall_bound_fails_in_binary32 :
    Ramp.freeStepF32 sampleEnv 0 1 (f32 (1 / 384000)) { out := 1 } = { out := 1 }
    ∧ (∀ n, ((Ramp.freeStepF32 sampleEnv 0 1 (f32 (1 / 384000)))^[n] { out := 1 }).out = 1)
    ∧ ((Ramp.freeStepF32 sampleEnv 0 1 (f32 (1 / 384000)))^[
          ⌈({ out := 1 } : Ramp).out
            * (({ out := 1 } : Ramp).minTime * sampleEnv.pow2 (clamp 1 0 1 * 20))
            / (10 * f32 (1 / 384000))⌉₊]
          { out := 1 }).out ≠ 0 := by
  have hfix : Ramp.freeStepF32 sampleEnv 0 1 (f32 (1 / 384000)) { out := 1 }
      = { out := 1 } := by decide!
  refine ⟨hfix, fun n => ?_, ?_⟩
  · rw [Function.iterate_fixed hfix]
  · rw [Function.iterate_fixed hfix]
    decide!

/-- C8, amended: for a ramp with the gate off, `out = o0 > 0`, shape `0`,
`cycle` off, a time step `dt > 0` and the fall time constant
`tau = minTime * 2^(20 * clamp(fallRate, 0, 1))` (`pow` positive), successive
calls of `Ramp::process` give a non-increasing, non-negative `out` with the
gate off; each call sets `out` to the stepped value `out - 10 * dt / tau` while
that is above `0.001` and to exactly `0` otherwise, and once `out` is `0` it is
`0` after every later call. -/
theorem Ramp.fall_steps_then_snaps (env : Env) (hpow : ∀ x, 0 < env.pow2 x)
    (riseRate fallRate dt : ℚ) (r : Ramp)
    (hg : r.gate = false) (h0 : 0 < r.out) (hdt : 0 < dt) :
    (∀ n, ((Ramp.freeStep env riseRate fallRate dt)^[n + 1] r).out
        ≤ ((Ramp.freeStep env riseRate fallRate dt)^[n] r).out)
    ∧ (∀ n, 0 ≤ ((Ramp.freeStep env riseRate fallRate dt)^[n] r).out
        ∧ ((Ramp.freeStep env riseRate fallRate dt)^[n] r).gate = false)
    ∧ (∀ n, ((Ramp.freeStep env riseRate fallRate dt)^[n + 1] r).out
        = (if 1 / 1000 < ((Ramp.freeStep env riseRate fallRate dt)^[n] r).out
              - 10 / (r.minTime * env.pow2 (clamp fallRate 0 1 * 20)) * dt
            then ((Ramp.freeStep env riseRate fallRate dt)^[n] r).out
              - 10 / (r.minTime * env.pow2 (clamp fallRate 0 1 * 20)) * dt
            else 0))
    ∧ (∀ n m, n ≤ m → ((Ramp.freeStep env riseRate fallRate dt)^[n] r).out = 0 →
        ((Ramp.freeStep env riseRate fallRate dt)^[m] r).out = 0) := by
  have hinv : ∀ n, ((Ramp.freeStep env riseRate fallRate dt)^[n] r).gate = false
      ∧ 0 ≤ ((Ramp.freeStep env riseRate fallRate dt)^[n] r).out := fun n =>
    ⟨(Ramp.freeStep_iterate env hpow riseRate fallRate dt r hdt hg h0.le n).1,
      (Ramp.freeStep_iterate env hpow riseRate fallRate dt r hdt hg h0.le n).2.1⟩
  have hmono : ∀ n, ((Ramp.freeStep env riseRate fallRate dt)^[n + 1] r).out
      ≤ ((Ramp.freeStep env riseRate fallRate dt)^[n] r).out := by
    intro n
    rw [Function.iterate_succ_apply']
    exact (Ramp.freeStep_out env hpow riseRate fallRate dt _ hdt (hinv n).1 (hinv n).2).2.2.1
  have hmono' : ∀ n m, n ≤ m → ((Ramp.freeStep env riseRate fallRate dt)^[m] r).out
      ≤ ((Ramp.freeStep env riseRate fallRate dt)^[n] r).out := by
    intro n m hnm
    induction hnm with
    | refl => exact le_refl _
    | step _ ih => exact le_trans (hmono _) ih
  refine ⟨hmono, fun n => ⟨(hinv n).2, (hinv n).1⟩, ?_, ?_⟩
  · intro n
    rw [Function.iterate_succ_apply']
    exact Ramp.freeStep_out_eq env hpow riseRate fallRate dt _ hdt (hinv n).1 (hinv n).2
  · intro n m hnm hn
    exact le_antisymm (hn ▸ hmono' n m hnm) (hinv m).2

/-- Instance: at 48 kHz and fall rate `0` a ramp at `1` steps to `19/24` and is
at `0` after 5 calls and after 7. -/
theorem Ramp.fall_steps_then_snaps_witness :
    ((Ramp.freeStep sampleEnv 0 0 (1 / 48000))^[0 + 1] { out := 1 }).out = 19 / 24
    ∧ ((Ramp.freeStep sampleEnv 0 0 (1 / 48000))^[4 + 1] { out := 1 }).out
        ≤ ((Ramp.freeStep sampleEnv 0 0 (1 / 48000))^[4] { out := 1 }).out
    ∧ ((Ramp.freeStep sampleEnv 0 0 (1 / 48000))^[5] { out := 1 }).out = 0
    ∧ ((Ramp.freeStep sampleEnv 0 0 (1 / 48000))^[7] { out := 1 }).out = 0 :=
  have h := Ramp.fall_steps_then_snaps sampleEnv sampleEnv_positive.1 0 0 (1 / 48000)
    { out := 1 } (by decide!) (by decide!) (by decide!)
  ⟨(h.2.2.1 0).trans (by decide!), h.1 4, by decide!, h.2.2.2 5 7 (by decide) (by decide!)⟩

/-! ## Ramp at rest (C9) -/

/-- C9, as stated, fails. A ramp exactly at its target `1` with the gate on is
at `24571/24576` after two calls at fall rate `1/2` (the first call clears the
gate, the second decays); a ramp at `1/2000` with the gate off, within `0.001`
of its target `0`, is at `0` after one call. -/
theorem Ramp.rest_idempotence_fails :
    (|1 - ({ out := 1, gate := true } : Ramp).out| ≤ 1 / 1000
      ∧ (Ramp.processN sampleEnv 0 0 (1 / 2) (1 / 48000) false 2
            { out := 1, gate := true }).out = 24571 / 24576
      ∧ (Ramp.processN sampleEnv 0 0 (1 / 2) (1 / 48000) false 2
            { out := 1, gate := true }).out ≠ ({ out := 1, gate := true } : Ramp).out)
    ∧ (|0 - ({ out := 1 / 2000, gate := false } : Ramp).out| ≤ 1 / 1000
      ∧ (Ramp.processN sampleEnv 0 0 (1 / 2) (1 / 48000) false 1
            { out := 1 / 2000, gate := false }).out = 0
      ∧ (Ramp.processN sampleEnv 0 0 (1 / 2) (1 / 48000) false 1
            { out := 1 / 2000, gate := false }).out
          ≠ ({ out := 1 / 2000, gate := false } : Ramp).out) := by
  decide!

/-- One call on a ramp within `0.001` of its target sets `out` to the target;
with the gate off it leaves the gate off. -/
theorem Ramp.process_near_target (env : Env) (hpos : env.Positive) (r : Ramp)
    (shape riseRate fallRate time : ℚ)
    (hs1 : -1 ≤ shape) (hs2 : shape ≤ 1) (ht : 0 ≤ time)
    (hnear : |(if r.gate then (1 : ℚ) else 0) - r.out| ≤ 1 / 1000) :
    (r.process env shape riseRate fallRate time false).out = (if r.gate then (1 : ℚ) else 0)
    ∧ (r.gate = false → (r.process env shape riseRate fallRate time false).gate = false) := by
  unfold Ramp.process
  simp only []
  generalize ((if r.gate then 1 else 0) : ℚ) = inp at hnear ⊢
  obtain ⟨hn1, hn2⟩ := abs_le.mp hnear
  by_cases c1 : inp - r.out > 0
  · rw [if_pos c1]
    have hsd := Ramp.shapeDelta_pos env hpos (inp - r.out)
      (r.minTime * env.pow2 (riseRate * 20)) shape c1 (Ramp.tau_pos env hpos r _) hs1 hs2
    have hstep := mul_nonneg hsd.le ht
    have c2 : ¬ (inp - (r.out + Ramp.shapeDelta env (inp - r.out)
        (r.minTime * env.pow2 (riseRate * 20)) shape * time) > 1 / 1000) := by
      intro h; linarith
    simp only [c2, decide_False, Bool.not_false, if_true]
    exact ⟨trivial, fun _ => trivial⟩
  · rw [if_neg c1]
    by_cases c3 : inp - r.out < 0
    · rw [if_pos c3]
      have hsd := Ramp.shapeDelta_neg env hpos (inp - r.out)
        (r.minTime * env.pow2 (clamp fallRate 0 1 * 20)) shape c3 (Ramp.tau_pos env hpos r _)
        hs1 hs2
      have hstep := mul_nonpos_of_nonpos_of_nonneg hsd.le ht
      have c4 : ¬ (inp - (r.out + Ramp.shapeDelta env (inp - r.out)
          (r.minTime * env.pow2 (clamp fallRate 0 1 * 20)) shape * time) < -(1 / 1000)) := by
        intro h; linarith
      simp only [c4, decide_False, Bool.not_false, Bool.and_false, Bool.false_eq_true,
        if_false, if_true]
      exact ⟨trivial, fun h => h⟩
    · rw [if_neg c3]
      exact ⟨rfl, fun _ => rfl⟩

/-- C9, amended: for a ramp whose `out` is within `0.001` of its target (`1`
with the gate on, `0` with it off), a shape in `[-1, 1]`, a time step `≥ 0` and
`cycle` off (`pow`, `M_E` positive), the first call of `Ramp::process` sets
`out` exactly to the target; with the gate off, `out` is exactly `0` and the
gate is off after every number `n ≥ 1` of successive calls, so a ramp resting
exactly at `0` has the same `out` after the calls as before them. -/
theorem Ramp.rest_snaps_to_target (env : Env) (hpos : env.Positive) (r : Ramp)
    (shape riseRate fallRate time : ℚ)
    (hs1 : -1 ≤ shape) (hs2 : shape ≤ 1) (ht : 0 ≤ time)
    (hnear : |(if r.gate then (1 : ℚ) else 0) - r.out| ≤ 1 / 1000) :
    (Ramp.processN env shape riseRate fallRate time false 1 r).out
        = (if r.gate then (1 : ℚ) else 0)
    ∧ (r.gate = false → ∀ n, 1 ≤ n →
        (Ramp.processN env shape riseRate fallRate time false n r).out = 0
        ∧ (Ramp.processN env shape riseRate fallRate time false n r).gate = false)
    ∧ (r.gate = false → r.out = 0 → ∀ n,
        (Ramp.processN env shape riseRate fallRate time false n r).out = r.out) := by
  have h1 := Ramp.process_near_target env hpos r shape riseRate fallRate time hs1 hs2 ht hnear
  have hrest : r.gate = false → ∀ n, 1 ≤ n →
      (Ramp.processN env shape riseRate fallRate time false n r).out = 0
      ∧ (Ramp.processN env shape riseRate fallRate time false n r).gate = false := by
    intro hg n hn
    induction n with
    | zero => exact absurd hn (by decide)
    | succ n ih =>
      unfold Ramp.processN
      rw [Function.iterate_succ_apply']
      rcases Nat.eq_zero_or_pos n with rfl | hpos'
      · simp only [Function.iterate_zero, id_eq]
        refine ⟨?_, h1.2 hg⟩
        rw [h1.1, hg]
        simp
      · obtain ⟨a, b⟩ := ih hpos'
        exact Ramp.process_at_rest env _ shape riseRate fallRate time false b a
  refine ⟨h1.1, hrest, ?_⟩
  intro hg ho n
  rcases Nat.eq_zero_or_pos n with rfl | hpos'
  · rfl
  · rw [(hrest hg n hpos').1, ho]

/-- Instance: a ramp at `1/2000` with the gate off is at `0` after 1 and after 3 calls. -/
theorem Ramp.rest_snaps_to_target_witness :
    (Ramp.processN sampleEnv 0 0 (1 / 2) (1 / 48000) false 1 { out := 1 / 2000 }).out
        = (if ({ out := 1 / 2000 } : Ramp).gate then (1 : ℚ) else 0)
    ∧ (Ramp.processN sampleEnv 0 0 (1 / 2) (1 / 48000) false 3 { out := 1 / 2000 }).out = 0
    ∧ (Ramp.processN sampleEnv 0 0 (1 / 2) (1 / 48000) false 3 { out := 1 / 2000 }).gate
        = false :=
  have h := Ramp.rest_snaps_to_target sampleEnv sampleEnv_positive { out := 1 / 2000 }
    0 0 (1 / 2) (1 / 48000) (by decide!) (by decide!) (by decide!) (by decide!)
  ⟨h.1, (h.2.1 rfl 3 (by decide)).1, (h.2.1 rfl 3 (by decide)).2⟩

/-! ## Latched presets and frame of the latch (C11, C12) -/

/-- After the trigger stage nothing in the tick writes the latched controls. -/
theorem PSIOP.process_controls (env : Env) (s : PSIOP) (t : Tick) :
    (PSIOP.process env s t).startPitch = (PSIOP.triggerStage env s t).startPitch
    ∧ (PSIOP.process env s t).endPitch = (PSIOP.triggerStage env s t).endPitch
    ∧ (PSIOP.process env s t).finePitch = (PSIOP.triggerStage env s t).finePitch
    ∧ (PSIOP.process env s t).rates = (PSIOP.triggerStage env s t).rates
    ∧ (PSIOP.process env s t).feedback = (PSIOP.triggerStage env s t).feedback
    ∧ (PSIOP.process env s t).index = (PSIOP.triggerStage env s t).index
    ∧ (PSIOP.process env s t).level = (PSIOP.triggerStage env s t).level := by
  unfold PSIOP.process PSIOP.beforeOperators PSIOP.pitchStage PSIOP.ampRampStage
    PSIOP.chokeStage
  simp only []
  split_ifs <;> exact ⟨rfl, rfl, rfl, rfl, rfl, rfl, rfl⟩

/-- The presets after the trigger stage of a tick with a trigger edge. -/
theorem PSIOP.triggerStage_presets (env : Env) (s : PSIOP) (t : Tick)
    (h : (env.schmitt s.trigger (t.inputs TRIGGER_INPUT / 2)).1 = true) :
    (PSIOP.triggerStage env s t).index
        = (if (env.schmitt s.accent (t.inputs ACCENT_INPUT / 2)).1 then 1 else 3 / 5)
    ∧ (PSIOP.triggerStage env s t).level
        = (if (env.schmitt s.accent (t.inputs ACCENT_INPUT / 2)).1 then 9 / 5 else 1) := by
  unfold PSIOP.triggerStage PSIOP.latch
  simp only []
  rw [if_pos h]
  exact ⟨rfl, rfl⟩

/-- A tick without a trigger edge leaves every member but the detector as it was
through the trigger stage. -/
theorem PSIOP.triggerStage_idle (env : Env) (s : PSIOP) (t : Tick)
    (h : (env.schmitt s.trigger (t.inputs TRIGGER_INPUT / 2)).1 = false) :
    PSIOP.triggerStage env s t
      = { s with trigger := (env.schmitt s.trigger (t.inputs TRIGGER_INPUT / 2)).2 } := by
  unfold PSIOP.triggerStage
  simp only [h, Bool.false_eq_true, if_false]

/-- The audio jack gets the loop accumulator times `4` times the level. -/
theorem PSIOP.process_out_jack (env : Env) (s : PSIOP) (t : Tick) :
    (PSIOP.process env s t).outputs OUT_OUTPUT
      = (PSIOP.tickLoop env s t).output * 4 * (PSIOP.process env s t).level := by
  simp only [PSIOP.process, PSIOP.tickLoop, setAt, if_true]

/-- The loop accumulator of a tick is the mix-column dot product of the operator
outputs after the tick. -/
theorem PSIOP.tickLoop_output (env : Env) (s : PSIOP) (t : Tick) :
    (PSIOP.tickLoop env s t).output
      = ∑ i in Finset.range 4,
          ((PSIOP.process env s t).operators i).out
            * modMatrixGet (PSIOP.process env s t).algo i 4 :=
  PSIOP.operatorLoop_output env (PSIOP.beforeOperators env s t).1 t.args.sampleTime
    (PSIOP.beforeOperators env s t).2

/-- C11: on a tick with a trigger edge the latched `(index, level)` is
`(1, 1.8)` when the accent detector reports an edge in the same tick and
`(0.6, 1)` otherwise; and when an accented and a plain trigger tick end with
the same algorithm and the same four operator outputs, the audio output of the
accented tick is `1.8` times that of the plain tick. -/
theorem PSIOP.accent_preset (env : Env) (s : PSIOP) (t : Tick)
    (h : (env.schmitt s.trigger (t.inputs TRIGGER_INPUT / 2)).1 = true) :
    ((env.schmitt s.accent (t.inputs ACCENT_INPUT / 2)).1 = true →
        (PSIOP.process env s t).index = 1 ∧ (PSIOP.process env s t).level = 9 / 5)
    ∧ ((env.schmitt s.accent (t.inputs ACCENT_INPUT / 2)).1 = false →
        (PSIOP.process env s t).index = 3 / 5 ∧ (PSIOP.process env s t).level = 1)
    ∧ (∀ (s2 : PSIOP) (t2 : Tick),
        (env.schmitt s2.trigger (t2.inputs TRIGGER_INPUT / 2)).1 = true →
        (env.schmitt s.accent (t.inputs ACCENT_INPUT / 2)).1 = true →
        (env.schmitt s2.accent (t2.inputs ACCENT_INPUT / 2)).1 = false →
        (PSIOP.process env s t).algo = (PSIOP.process env s2 t2).algo →
        (∀ i, i < 4 →
          ((PSIOP.process env s t).operators i).out
            = ((PSIOP.process env s2 t2).operators i).out) →
        (PSIOP.process env s t).outputs OUT_OUTPUT
          = 9 / 5 * (PSIOP.process env s2 t2).outputs OUT_OUTPUT) := by
  obtain ⟨_, _, _, _, _, pi, pl⟩ := PSIOP.process_controls env s t
  obtain ⟨qi, ql⟩ := PSIOP.triggerStage_presets env s t h
  refine ⟨?_, ?_, ?_⟩
  · intro ha
    rw [pi, pl, qi, ql, ha]
    exact ⟨rfl, rfl⟩
  · intro ha
    rw [pi, pl, qi, ql, ha]
    exact ⟨rfl, rfl⟩
  · intro s2 t2 h2 ha ha2 halgo hout
    obtain ⟨_, _, _, _, _, _, pl2⟩ := PSIOP.process_controls env s2 t2
    obtain ⟨_, ql2⟩ := PSIOP.triggerStage_presets env s2 t2 h2
    have l1 : (PSIOP.process env s t).level = 9 / 5 := by rw [pl, ql, ha]; rfl
    have l2 : (PSIOP.process env s2 t2).level = 1 := by rw [pl2, ql2, ha2]; rfl
    rw [PSIOP.process_out_jack env s t, PSIOP.process_out_jack env s2 t2,
      PSIOP.tickLoop_output env s t, PSIOP.tickLoop_output env s2 t2, l1, l2, halgo]
    have e : ∑ i in Finset.range 4, ((PSIOP.process env s t).operators i).out
          * modMatrixGet (PSIOP.process env s2 t2).algo i 4
        = ∑ i in Finset.range 4, ((PSIOP.process env s2 t2).operators i).out
          * modMatrixGet (PSIOP.process env s2 t2).algo i 4 := by
      apply Finset.sum_congr rfl
      intro i hi
      rw [hout i (Finset.mem_range.mp hi)]
    rw [e]
    ring

/-- Instance: an accented and a plain strike of the struck module with
algorithm 1, which has no FM path. -/
theorem PSIOP.accent_preset_witness :
    (sampleEnv.schmitt struck.trigger (accentTick.inputs TRIGGER_INPUT / 2)).1 = true
    ∧ (PSIOP.process sampleEnv struck accentTick).index = 1
    ∧ (PSIOP.process sampleEnv struck accentTick).level = 9 / 5
    ∧ (PSIOP.process sampleEnv struck plainTick).index = 3 / 5
    ∧ (PSIOP.process sampleEnv struck plainTick).level = 1
    ∧ (PSIOP.process sampleEnv struck accentTick).outputs OUT_OUTPUT
        = 9 / 5 * (PSIOP.process sampleEnv struck plainTick).outputs OUT_OUTPUT
    ∧ (PSIOP.process sampleEnv struck plainTick).outputs OUT_OUTPUT ≠ 0 :=
  have h := PSIOP.accent_preset sampleEnv struck accentTick (by decide!)
  have h2 := PSIOP.accent_preset sampleEnv struck plainTick (by decide!)
  ⟨by decide!, (h.1 (by decide!)).1, (h.1 (by decide!)).2, (h2.2.1 (by decide!)).1,
    (h2.2.1 (by decide!)).2,
    h.2.2 struck plainTick (by decide!) (by decide!) (by decide!) (by decide!) (by decide!),
    by decide!⟩

/-- C12: on a tick without a trigger edge the latched controls `startPitch`,
`endPitch`, `finePitch`, `rates[0..2]`, `ratioIndex`, `table`, `algo`,
`feedback`, `index` and `level` are after the tick what they were before it,
whatever the knobs and jacks of the tick are. -/
theorem PSIOP.controls_held_without_trigger (env : Env) (s : PSIOP) (t : Tick)
    (h : (env.schmitt s.trigger (t.inputs TRIGGER_INPUT / 2)).1 = false) :
    (PSIOP.process env s t).startPitch = s.startPitch
    ∧ (PSIOP.process env s t).endPitch = s.endPitch
    ∧ (PSIOP.process env s t).finePitch = s.finePitch
    ∧ (∀ i, (PSIOP.process env s t).rates i = s.rates i)
    ∧ (PSIOP.process env s t).ratioIndex = s.ratioIndex
    ∧ (PSIOP.process env s t).table = s.table
    ∧ (PSIOP.process env s t).algo = s.algo
    ∧ (PSIOP.process env s t).feedback = s.feedback
    ∧ (PSIOP.process env s t).index = s.index
    ∧ (PSIOP.process env s t).level = s.level := by
  obtain ⟨c1, c2, c3, c4, c5, c6, c7⟩ := PSIOP.process_controls env s t
  obtain ⟨i1, i2, i3⟩ := PSIOP.process_indices env s t
  rw [c1, c2, c3, c4, c5, c6, c7, i1, i2, i3, PSIOP.triggerStage_idle env s t h]
  exact ⟨rfl, rfl, rfl, fun _ => rfl, rfl, rfl, rfl, rfl, rfl, rfl⟩

/-- Instance: the struck module keeps its controls through a tick with every knob
at 7 and 999 V on the control jacks. -/
theorem PSIOP.controls_held_without_trigger_witness :
    (sampleEnv.schmitt struck.trigger (wildTick.inputs TRIGGER_INPUT / 2)).1 = false
    ∧ (PSIOP.process sampleEnv struck wildTick).startPitch = struck.startPitch
    ∧ (PSIOP.process sampleEnv struck wildTick).ratioIndex = struck.ratioIndex
    ∧ (PSIOP.process sampleEnv struck wildTick).level = struck.level :=
  have h := PSIOP.controls_held_without_trigger sampleEnv struck wildTick (by decide!)
  ⟨by decide!, h.1, h.2.2.2.2.1, h.2.2.2.2.2.2.2.2.2⟩

/-! ## Pitch glide (C13) -/

/-- State handed to the pitch stage: after the trigger, choke and amplitude stages. -/
theorem PSIOP.beforeOperators_eq (env : Env) (s : PSIOP) (t : Tick) :
    PSIOP.beforeOperators env s t
      = PSIOP.pitchStage env
          (PSIOP.ampRampStage env (PSIOP.chokeStage env (PSIOP.triggerStage env s t) t) t) t :=
  rfl

/-- The choke stage writes the ramps and its detector only. -/
theorem PSIOP.chokeStage_controls (env : Env) (s : PSIOP) (t : Tick) :
    (PSIOP.chokeStage env s t).rates = s.rates
    ∧ (PSIOP.chokeStage env s t).startPitch = s.startPitch
    ∧ (PSIOP.chokeStage env s t).endPitch = s.endPitch
    ∧ (PSIOP.chokeStage env s t).ratioIndex = s.ratioIndex := by
  unfold PSIOP.chokeStage
  simp only []
  split_ifs <;> exact ⟨rfl, rfl, rfl, rfl⟩

/-- Without a choke edge the choke stage leaves the ramps as they were. -/
theorem PSIOP.chokeStage_idle_ramps (env : Env) (s : PSIOP) (t : Tick)
    (h : (env.schmitt s.choke (t.inputs CHOKE_INPUT / 2)).1 = false) :
    (PSIOP.chokeStage env s t).ramps = s.ramps := by
  unfold PSIOP.chokeStage
  simp only [h, Bool.false_eq_true, if_false]

/-- The local `pitch` and the state left by the pitch stage. -/
theorem PSIOP.pitchStage_pitch (env : Env) (s : PSIOP) (t : Tick) :
    (PSIOP.pitchStage env s t).2
      = (if s.rates 2 > 1 / 5
          then crossfade s.endPitch s.startPitch ((PSIOP.pitchStage env s t).1.ramps 2).out
          else s.startPitch)
    ∧ (PSIOP.pitchStage env s t).1.rates = s.rates
    ∧ (PSIOP.pitchStage env s t).1.startPitch = s.startPitch
    ∧ (PSIOP.pitchStage env s t).1.endPitch = s.endPitch
    ∧ (PSIOP.pitchStage env s t).1.ratioIndex = s.ratioIndex := by
  unfold PSIOP.pitchStage
  simp only []
  by_cases hr : s.rates 2 > 1 / 5
  · rw [if_pos hr, if_pos hr]
    exact ⟨rfl, rfl, rfl, rfl, rfl⟩
  · rw [if_neg hr, if_neg hr]
    exact ⟨rfl, rfl, rfl, rfl, rfl⟩

/-- Iteration `i` of the operator loop leaves `operators[i].freq` at the
reference frequency times `2^pitch` times the ratio of slot `i`. -/
theorem PSIOP.operatorStep_freq (env : Env) (s : PSIOP) (time pitch : ℚ) (l : OpLoop)
    (i : Nat) :
    ((PSIOP.operatorStep env s time pitch l i).operators i).freq
      = env.FREQ_C4 * env.pow2 pitch
          * env.fm_frequency_ratios (matrixGet ratioMatrix s.ratioIndex i) := by
  simp [PSIOP.operatorStep, setAt, Operator.process, Operator.setPitch, Operator.applyRatio]

/-- After the operator loop every operator runs at the frequency set from `pitch`. -/
theorem PSIOP.operatorLoop_freq (env : Env) (s : PSIOP) (time pitch : ℚ) (i : Nat)
    (hi : i < 4) :
    ((PSIOP.operatorLoop env s time pitch).operators i).freq
      = env.FREQ_C4 * env.pow2 pitch
          * env.fm_frequency_ratios (matrixGet ratioMatrix s.ratioIndex i) := by
  unfold PSIOP.operatorLoop
  simp only [List.foldl]
  have hi' : i = 0 ∨ i = 1 ∨ i = 2 ∨ i = 3 := by omega
  rcases hi' with rfl | rfl | rfl | rfl
  · rw [PSIOP.operatorStep_operators_ne env s time pitch _ 3 0 (by decide),
      PSIOP.operatorStep_operators_ne env s time pitch _ 2 0 (by decide),
      PSIOP.operatorStep_operators_ne env s time pitch _ 1 0 (by decide),
      PSIOP.operatorStep_freq]
  · rw [PSIOP.operatorStep_operators_ne env s time pitch _ 3 1 (by decide),
      PSIOP.operatorStep_operators_ne env s time pitch _ 2 1 (by decide),
      PSIOP.operatorStep_freq]
  · rw [PSIOP.operatorStep_operators_ne env s time pitch _ 3 2 (by decide),
      PSIOP.operatorStep_freq]
  · rw [PSIOP.operatorStep_freq]

/-- The frequency of operator `i` after a tick, from the local `pitch` of the tick. -/
theorem PSIOP.process_freq (env : Env) (s : PSIOP) (t : Tick) (i : Nat) (hi : i < 4) :
    ((PSIOP.process env s t).operators i).freq
      = env.FREQ_C4 * env.pow2 (PSIOP.beforeOperators env s t).2
          * env.fm_frequency_ratios
              (matrixGet ratioMatrix (PSIOP.process env s t).ratioIndex i) :=
  PSIOP.operatorLoop_freq env (PSIOP.beforeOperators env s t).1 t.args.sampleTime
    (PSIOP.beforeOperators env s t).2 i hi

/-- C13: on every tick, with `rates[2]` the latched glide rate in force: if
`rates[2] ≤ 0.2` the local `pitch`, set on all four operators, is `startPitch`
and ramp 2 is what the trigger and choke stages left (the ramp as it was when
neither fired); if `rates[2] > 0.2` ramp 2 is advanced by `Ramp::process` with
shape `0.3`, rise rate `0`, fall rate `1 - rates[2]` and `cycle` on, and `pitch`
is `endPitch + (startPitch - endPitch) * ramps[2].out` with the `out` after
that advance. -/
theorem PSIOP.pitch_glide_threshold (env : Env) (s : PSIOP) (t : Tick) :
    ((PSIOP.process env s t).rates 2 ≤ 1 / 5 →
      (PSIOP.beforeOperators env s t).2 = (PSIOP.process env s t).startPitch
      ∧ (PSIOP.process env s t).ramps 2
          = (PSIOP.chokeStage env (PSIOP.triggerStage env s t) t).ramps 2
      ∧ ∀ i, i < 4 →
          ((PSIOP.process env s t).operators i).freq
            = env.FREQ_C4 * env.pow2 (PSIOP.process env s t).startPitch
                * env.fm_frequency_ratios
                    (matrixGet ratioMatrix (PSIOP.process env s t).ratioIndex i))
    ∧ ((PSIOP.process env s t).rates 2 > 1 / 5 →
      (PSIOP.process env s t).ramps 2
          = ((PSIOP.chokeStage env (PSIOP.triggerStage env s t) t).ramps 2).process env
              (3 / 10) 0 (1 - (PSIOP.process env s t).rates 2) t.args.sampleTime true
      ∧ (PSIOP.beforeOperators env s t).2
          = (PSIOP.process env s t).endPitch
              + ((PSIOP.process env s t).startPitch - (PSIOP.process env s t).endPitch)
                * ((PSIOP.process env s t).ramps 2).out
      ∧ ∀ i, i < 4 →
          ((PSIOP.process env s t).operators i).freq
            = env.FREQ_C4
                * env.pow2 ((PSIOP.process env s t).endPitch
                    + ((PSIOP.process env s t).startPitch - (PSIOP.process env s t).endPitch)
                      * ((PSIOP.process env s t).ramps 2).out)
                * env.fm_frequency_ratios
                    (matrixGet ratioMatrix (PSIOP.process env s t).ratioIndex i))
    ∧ ((env.schmitt s.trigger (t.inputs TRIGGER_INPUT / 2)).1 = false →
        (env.schmitt s.choke (t.inputs CHOKE_INPUT / 2)).1 = false →
        (PSIOP.chokeStage env (PSIOP.triggerStage env s t) t).ramps 2 = s.ramps 2) := by
  obtain ⟨c1, c2, _, c4, _, _, _⟩ := PSIOP.process_controls env s t
  obtain ⟨k1, k2, k3, _⟩ := PSIOP.chokeStage_controls env (PSIOP.triggerStage env s t) t
  obtain ⟨p1, _, _, _, _⟩ := PSIOP.pitchStage_pitch env
    (PSIOP.ampRampStage env (PSIOP.chokeStage env (PSIOP.triggerStage env s t) t) t) t
  have hrates : (PSIOP.ampRampStage env
      (PSIOP.chokeStage env (PSIOP.triggerStage env s t) t) t).rates
      = (PSIOP.process env s t).rates := by rw [c4, ← k1]; rfl
  have hstart : (PSIOP.ampRampStage env
      (PSIOP.chokeStage env (PSIOP.triggerStage env s t) t) t).startPitch
      = (PSIOP.process env s t).startPitch := by rw [c1, ← k2]; rfl
  have hend : (PSIOP.ampRampStage env
      (PSIOP.chokeStage env (PSIOP.triggerStage env s t) t) t).endPitch
      = (PSIOP.process env s t).endPitch := by rw [c2, ← k3]; rfl
  have hramp := PSIOP.pitchStage_ramps env
    (PSIOP.ampRampStage env (PSIOP.chokeStage env (PSIOP.triggerStage env s t) t) t) t 2
  rw [PSIOP.ampRampStage_ramps env _ t 2] at hramp
  simp only [show ¬ (2 < 2) by decide, if_false, true_and] at hramp
  rw [hrates] at hramp p1
  rw [hstart, hend] at p1
  rw [← PSIOP.beforeOperators_eq] at hramp p1
  rw [← PSIOP.process_ramps] at hramp p1
  refine ⟨?_, ?_, ?_⟩
  · intro hle
    have hn : ¬ ((PSIOP.process env s t).rates 2 > 1 / 5) := not_lt.mpr hle
    rw [if_neg hn] at hramp p1
    refine ⟨p1, hramp, ?_⟩
    intro i hi
    rw [PSIOP.process_freq env s t i hi, p1]
  · intro hgt
    rw [if_pos hgt] at hramp p1
    have p2 : (PSIOP.beforeOperators env s t).2
        = (PSIOP.process env s t).endPitch
          + ((PSIOP.process env s t).startPitch - (PSIOP.process env s t).endPitch)
            * ((PSIOP.process env s t).ramps 2).out := by
      rw [p1]; rfl
    refine ⟨hramp, p2, ?_⟩
    intro i hi
    rw [PSIOP.process_freq env s t i hi, p2]
  · intro ht hc
    have hc' : (env.schmitt (PSIOP.triggerStage env s t).choke
        (t.inputs CHOKE_INPUT / 2)).1 = false := by
      rw [PSIOP.triggerStage_choke]; exact hc
    rw [PSIOP.chokeStage_idle_ramps env _ t hc', PSIOP.triggerStage_idle env s t ht]

/-- Instance: the struck module on a quiet tick (glide off) and on a trigger tick
with the speed knob at `1/2` (glide on). -/
theorem PSIOP.pitch_glide_threshold_witness :
    ((PSIOP.process sampleEnv struck quietTick).rates 2 ≤ 1 / 5
      ∧ (PSIOP.beforeOperators sampleEnv struck quietTick).2
          = (PSIOP.process sampleEnv struck quietTick).startPitch)
    ∧ ((PSIOP.process sampleEnv struck glideTick).rates 2 > 1 / 5
      ∧ (PSIOP.process sampleEnv struck glideTick).ramps 2
          = ((PSIOP.chokeStage sampleEnv (PSIOP.triggerStage sampleEnv struck glideTick)
              glideTick).ramps 2).process sampleEnv (3 / 10) 0
              (1 - (PSIOP.process sampleEnv struck glideTick).rates 2)
              glideTick.args.sampleTime true) :=
  ⟨⟨by decide!, ((PSIOP.pitch_glide_threshold sampleEnv struck quietTick).1 (by decide!)).1⟩,
    ⟨by decide!, ((PSIOP.pitch_glide_threshold sampleEnv struck glideTick).2.1 (by decide!)).1⟩⟩

/-! ## Feedback history (C14) -/

/-- After every call of `Operator::process` both buffer samples and the feedback
sample are the raw sample of this call. -/
theorem Operator.process_feedbackSample (env : Env) (o : Operator)
    (time amplitude fmMod feedback : ℚ) (table : Nat) :
    (o.process env time amplitude fmMod feedback table).bufferSample1
        = (o.process env time amplitude fmMod feedback table).wave
    ∧ (o.process env time amplitude fmMod feedback table).bufferSample2
        = (o.process env time amplitude fmMod feedback table).wave
    ∧ (o.process env time amplitude fmMod feedback table).feedbackSample
        = (o.process env time amplitude fmMod feedback table).wave := by
  have half : ∀ a : ℚ, (a + a) / 2 = a := fun a => by ring
  exact ⟨rfl, rfl, half _⟩

/-- C14 fails on the code: for an operator at 4800 Hz called twice at 48 kHz,
the second time with FM input `1`, the raw samples are `w1 = 1` and `w2 = -1`
and `feedbackSample` after the second call is `-1 = w2`, not the average
`(w1 + w2) / 2 = 0`. -/
theorem Operator.feedbackSample_is_not_average :
    (Operator.process sampleEnv { freq := 4800 } (1 / 48000) 1 0 0 0).wave = 1
    ∧ (Operator.process sampleEnv
        (Operator.process sampleEnv { freq := 4800 } (1 / 48000) 1 0 0 0)
        (1 / 48000) 1 1 0 0).wave = -1
    ∧ (Operator.process sampleEnv
        (Operator.process sampleEnv { freq := 4800 } (1 / 48000) 1 0 0 0)
        (1 / 48000) 1 1 0 0).feedbackSample = -1
    ∧ (Operator.process sampleEnv
        (Operator.process sampleEnv { freq := 4800 } (1 / 48000) 1 0 0 0)
        (1 / 48000) 1 1 0 0).feedbackSample
      ≠ ((Operator.process sampleEnv { freq := 4800 } (1 / 48000) 1 0 0 0).wave
          + (Operator.process sampleEnv
              (Operator.process sampleEnv { freq := 4800 } (1 / 48000) 1 0 0 0)
              (1 / 48000) 1 1 0 0).wave) / 2 := by
  decide!

/-! ## Shape of the ramp rate (C15) -/

/-- C15: for every `delta`, every `tau > 0` and every `shape`,
`Ramp::shapeDelta` is `(1 - w) * lin + w * log` with `w = -0.95 * shape` when
`shape < 0` and `(1 - w) * lin + w * exp` with `w = 0.90 * shape` when
`shape ≥ 0`, where `lin = sgn(delta) * 10 / tau`,
`log = sgn(delta) * 40 / (tau * (|delta| + 1))` and `exp = M_E * delta / tau`;
at shape `0` it is `lin`. -/
theorem Ramp.shapeDelta_formula (env : Env) (delta tau shape : ℚ) (htau : 0 < tau) :
    (shape < 0 →
      Ramp.shapeDelta env delta tau shape
        = (1 - -(19 / 20) * shape) * (sgn delta * 10 / tau)
          + -(19 / 20) * shape * (sgn delta * 40 / (tau * (|delta| + 1))))
    ∧ (0 ≤ shape →
      Ramp.shapeDelta env delta tau shape
        = (1 - 9 / 10 * shape) * (sgn delta * 10 / tau)
          + 9 / 10 * shape * (env.M_E * delta / tau))
    ∧ Ramp.shapeDelta env delta tau 0 = sgn delta * 10 / tau := by
  have ht : tau ≠ 0 := ne_of_gt htau
  refine ⟨?_, ?_, Ramp.shapeDelta_zero env delta tau⟩
  · intro h
    unfold Ramp.shapeDelta
    simp only [if_pos h, crossfade_eq]
    rw [div_div]
    ring
  · intro h
    unfold Ramp.shapeDelta
    simp only [if_neg (not_lt.mpr h), crossfade_eq]
    ring

/-- Instance: fall of `1/2` over `tau = 1/1000` at shape `-1`, at shape `3/10`
and at shape `0`. -/
theorem Ramp.shapeDelta_formula_witness :
    Ramp.shapeDelta sampleEnv (-(1 / 2)) (1 / 1000) (-1)
        = (1 - -(19 / 20) * -1) * (sgn (-(1 / 2)) * 10 / (1 / 1000))
          + -(19 / 20) * -1 * (sgn (-(1 / 2)) * 40 / (1 / 1000 * (|-(1 / 2)| + 1)))
    ∧ Ramp.shapeDelta sampleEnv (-(1 / 2)) (1 / 1000) (3 / 10)
        = (1 - 9 / 10 * (3 / 10)) * (sgn (-(1 / 2)) * 10 / (1 / 1000))
          + 9 / 10 * (3 / 10) * (sampleEnv.M_E * -(1 / 2) / (1 / 1000))
    ∧ Ramp.shapeDelta sampleEnv (-(1 / 2)) (1 / 1000) 0 = -10000 :=
  ⟨(Ramp.shapeDelta_formula sampleEnv (-(1 / 2)) (1 / 1000) (-1) (by decide!)).1 (by decide!),
    (Ramp.shapeDelta_formula sampleEnv (-(1 / 2)) (1 / 1000) (3 / 10) (by decide!)).2.1
      (by decide!),
    by decide!⟩

/-! ## Wavetable read position (C16) -/

/-- Exact Euclidean remainder modulo `1` lies in `[0, 1)`. -/
theorem eucMod1_range (x : ℚ) : 0 ≤ eucMod1 x ∧ eucMod1 x < 1 := by
  unfold eucMod1 fmod1 truncInt
  simp only []
  by_cases hx : 0 ≤ x
  · rw [if_pos hx]
    have h1 := Int.floor_le x
    have h2 := Int.lt_floor_add_one x
    have hm : x - (⌊x⌋ : ℚ) ≥ 0 := by linarith
    rw [if_pos hm]
    constructor <;> linarith
  · rw [if_neg hx]
    have h1 := Int.le_ceil x
    have h2 := Int.ceil_lt_add_one x
    split_ifs with hm
    · constructor <;> linarith
    · push_neg at hm
      constructor <;> linarith

theorem sampleEnv_eucModUnit : sampleEnv.EucModUnit :=
  fun a => ⟨(eucMod1_range a).1, (eucMod1_range a).2.le⟩

theorem rampEnv_eucModUnit : rampEnv.EucModUnit :=
  fun a => ⟨(eucMod1_range a).1, (eucMod1_range a).2.le⟩

/-- Truncation of a non-negative value is the floor. -/
theorem truncInt_of_nonneg (x : ℚ) (h : 0 ≤ x) : truncInt x = ⌊x⌋ := by
  unfold truncInt
  rw [if_pos h]

/-- A conversion `(int)x` whose truncated value fits is the truncated value. -/
theorem castInt_of_fits (env : Env) (x : ℚ) (h : FitsInt (truncInt x)) :
    castInt env x = truncInt x := by
  unfold castInt
  unfold FitsInt at h
  rw [if_pos h]

/-- On a non-negative value below `2^31` the conversion to `int` is the floor. -/
theorem castInt_of_nonneg (env : Env) (x : ℚ) (h0 : 0 ≤ x) (h1 : x < 2147483648) :
    castInt env x = ⌊x⌋ := by
  rw [castInt_of_fits, truncInt_of_nonneg x h0]
  rw [truncInt_of_nonneg x h0]
  constructor
  · have := Int.floor_nonneg.mpr h0
    omega
  · rw [Int.floor_lt]
    exact_mod_cast h1

/-- At a non-negative position below `2^31`, `interpolateLinear` blends the
entries `⌊x⌋` and `⌊x⌋ + 1` with the fractional part of `x`. -/
theorem interpolateLinear_of_nonneg (env : Env) (p : Nat → ℚ) (x : ℚ) (h0 : 0 ≤ x)
    (h1 : x < 2147483648) :
    interpolateLinear env p x
      = crossfade (p ⌊x⌋.toNat) (p (⌊x⌋.toNat + 1)) (x - (⌊x⌋ : ℚ)) := by
  unfold interpolateLinear
  simp only [castInt_of_nonneg env x h0 h1]
  rw [Int.toNat_add (Int.floor_nonneg.mpr h0) (by decide)]
  rfl

theorem Operator.process_wave (env : Env) (o : Operator)
    (time amplitude fmMod feedback : ℚ) (table : Nat) :
    (o.process env time amplitude fmMod feedback table).wave
      = interpolateLinear env (env.wavetable_opal table)
          (Operator.wtPOS env o time fmMod feedback table) := rfl

/-- The read position of a table of length `L` lies in `[0, L]`, and below `L`
when the remainder is below `1`. -/
theorem Operator.wtPOS_range (env : Env) (heuc : env.EucModUnit) (o : Operator)
    (time fmMod feedback : ℚ) (table : Nat) :
    0 ≤ Operator.wtPOS env o time fmMod feedback table
    ∧ Operator.wtPOS env o time fmMod feedback table
        ≤ (env.wavetable_opal_lengths table : ℚ)
    ∧ (0 < env.wavetable_opal_lengths table →
        env.eucMod (Operator.wrapPhase o.phase o.freq time fmMod + feedback * o.feedbackSample)
          < 1 →
        Operator.wtPOS env o time fmMod feedback table
          < (env.wavetable_opal_lengths table : ℚ)) := by
  unfold Operator.wtPOS
  obtain ⟨h0, h1⟩ := heuc
    (Operator.wrapPhase o.phase o.freq time fmMod + feedback * o.feedbackSample)
  have hLq : (0 : ℚ) ≤ (env.wavetable_opal_lengths table : ℚ) := Nat.cast_nonneg _
  refine ⟨mul_nonneg h0 hLq, ?_, ?_⟩
  · calc env.eucMod (Operator.wrapPhase o.phase o.freq time fmMod + feedback * o.feedbackSample)
          * (env.wavetable_opal_lengths table : ℚ)
        ≤ 1 * (env.wavetable_opal_lengths table : ℚ) := mul_le_mul_of_nonneg_right h1 hLq
      _ = (env.wavetable_opal_lengths table : ℚ) := one_mul _
  · intro hL hlt
    have hLp : (0 : ℚ) < (env.wavetable_opal_lengths table : ℚ) := by exact_mod_cast hL
    calc env.eucMod (Operator.wrapPhase o.phase o.freq time fmMod + feedback * o.feedbackSample)
          * (env.wavetable_opal_lengths table : ℚ)
        < 1 * (env.wavetable_opal_lengths table : ℚ) := mul_lt_mul_of_pos_right hlt hLp
      _ = (env.wavetable_opal_lengths table : ℚ) := one_mul _

/-- The sample of a call is the blend of the entries `⌊p⌋` and `⌊p⌋ + 1`, with
`⌊p⌋` at most the table length. -/
theorem Operator.process_wave_eq (env : Env) (heuc : env.EucModUnit) (o : Operator)
    (time amplitude fmMod feedback : ℚ) (table : Nat)
    (hfit : env.wavetable_opal_lengths table < 2147483648) :
    ⌊Operator.wtPOS env o time fmMod feedback table⌋.toNat ≤ env.wavetable_opal_lengths table
    ∧ (o.process env time amplitude fmMod feedback table).wave
        = crossfade
            (env.wavetable_opal table ⌊Operator.wtPOS env o time fmMod feedback table⌋.toNat)
            (env.wavetable_opal table
              (⌊Operator.wtPOS env o time fmMod feedback table⌋.toNat + 1))
            (Operator.wtPOS env o time fmMod feedback table
              - (⌊Operator.wtPOS env o time fmMod feedback table⌋ : ℚ)) := by
  obtain ⟨h0, h1, _⟩ := Operator.wtPOS_range env heuc o time fmMod feedback table
  have hlt : Operator.wtPOS env o time fmMod feedback table < 2147483648 := by
    have : (env.wavetable_opal_lengths table : ℚ) < 2147483648 := by exact_mod_cast hfit
    linarith
  have hfl : ⌊Operator.wtPOS env o time fmMod feedback table⌋
      ≤ (env.wavetable_opal_lengths table : ℤ) := by
    have h2 : Operator.wtPOS env o time fmMod feedback table
        ≤ ((env.wavetable_opal_lengths table : ℤ) : ℚ) := by exact_mod_cast h1
    exact (Int.floor_le_floor h2).trans (le_of_eq (Int.floor_intCast _))
  have hnn : 0 ≤ ⌊Operator.wtPOS env o time fmMod feedback table⌋ := Int.floor_nonneg.mpr h0
  refine ⟨by omega, ?_⟩
  rw [Operator.process_wave, interpolateLinear_of_nonneg env _ _ h0 hlt]

/-- C16, as stated, fails. In a table of length 8 holding the ramp
`0, 1, 2, ...` an operator at phase `-1/10` reads at `p = 36/5`; the sample is
`36/5 = crossfade(table[7], table[8], 1/5)`, read from the entries 7 and 8, and
not `28/5 = crossfade(table[7], table[0], 1/5)`, the read wrapped to sample 0.
With the binary32 remainder an operator at phase `-2^-30` reads at
`p = 8 = L`, not below `L`, from the entries 8 and 9. -/
theorem Operator.table_read_wrap_fails :
    (0 < rampEnv.wavetable_opal_lengths 0
      ∧ Operator.wtPOS rampEnv { phase := -(1 / 10) } (1 / 48000) 0 0 0 = 36 / 5
      ∧ ⌊Operator.wtPOS rampEnv { phase := -(1 / 10) } (1 / 48000) 0 0 0⌋ = 7
      ∧ (Operator.process rampEnv { phase := -(1 / 10) } (1 / 48000) 1 0 0 0).wave = 36 / 5
      ∧ (Operator.process rampEnv { phase := -(1 / 10) } (1 / 48000) 1 0 0 0).wave
          = crossfade (rampEnv.wavetable_opal 0 7) (rampEnv.wavetable_opal 0 8) (1 / 5)
      ∧ (Operator.process rampEnv { phase := -(1 / 10) } (1 / 48000) 1 0 0 0).wave
          ≠ crossfade (rampEnv.wavetable_opal 0 7)
              (rampEnv.wavetable_opal 0 ((7 + 1) % rampEnv.wavetable_opal_lengths 0)) (1 / 5))
    ∧ (f32Env.wavetable_opal_lengths 0 = 8
      ∧ f32Env.eucMod (Operator.wrapPhase (-(1 / 1073741824)) 0 (1 / 48000) 0 + 0 * 0) = 1
      ∧ Operator.wtPOS f32Env { phase := -(1 / 1073741824) } (1 / 48000) 0 0 0 = 8
      ∧ ¬ (Operator.wtPOS f32Env { phase := -(1 / 1073741824) } (1 / 48000) 0 0 0
            < (f32Env.wavetable_opal_lengths 0 : ℚ))
      ∧ (Operator.process f32Env { phase := -(1 / 1073741824) } (1 / 48000) 1 0 0 0).wave
          = crossfade (f32Env.wavetable_opal 0 8) (f32Env.wavetable_opal 0 9) 0) := by
  decide!

/-- C16, amended: for every operator, feedback amount and table of length `L`
with `0 < L < 2^31`, and a remainder `eucMod(.., 1)` in `[0, 1]`, the scaled
read position `p = L * eucMod(phase + feedback * feedbackSample, 1)` of
`Operator::process` satisfies `0 ≤ p ≤ L`, and `p < L` when the remainder is
below `1`; the lower sample is the entry `⌊p⌋`, in `0..L`, and the upper sample
is the entry `⌊p⌋ + 1`, in `1..L+1`, taken without a modulo: the sample of the
call is `crossfade(table[⌊p⌋], table[⌊p⌋ + 1], p - ⌊p⌋)`. -/
theorem Operator.table_read_indices (env : Env) (heuc : env.EucModUnit) (o : Operator)
    (time amplitude fmMod feedback : ℚ) (table : Nat)
    (hL : 0 < env.wavetable_opal_lengths table)
    (hfit : env.wavetable_opal_lengths table < 2147483648) :
    (0 ≤ Operator.wtPOS env o time fmMod feedback table
      ∧ Operator.wtPOS env o time fmMod feedback table
          ≤ (env.wavetable_opal_lengths table : ℚ))
    ∧ (env.eucMod (Operator.wrapPhase o.phase o.freq time fmMod + feedback * o.feedbackSample)
          < 1 →
        Operator.wtPOS env o time fmMod feedback table
          < (env.wavetable_opal_lengths table : ℚ)
        ∧ ⌊Operator.wtPOS env o time fmMod feedback table⌋.toNat
          < env.wavetable_opal_lengths table)
    ∧ ⌊Operator.wtPOS env o time fmMod feedback table⌋.toNat
        ≤ env.wavetable_opal_lengths table
    ∧ (1 ≤ ⌊Operator.wtPOS env o time fmMod feedback table⌋.toNat + 1
      ∧ ⌊Operator.wtPOS env o time fmMod feedback table⌋.toNat + 1
          ≤ env.wavetable_opal_lengths table + 1)
    ∧ (o.process env time amplitude fmMod feedback table).wave
        = crossfade
            (env.wavetable_opal table ⌊Operator.wtPOS env o time fmMod feedback table⌋.toNat)
            (env.wavetable_opal table
              (⌊Operator.wtPOS env o time fmMod feedback table⌋.toNat + 1))
            (Operator.wtPOS env o time fmMod feedback table
              - (⌊Operator.wtPOS env o time fmMod feedback table⌋ : ℚ)) := by
  obtain ⟨h0, h1, h2⟩ := Operator.wtPOS_range env heuc o time fmMod feedback table
  obtain ⟨hidx, hwave⟩ := Operator.process_wave_eq env heuc o time amplitude fmMod feedback
    table hfit
  refine ⟨⟨h0, h1⟩, ?_, hidx, ⟨by omega, by omega⟩, hwave⟩
  intro hlt
  have hp := h2 hL hlt
  refine ⟨hp, ?_⟩
  have hfl : ⌊Operator.wtPOS env o time fmMod feedback table⌋
      < (env.wavetable_opal_lengths table : ℤ) := by
    rw [Int.floor_lt]
    exact_mod_cast hp
  have hnn : 0 ≤ ⌊Operator.wtPOS env o time fmMod feedback table⌋ := Int.floor_nonneg.mpr h0
  omega

/-- Instance: the ramp table of length 8 read at `p = 36/5`. -/
theorem Operator.table_read_indices_witness :
    rampEnv.EucModUnit
    ∧ 0 < rampEnv.wavetable_opal_lengths 0
    ∧ ⌊Operator.wtPOS rampEnv { phase := -(1 / 10) } (1 / 48000) 0 0 0⌋.toNat + 1
        ≤ rampEnv.wavetable_opal_lengths 0 + 1
    ∧ (Operator.process rampEnv { phase := -(1 / 10) } (1 / 48000) 1 0 0 0).wave
        = crossfade
            (rampEnv.wavetable_opal 0
              ⌊Operator.wtPOS rampEnv { phase := -(1 / 10) } (1 / 48000) 0 0 0⌋.toNat)
            (rampEnv.wavetable_opal 0
              (⌊Operator.wtPOS rampEnv { phase := -(1 / 10) } (1 / 48000) 0 0 0⌋.toNat + 1))
            (Operator.wtPOS rampEnv { phase := -(1 / 10) } (1 / 48000) 0 0 0
              - (⌊Operator.wtPOS rampEnv { phase := -(1 / 10) } (1 / 48000) 0 0 0⌋ : ℚ)) :=
  have h := Operator.table_read_indices rampEnv rampEnv_eucModUnit { phase := -(1 / 10) }
    (1 / 48000) 1 0 0 0 (by decide!) (by decide!)
  ⟨rampEnv_eucModUnit, by decide!, h.2.2.2.1.2, h.2.2.2.2⟩

/-! ## Order of rounding and clamping (C17) -/

/-- Truncation of a whole non-negative knob value is the value. -/
theorem truncInt_natCast (n : Nat) : truncInt (n : ℚ) = (n : Int) := by
  rw [truncInt_of_nonneg _ (Nat.cast_nonneg n)]
  exact Int.floor_natCast n

/-- Truncation of an integer value is the integer. -/
theorem truncInt_intCast (z : Int) : truncInt (z : ℚ) = z := by
  unfold truncInt
  split_ifs
  · exact Int.floor_intCast z
  · exact Int.ceil_intCast z

/-- A sum that fits is not changed by the reduction to 32 bits. -/
theorem wrap32_of_fits (z : Int) (h : FitsInt z) : wrap32 z = z := by
  unfold FitsInt at h
  unfold wrap32
  omega

/-- When the two conversions and their sum fit in `int`, the computed index is
the truncated knob plus the rounded offset. -/
theorem indexRaw_of_fits (env : Env) (p x : ℚ) (hp : FitsInt (truncInt p))
    (hx : FitsInt (roundInt x)) (hs : FitsInt (truncInt p + roundInt x)) :
    wrap32 (castInt env p + castInt env (roundInt x)) = truncInt p + roundInt x := by
  have e : castInt env ((roundInt x : Int) : ℚ) = roundInt x := by
    rw [castInt_of_fits env _ (by rw [truncInt_intCast]; exact hx), truncInt_intCast]
  rw [castInt_of_fits env p hp, e, wrap32_of_fits _ hs]

/-- For a whole non-negative base and a non-negative offset, rounding the sum is
adding the rounded offset to the base. -/
theorem roundInt_natCast_add (n : Nat) (x : ℚ) (hx : 0 ≤ x) :
    roundInt ((n : ℚ) + x) = truncInt (n : ℚ) + roundInt x := by
  have hn : (0 : ℚ) ≤ (n : ℚ) := Nat.cast_nonneg n
  rw [truncInt_natCast]
  unfold roundInt
  rw [if_pos (by linarith), if_pos hx]
  have e : (n : ℚ) + x + 1 / 2 = ((n : ℤ) : ℚ) + (x + 1 / 2) := by push_cast; ring
  rw [e, Int.floor_int_add]

/-- The rounded value of a non-negative offset is non-negative. -/
theorem roundInt_nonneg (x : ℚ) (hx : 0 ≤ x) : 0 ≤ roundInt x := by
  unfold roundInt
  rw [if_pos hx]
  exact Int.floor_nonneg.mpr (by linarith)

/-- C17, as stated, fails. With the ratio knob at 3 and `-1/2` V passed
unattenuated on the ratio jack, the trigger tick latches ratio index
`2 = 3 + round(-1/2)`, while `clamp(round(3 + -1/2), 0, 31)` is `3`. With
3000000000 V on the ratio jack the conversion to `int` does not fit and, with
`INT_MIN` for its value, `0` is latched, while the formula of the claim gives
`31`. -/
theorem PSIOP.round_of_sum_fails :
    ((sampleEnv.schmitt armed.trigger (halfTick.inputs TRIGGER_INPUT / 2)).1 = true
      ∧ (PSIOP.process sampleEnv armed halfTick).ratioIndex = 2
      ∧ clampInt (roundInt (halfTick.params RATIO_PARAM
          + f32 (halfTick.inputs RATIO_INPUT * halfTick.params RATIOATTEN_PARAM))) 0 31 = 3
      ∧ (PSIOP.process sampleEnv armed halfTick).ratioIndex
        ≠ clampInt (roundInt (halfTick.params RATIO_PARAM
            + f32 (halfTick.inputs RATIO_INPUT * halfTick.params RATIOATTEN_PARAM))) 0 31)
    ∧ ((sampleEnv.schmitt armed.trigger (hugeTick.inputs TRIGGER_INPUT / 2)).1 = true
      ∧ (PSIOP.process sampleEnv armed hugeTick).ratioIndex = 0
      ∧ clampInt (roundInt (hugeTick.params RATIO_PARAM
          + f32 (hugeTick.inputs RATIO_INPUT * hugeTick.params RATIOATTEN_PARAM))) 0 31 = 31) := by
  decide!

/-- C17, amended: on a trigger tick, for all knob and jack values whose
conversions and their sum fit in the 32-bit `int`, the latched ratio index is
`clamp(trunc(RATIO_PARAM) + round(RATIO_INPUT * RATIOATTEN_PARAM), 0, 31)`: the
base knob is truncated toward zero, the scaled offset is rounded on its own
(halves away from zero), the two integers are added and the sum is clamped;
likewise the wavetable index with `WAVE_PARAM`, `WAVE_INPUT * WAVEATTEN_PARAM`
and bound 63, and the algorithm with `ALGO_PARAM`, `ALGO_INPUT` and bound 5; the
products are `float` products (`f32`). When
the ratio knob is at a whole number `n ≥ 0`, the scaled offset is `≥ 0` and the
rounded sum fits in `int`, the latched ratio index is
`clamp(round(RATIO_PARAM + offset), 0, 31)`. -/
theorem PSIOP.latch_round_then_add (env : Env) (s : PSIOP) (t : Tick)
    (h : (env.schmitt s.trigger (t.inputs TRIGGER_INPUT / 2)).1 = true) :
    (FitsInt (truncInt (t.params RATIO_PARAM)) →
      FitsInt (roundInt (f32 (t.inputs RATIO_INPUT * t.params RATIOATTEN_PARAM))) →
      FitsInt (truncInt (t.params RATIO_PARAM)
        + roundInt (f32 (t.inputs RATIO_INPUT * t.params RATIOATTEN_PARAM))) →
      (PSIOP.process env s t).ratioIndex
        = clampInt (truncInt (t.params RATIO_PARAM)
            + roundInt (f32 (t.inputs RATIO_INPUT * t.params RATIOATTEN_PARAM))) 0 31)
    ∧ (FitsInt (truncInt (t.params WAVE_PARAM)) →
      FitsInt (roundInt (f32 (t.inputs WAVE_INPUT * t.params WAVEATTEN_PARAM))) →
      FitsInt (truncInt (t.params WAVE_PARAM)
        + roundInt (f32 (t.inputs WAVE_INPUT * t.params WAVEATTEN_PARAM))) →
      (PSIOP.process env s t).table
        = clampInt (truncInt (t.params WAVE_PARAM)
            + roundInt (f32 (t.inputs WAVE_INPUT * t.params WAVEATTEN_PARAM))) 0 63)
    ∧ (FitsInt (truncInt (t.params ALGO_PARAM)) →
      FitsInt (roundInt (t.inputs ALGO_INPUT)) →
      FitsInt (truncInt (t.params ALGO_PARAM) + roundInt (t.inputs ALGO_INPUT)) →
      (PSIOP.process env s t).algo
        = clampInt (truncInt (t.params ALGO_PARAM) + roundInt (t.inputs ALGO_INPUT)) 0 5)
    ∧ (∀ n : Nat, t.params RATIO_PARAM = (n : ℚ) →
        0 ≤ f32 (t.inputs RATIO_INPUT * t.params RATIOATTEN_PARAM) →
        FitsInt (roundInt (t.params RATIO_PARAM
          + f32 (t.inputs RATIO_INPUT * t.params RATIOATTEN_PARAM))) →
        (PSIOP.process env s t).ratioIndex
          = clampInt (roundInt (t.params RATIO_PARAM
              + f32 (t.inputs RATIO_INPUT * t.params RATIOATTEN_PARAM))) 0 31) := by
  obtain ⟨p1, p2, p3⟩ := PSIOP.process_indices env s t
  obtain ⟨q1, q2, q3⟩ := PSIOP.triggerStage_indices env s t
  rw [h] at q1 q2 q3
  simp only [if_true] at q1 q2 q3
  have r1 : FitsInt (truncInt (t.params RATIO_PARAM)) →
      FitsInt (roundInt (f32 (t.inputs RATIO_INPUT * t.params RATIOATTEN_PARAM))) →
      FitsInt (truncInt (t.params RATIO_PARAM)
        + roundInt (f32 (t.inputs RATIO_INPUT * t.params RATIOATTEN_PARAM))) →
      (PSIOP.process env s t).ratioIndex
        = clampInt (truncInt (t.params RATIO_PARAM)
            + roundInt (f32 (t.inputs RATIO_INPUT * t.params RATIOATTEN_PARAM))) 0 31 := by
    intro hp hx hs
    rw [p1, q1]
    unfold ratioRaw
    rw [indexRaw_of_fits env _ _ hp hx hs]
  refine ⟨r1, ?_, ?_, ?_⟩
  · intro hp hx hs
    rw [p2, q2]
    unfold tableRaw
    rw [indexRaw_of_fits env _ _ hp hx hs]
  · intro hp hx hs
    rw [p3, q3]
    unfold algoRaw
    rw [indexRaw_of_fits env _ _ hp hx hs]
  · intro n hn hx hfit
    rw [hn, roundInt_natCast_add n _ hx] at hfit ⊢
    rw [← hn] at hfit ⊢
    have hr := roundInt_nonneg _ hx
    have ht : truncInt (t.params RATIO_PARAM) = (n : Int) := by rw [hn, truncInt_natCast]
    have hfit' := hfit
    unfold FitsInt at hfit'
    apply r1
    · unfold FitsInt; omega
    · unfold FitsInt; omega
    · exact hfit

/-- Instance: the far tick latches `clamp(0 + round(999 * 1), 0, 31) = 31`. -/
theorem PSIOP.latch_round_then_add_witness :
    (sampleEnv.schmitt armed.trigger (farTick.inputs TRIGGER_INPUT / 2)).1 = true
    ∧ (PSIOP.process sampleEnv armed farTick).ratioIndex
        = clampInt (truncInt (farTick.params RATIO_PARAM)
            + roundInt (f32 (farTick.inputs RATIO_INPUT * farTick.params RATIOATTEN_PARAM))) 0 31
    ∧ (PSIOP.process sampleEnv armed farTick).ratioIndex
        = clampInt (roundInt (farTick.params RATIO_PARAM
            + f32 (farTick.inputs RATIO_INPUT * farTick.params RATIOATTEN_PARAM))) 0 31 :=
  have h := PSIOP.latch_round_then_add sampleEnv armed farTick (by decide!)
  ⟨by decide!, h.1 (by unfold FitsInt; decide!) (by unfold FitsInt; decide!)
      (by unfold FitsInt; decide!),
    h.2.2.2 0 (by decide!) (by decide!) (by unfold FitsInt; decide!)⟩

/-! ## Silence after a choke (C18) -/

/-- With both amplitude ramps at `0`, iteration `i` leaves `operators[i].out` at `0`. -/
theorem PSIOP.operatorStep_out_zero (env : Env) (s : PSIOP) (time pitch : ℚ) (l : OpLoop)
    (i : Nat) (h0 : (s.ramps 0).out = 0) (h1 : (s.ramps 1).out = 0) :
    ((PSIOP.operatorStep env s time pitch l i).operators i).out = 0 := by
  simp only [PSIOP.operatorStep, setAt, if_true, Operator.process, h0, h1]
  split_ifs <;> simp

/-- Iteration `i` writes the debug jack `DEBUG1_OUTPUT + i` only. -/
theorem PSIOP.operatorStep_outputs_ne (env : Env) (s : PSIOP) (time pitch : ℚ) (l : OpLoop)
    (i k : Nat) (h : k ≠ DEBUG1_OUTPUT + i) :
    (PSIOP.operatorStep env s time pitch l i).outputs k = l.outputs k := by
  simp [PSIOP.operatorStep, setAt, h]

/-- Iteration `i` sends `operators[i].out` to the debug jack `DEBUG1_OUTPUT + i`. -/
theorem PSIOP.operatorStep_outputs_self (env : Env) (s : PSIOP) (time pitch : ℚ) (l : OpLoop)
    (i : Nat) :
    (PSIOP.operatorStep env s time pitch l i).outputs (DEBUG1_OUTPUT + i)
      = ((PSIOP.operatorStep env s time pitch l i).operators i).out := by
  simp [PSIOP.operatorStep, setAt]

/-- With both amplitude ramps at `0` the operator loop leaves every operator
output and every debug jack at `0`. -/
theorem PSIOP.operatorLoop_zero (env : Env) (s : PSIOP) (time pitch : ℚ)
    (h0 : (s.ramps 0).out = 0) (h1 : (s.ramps 1).out = 0) (i : Nat) (hi : i < 4) :
    ((PSIOP.operatorLoop env s time pitch).operators i).out = 0
    ∧ (PSIOP.operatorLoop env s time pitch).outputs (DEBUG1_OUTPUT + i) = 0 := by
  unfold PSIOP.operatorLoop
  simp only [List.foldl]
  have hi' : i = 0 ∨ i = 1 ∨ i = 2 ∨ i = 3 := by omega
  rcases hi' with rfl | rfl | rfl | rfl
  · rw [PSIOP.operatorStep_operators_ne env s time pitch _ 3 0 (by decide),
      PSIOP.operatorStep_operators_ne env s time pitch _ 2 0 (by decide),
      PSIOP.operatorStep_operators_ne env s time pitch _ 1 0 (by decide),
      PSIOP.operatorStep_outputs_ne env s time pitch _ 3 _ (by decide),
      PSIOP.operatorStep_outputs_ne env s time pitch _ 2 _ (by decide),
      PSIOP.operatorStep_outputs_ne env s time pitch _ 1 _ (by decide),
      PSIOP.operatorStep_outputs_self]
    exact ⟨PSIOP.operatorStep_out_zero env s time pitch _ 0 h0 h1,
      PSIOP.operatorStep_out_zero env s time pitch _ 0 h0 h1⟩
  · rw [PSIOP.operatorStep_operators_ne env s time pitch _ 3 1 (by decide),
      PSIOP.operatorStep_operators_ne env s time pitch _ 2 1 (by decide),
      PSIOP.operatorStep_outputs_ne env s time pitch _ 3 _ (by decide),
      PSIOP.operatorStep_outputs_ne env s time pitch _ 2 _ (by decide),
      PSIOP.operatorStep_outputs_self]
    exact ⟨PSIOP.operatorStep_out_zero env s time pitch _ 1 h0 h1,
      PSIOP.operatorStep_out_zero env s time pitch _ 1 h0 h1⟩
  · rw [PSIOP.operatorStep_operators_ne env s time pitch _ 3 2 (by decide),
      PSIOP.operatorStep_outputs_ne env s time pitch _ 3 _ (by decide),
      PSIOP.operatorStep_outputs_self]
    exact ⟨PSIOP.operatorStep_out_zero env s time pitch _ 2 h0 h1,
      PSIOP.operatorStep_out_zero env s time pitch _ 2 h0 h1⟩
  · rw [PSIOP.operatorStep_outputs_self]
    exact ⟨PSIOP.operatorStep_out_zero env s time pitch _ 3 h0 h1,
      PSIOP.operatorStep_out_zero env s time pitch _ 3 h0 h1⟩

/-- The debug jacks after a tick are those left by the operator loop. -/
theorem PSIOP.process_debug_jack (env : Env) (s : PSIOP) (t : Tick) (i : Nat) :
    (PSIOP.process env s t).outputs (DEBUG1_OUTPUT + i)
      = (PSIOP.tickLoop env s t).outputs (DEBUG1_OUTPUT + i) := by
  have h : DEBUG1_OUTPUT + i ≠ OUT_OUTPUT := by
    unfold DEBUG1_OUTPUT OUT_OUTPUT; omega
  simp only [PSIOP.process, PSIOP.tickLoop, setAt, if_neg h]

/-- A tick that ends with both amplitude ramps at rest ends silent. -/
theorem PSIOP.process_silent (env : Env) (s : PSIOP) (t : Tick)
    (h : (PSIOP.process env s t).AmpsAtRest) : (PSIOP.process env s t).Silent := by
  have h0 : ((PSIOP.beforeOperators env s t).1.ramps 0).out = 0 := (h 0 (by decide)).1
  have h1 : ((PSIOP.beforeOperators env s t).1.ramps 1).out = 0 := (h 1 (by decide)).1
  have hz := PSIOP.operatorLoop_zero env (PSIOP.beforeOperators env s t).1 t.args.sampleTime
    (PSIOP.beforeOperators env s t).2 h0 h1
  have hop : ∀ i, i < 4 → ((PSIOP.process env s t).operators i).out = 0 :=
    fun i hi => (hz i hi).1
  refine ⟨h, fun i hi => ⟨hop i hi, ?_⟩, ?_⟩
  · rw [PSIOP.process_debug_jack]
    exact (hz i hi).2
  · rw [PSIOP.process_out_jack, PSIOP.tickLoop_output]
    have e : ∑ i in Finset.range 4, ((PSIOP.process env s t).operators i).out
        * modMatrixGet (PSIOP.process env s t).algo i 4 = 0 := by
      apply Finset.sum_eq_zero
      intro i hi
      rw [hop i (Finset.mem_range.mp hi), zero_mul]
    rw [e]
    ring

/-- Amplitude ramps at rest after the choke stage are at rest after the tick. -/
theorem PSIOP.process_ampsAtRest (env : Env) (s : PSIOP) (t : Tick)
    (h : (PSIOP.chokeStage env (PSIOP.triggerStage env s t) t).AmpsAtRest) :
    (PSIOP.process env s t).AmpsAtRest := by
  intro i hi
  rw [PSIOP.process_ramps, PSIOP.beforeOperators_eq, PSIOP.pitchStage_ramps]
  have hne : ¬ (i = 2 ∧ (PSIOP.ampRampStage env
      (PSIOP.chokeStage env (PSIOP.triggerStage env s t) t) t).rates 2 > 1 / 5) :=
    fun c => by omega
  rw [if_neg hne, PSIOP.ampRampStage_ramps, if_pos hi]
  exact Ramp.process_at_rest env _ _ _ _ _ _ (h i hi).2 (h i hi).1

/-- A tick with a choke edge ends silent. -/
theorem PSIOP.process_silent_of_choke (env : Env) (s : PSIOP) (t : Tick)
    (h : (env.schmitt s.choke (t.inputs CHOKE_INPUT / 2)).1 = true) :
    (PSIOP.process env s t).Silent := by
  apply PSIOP.process_silent
  apply PSIOP.process_ampsAtRest
  have h' : (env.schmitt (PSIOP.triggerStage env s t).choke (t.inputs CHOKE_INPUT / 2)).1
      = true := by rw [PSIOP.triggerStage_choke]; exact h
  intro i hi
  exact PSIOP.chokeStage_ramps env _ t h' i (by omega)

/-- A tick without a trigger edge from a state with the amplitude ramps at rest
ends silent. -/
theorem PSIOP.process_silent_of_rest (env : Env) (s : PSIOP) (t : Tick)
    (hs : s.AmpsAtRest)
    (h : (env.schmitt s.trigger (t.inputs TRIGGER_INPUT / 2)).1 = false) :
    (PSIOP.process env s t).Silent := by
  apply PSIOP.process_silent
  apply PSIOP.process_ampsAtRest
  intro i hi
  by_cases hc : (env.schmitt (PSIOP.triggerStage env s t).choke
      (t.inputs CHOKE_INPUT / 2)).1 = true
  · exact PSIOP.chokeStage_ramps env _ t hc i (by omega)
  · have hc' : (env.schmitt (PSIOP.triggerStage env s t).choke
        (t.inputs CHOKE_INPUT / 2)).1 = false := by
      simpa using hc
    rw [PSIOP.chokeStage_idle_ramps env _ t hc', PSIOP.triggerStage_idle env s t h]
    exact hs i hi

/-- Silence lasts through every run of ticks without a trigger edge. -/
theorem PSIOP.run_silent (env : Env) (ts : List Tick) :
    ∀ s : PSIOP, s.Silent → PSIOP.NoTrigger env s ts → (PSIOP.run env s ts).Silent := by
  induction ts with
  | nil => intro s h _; exact h
  | cons t ts ih =>
    intro s h hn
    exact ih _ (PSIOP.process_silent_of_rest env s t h.1 hn.1) hn.2

/-- C18: on a tick in which the choke detector reports a rising edge, the four
operator outputs, the four debug jacks and the audio jack are exactly `0` at
the end of that tick, whatever the wavetables and the prior state, and they are
exactly `0` after every following tick as long as no tick has a trigger edge. -/
theorem PSIOP.choke_silences_until_trigger (env : Env) (s : PSIOP) (t : Tick)
    (h : (env.schmitt s.choke (t.inputs CHOKE_INPUT / 2)).1 = true)
    (ts : List Tick) (hts : PSIOP.NoTrigger env (PSIOP.process env s t) ts) :
    (∀ i, i < 4 →
      ((PSIOP.run env (PSIOP.process env s t) ts).operators i).out = 0
      ∧ (PSIOP.run env (PSIOP.process env s t) ts).outputs (DEBUG1_OUTPUT + i) = 0)
    ∧ (PSIOP.run env (PSIOP.process env s t) ts).outputs OUT_OUTPUT = 0 :=
  (PSIOP.run_silent env ts _ (PSIOP.process_silent_of_choke env s t h) hts).2

/-- Instance: the module sounding after a trigger is choked and stays silent
through two quiet ticks. -/
theorem PSIOP.choke_silences_until_trigger_witness :
    (PSIOP.process sampleEnv armed triggerTick).outputs OUT_OUTPUT ≠ 0
    ∧ (sampleEnv.schmitt (PSIOP.process sampleEnv armed triggerTick).choke
        (chokeTick.inputs CHOKE_INPUT / 2)).1 = true
    ∧ PSIOP.NoTrigger sampleEnv
        (PSIOP.process sampleEnv (PSIOP.process sampleEnv armed triggerTick) chokeTick)
        [quietTick, quietTick]
    ∧ (∀ i, i < 4 →
      ((PSIOP.run sampleEnv
          (PSIOP.process sampleEnv (PSIOP.process sampleEnv armed triggerTick) chokeTick)
          [quietTick, quietTick]).operators i).out = 0
      ∧ (PSIOP.run sampleEnv
          (PSIOP.process sampleEnv (PSIOP.process sampleEnv armed triggerTick) chokeTick)
          [quietTick, quietTick]).outputs (DEBUG1_OUTPUT + i) = 0)
    ∧ (PSIOP.run sampleEnv
        (PSIOP.process sampleEnv (PSIOP.process sampleEnv armed triggerTick) chokeTick)
        [quietTick, quietTick]).outputs OUT_OUTPUT = 0 :=
  have hn : PSIOP.NoTrigger sampleEnv
      (PSIOP.process sampleEnv (PSIOP.process sampleEnv armed triggerTick) chokeTick)
      [quietTick, quietTick] := ⟨by decide!, by decide!, trivial⟩
  have h := PSIOP.choke_silences_until_trigger sampleEnv
    (PSIOP.process sampleEnv armed triggerTick) chokeTick (by decide!)
    [quietTick, quietTick] hn
  ⟨by decide!, by decide!, hn, h.1, h.2⟩

/-! ## Shape of the modulation graph (C19) -/

/-- In every algorithm a nonzero FM weight goes from a source to the next operator. -/
theorem modMatrix_next_only :
    ∀ a, a < 6 → ∀ j, j < 4 → ∀ i, i < 4 →
      modMatrixGet (a : Nat) j i ≠ 0 → i = j + 1 := by
  decide!

/-- An FM edge of an algorithm `0..5` goes to the next operator. -/
theorem fmEdge_next (a : Int) (h0 : 0 ≤ a) (h5 : a ≤ 5) (j i : Nat) (h : fmEdge a j i) :
    i = j + 1 := by
  obtain ⟨hj, hi, hne⟩ := h
  lift a to ℕ using h0
  exact modMatrix_next_only a (by omega) j hj i hi hne

/-- Along a path of FM edges of an algorithm `0..5` the operator number grows. -/
theorem fmEdge_path_increasing (a : Int) (h0 : 0 ≤ a) (h5 : a ≤ 5) (j i : Nat)
    (h : Relation.TransGen (fmEdge a) j i) : j < i := by
  induction h with
  | single e =>
    have := fmEdge_next a h0 h5 _ _ e
    omega
  | tail _ e ih =>
    have := fmEdge_next a h0 h5 _ _ e
    omega

/-- The FM input handed to operator 0 is summed from the outputs at the start of
the loop. -/
theorem PSIOP.fmInput_zero_eq (env : Env) (s : PSIOP) (t : Tick) :
    PSIOP.fmInput env s t 0
      = ∑ j in Finset.range 4,
          (s.operators j).out * (PSIOP.process env s t).index
            * modMatrixGet (PSIOP.process env s t).algo j 0 := by
  unfold PSIOP.fmInput PSIOP.tickLoop PSIOP.operatorLoop
  simp only [List.foldl]
  rw [PSIOP.operatorStep_fmMod_ne env _ _ _ _ 3 0 (by decide),
    PSIOP.operatorStep_fmMod_ne env _ _ _ _ 2 0 (by decide),
    PSIOP.operatorStep_fmMod_ne env _ _ _ _ 1 0 (by decide),
    PSIOP.operatorStep_fmMod_self]
  simp only [PSIOP.beforeOperators_operators]
  rfl

/-- C19: for every algorithm `a` in `0..5`, source `j < 4` and FM destination
`i < 4`, `modMatrix[a][j][i]` is nonzero only if `i = j + 1`; hence in every
tick from a state reached from construction the FM input of operator 0 is
exactly `0`, no operator modulates itself or a lower-numbered operator, and no
path of FM edges of an algorithm returns to its start. -/
theorem modMatrix_graph_acyclic :
    (∀ a : Int, 0 ≤ a → a ≤ 5 → ∀ j i, j < 4 → i < 4 →
      modMatrixGet a j i ≠ 0 → i = j + 1)
    ∧ (∀ (env : Env) (s : PSIOP) (t : Tick),
        0 ≤ (PSIOP.process env s t).algo → (PSIOP.process env s t).algo ≤ 5 →
        PSIOP.fmInput env s t 0 = 0)
    ∧ (∀ (env : Env) (ts : List Tick) (t : Tick),
        PSIOP.fmInput env (PSIOP.run env PSIOP.init ts) t 0 = 0)
    ∧ (∀ a : Int, 0 ≤ a → a ≤ 5 → ∀ j i, j < 4 → i < 4 → i ≤ j → modMatrixGet a j i = 0)
    ∧ (∀ a : Int, 0 ≤ a → a ≤ 5 → ∀ i, ¬ Relation.TransGen (fmEdge a) i i) := by
  have hgen : ∀ (env : Env) (s : PSIOP) (t : Tick),
      0 ≤ (PSIOP.process env s t).algo → (PSIOP.process env s t).algo ≤ 5 →
      PSIOP.fmInput env s t 0 = 0 := by
    intro env s t a0 a5
    rw [PSIOP.fmInput_zero_eq]
    apply Finset.sum_eq_zero
    intro j hj
    have hz : modMatrixGet (PSIOP.process env s t).algo j 0 = 0 := by
      by_contra hne
      have := fmEdge_next _ a0 a5 j 0 ⟨Finset.mem_range.mp hj, by decide, hne⟩
      omega
    rw [hz, mul_zero]
  refine ⟨?_, hgen, ?_, ?_, ?_⟩
  · intro a h0 h5 j i hj hi hne
    exact fmEdge_next a h0 h5 j i ⟨hj, hi, hne⟩
  · intro env ts t
    have hinit : PSIOP.init.IndicesInRange := by
      unfold PSIOP.IndicesInRange PSIOP.init
      decide
    have hr := PSIOP.process_indicesInRange env _ t
      (PSIOP.run_indicesInRange env ts PSIOP.init hinit)
    obtain ⟨_, _, a0, a5⟩ := hr
    exact hgen env _ t a0 a5
  · intro a h0 h5 j i hj hi hle
    by_contra hne
    have := fmEdge_next a h0 h5 j i ⟨hj, hi, hne⟩
    omega
  · intro a h0 h5 i hc
    exact lt_irrefl i (fmEdge_path_increasing a h0 h5 i i hc)

/-! ## Output bounds (C20) -/

/-- A blend of two values of size at most `1` with a weight in `[0, 1]` has size
at most `1`. -/
theorem crossfade_abs_le (a b f : ℚ) (ha : |a| ≤ 1) (hb : |b| ≤ 1) (h0 : 0 ≤ f) (h1 : f ≤ 1) :
    |crossfade a b f| ≤ 1 := by
  obtain ⟨a1, a2⟩ := abs_le.mp ha
  obtain ⟨b1, b2⟩ := abs_le.mp hb
  rw [crossfade_eq, abs_le]
  have hf : 0 ≤ 1 - f := by linarith
  constructor
  · nlinarith [mul_nonneg hf (by linarith : 0 ≤ a + 1), mul_nonneg h0 (by linarith : 0 ≤ b + 1)]
  · nlinarith [mul_nonneg hf (by linarith : 0 ≤ 1 - a), mul_nonneg h0 (by linarith : 0 ≤ 1 - b)]

/-- With the readable table entries of size at most `1` the raw sample has size
at most `1`. -/
theorem Operator.process_wave_abs (env : Env) (heuc : env.EucModUnit) (hfit : env.LengthsFit)
    (hw : env.TablesBounded) (o : Operator)
    (time amplitude fmMod feedback : ℚ) (table : Nat) :
    |(o.process env time amplitude fmMod feedback table).wave| ≤ 1 := by
  obtain ⟨hidx, hwave⟩ := Operator.process_wave_eq env heuc o time amplitude fmMod feedback
    table (hfit table)
  rw [hwave]
  apply crossfade_abs_le _ _ _ (hw _ _ (by omega)) (hw _ _ (by omega))
  · have := Int.floor_le (Operator.wtPOS env o time fmMod feedback table)
    linarith
  · have := Int.lt_floor_add_one (Operator.wtPOS env o time fmMod feedback table)
    linarith

/-- With table samples of size at most `1` and an amplitude in `[0, 1]` the
operator output has size at most `1`. -/
theorem Operator.process_out_abs (env : Env) (heuc : env.EucModUnit) (hfit : env.LengthsFit)
    (hw : env.TablesBounded) (o : Operator)
    (time amplitude fmMod feedback : ℚ) (table : Nat)
    (h0 : 0 ≤ amplitude) (h1 : amplitude ≤ 1) :
    |(o.process env time amplitude fmMod feedback table).out| ≤ 1 := by
  have hwave := Operator.process_wave_abs env heuc hfit hw o time amplitude fmMod feedback table
  have e : (o.process env time amplitude fmMod feedback table).out
      = (o.process env time amplitude fmMod feedback table).wave * amplitude := rfl
  rw [e, abs_mul, abs_of_nonneg h0]
  calc |(o.process env time amplitude fmMod feedback table).wave| * amplitude
      ≤ 1 * 1 := mul_le_mul hwave h1 h0 (by norm_num)
    _ = 1 := one_mul 1

/-- With the ramps in `[0, 1]`, iteration `i` leaves `operators[i].out` of size
at most `1`. -/
theorem PSIOP.operatorStep_out_abs (env : Env) (heuc : env.EucModUnit) (hfit : env.LengthsFit)
    (hw : env.TablesBounded) (s : PSIOP) (hr : s.RampsUnit)
    (time pitch : ℚ) (l : OpLoop) (i : Nat) :
    |((PSIOP.operatorStep env s time pitch l i).operators i).out| ≤ 1 := by
  simp only [PSIOP.operatorStep, setAt, if_true]
  apply Operator.process_out_abs env heuc hfit hw
  · split_ifs
    · exact (hr 0).1
    · exact (hr 0).1
    · exact (hr 1).1
  · split_ifs
    · exact (hr 0).2
    · exact (hr 0).2
    · exact (hr 1).2

/-- With the ramps in `[0, 1]` every operator output after the loop has size at
most `1`. -/
theorem PSIOP.operatorLoop_out_abs (env : Env) (heuc : env.EucModUnit) (hfit : env.LengthsFit)
    (hw : env.TablesBounded) (s : PSIOP) (hr : s.RampsUnit)
    (time pitch : ℚ) (i : Nat) (hi : i < 4) :
    |((PSIOP.operatorLoop env s time pitch).operators i).out| ≤ 1 := by
  unfold PSIOP.operatorLoop
  simp only [List.foldl]
  have hi' : i = 0 ∨ i = 1 ∨ i = 2 ∨ i = 3 := by omega
  rcases hi' with rfl | rfl | rfl | rfl
  · rw [PSIOP.operatorStep_operators_ne env s time pitch _ 3 0 (by decide),
      PSIOP.operatorStep_operators_ne env s time pitch _ 2 0 (by decide),
      PSIOP.operatorStep_operators_ne env s time pitch _ 1 0 (by decide)]
    exact PSIOP.operatorStep_out_abs env heuc hfit hw s hr time pitch _ 0
  · rw [PSIOP.operatorStep_operators_ne env s time pitch _ 3 1 (by decide),
      PSIOP.operatorStep_operators_ne env s time pitch _ 2 1 (by decide)]
    exact PSIOP.operatorStep_out_abs env heuc hfit hw s hr time pitch _ 1
  · rw [PSIOP.operatorStep_operators_ne env s time pitch _ 3 2 (by decide)]
    exact PSIOP.operatorStep_out_abs env heuc hfit hw s hr time pitch _ 2
  · exact PSIOP.operatorStep_out_abs env heuc hfit hw s hr time pitch _ 3

/-- In every algorithm the mix weights are non-negative and sum to at most `1`. -/
theorem modMatrix_mix_weights :
    ∀ a, a < 6 →
      (∀ i, i < 4 → 0 ≤ modMatrixGet (a : Nat) i 4)
      ∧ modMatrixGet (a : Nat) 0 4 + modMatrixGet (a : Nat) 1 4
          + modMatrixGet (a : Nat) 2 4 + modMatrixGet (a : Nat) 3 4 ≤ 1 := by
  decide!

/-- In an algorithm `0..5` the mix of four outputs of size at most `1` has size
at most `1`. -/
theorem mix_abs_le (a : Int) (h0 : 0 ≤ a) (h5 : a ≤ 5) (o : Nat → ℚ)
    (ho : ∀ i, i < 4 → |o i| ≤ 1) :
    |∑ i in Finset.range 4, o i * modMatrixGet a i 4| ≤ 1 := by
  lift a to ℕ using h0
  obtain ⟨hn, hsum⟩ := modMatrix_mix_weights a (by omega)
  simp only [Finset.sum_range_succ, Finset.sum_range_zero, zero_add]
  have b : ∀ i, i < 4 → -modMatrixGet (a : Nat) i 4 ≤ o i * modMatrixGet (a : Nat) i 4
      ∧ o i * modMatrixGet (a : Nat) i 4 ≤ modMatrixGet (a : Nat) i 4 := by
    intro i hi
    obtain ⟨l, u⟩ := abs_le.mp (ho i hi)
    have w := hn i hi
    constructor <;> nlinarith
  have b0 := b 0 (by decide)
  have b1 := b 1 (by decide)
  have b2 := b 2 (by decide)
  have b3 := b 3 (by decide)
  rw [abs_le]
  constructor <;> linarith [b0.1, b0.2, b1.1, b1.2, b2.1, b2.2, b3.1, b3.2]

/-- The level after a tick: a preset on a trigger edge, the old level otherwise. -/
theorem PSIOP.process_level (env : Env) (s : PSIOP) (t : Tick) :
    (PSIOP.process env s t).level
      = (if (env.schmitt s.trigger (t.inputs TRIGGER_INPUT / 2)).1
          then (if (env.schmitt s.accent (t.inputs ACCENT_INPUT / 2)).1 then 9 / 5 else 1)
          else s.level) := by
  obtain ⟨_, _, _, _, _, _, pl⟩ := PSIOP.process_controls env s t
  rw [pl]
  by_cases h : (env.schmitt s.trigger (t.inputs TRIGGER_INPUT / 2)).1 = true
  · rw [if_pos h, (PSIOP.triggerStage_presets env s t h).2]
  · have h' : (env.schmitt s.trigger (t.inputs TRIGGER_INPUT / 2)).1 = false := by
      simpa using h
    rw [if_neg h, PSIOP.triggerStage_idle env s t h']

/-- Every tick of non-negative sample time keeps the bounds. -/
theorem PSIOP.process_bounded (env : Env) (hpos : env.Positive)
    (heuc : env.EucModUnit) (hfit : env.LengthsFit) (hw : env.TablesBounded) (s : PSIOP) (t : Tick)
    (ht : 0 ≤ t.args.sampleTime) (h : s.Bounded) : (PSIOP.process env s t).Bounded := by
  obtain ⟨hr, hi, hl, _, _⟩ := h
  have hr' := PSIOP.process_rampsUnit env hpos s t ht hr
  have hi' := PSIOP.process_indicesInRange env s t hi
  have hl' : (PSIOP.process env s t).level = 1 ∨ (PSIOP.process env s t).level = 9 / 5 := by
    rw [PSIOP.process_level]
    split_ifs
    · exact Or.inr rfl
    · exact Or.inl rfl
    · exact hl
  have hb : (PSIOP.beforeOperators env s t).1.RampsUnit := fun i => hr' i
  have ho : ∀ i, i < 4 → |((PSIOP.process env s t).operators i).out| ≤ 1 := fun i hi4 =>
    PSIOP.operatorLoop_out_abs env heuc hfit hw (PSIOP.beforeOperators env s t).1 hb
      t.args.sampleTime (PSIOP.beforeOperators env s t).2 i hi4
  refine ⟨hr', hi', hl', ho, ?_⟩
  rw [PSIOP.process_out_jack, PSIOP.tickLoop_output]
  have hm := mix_abs_le (PSIOP.process env s t).algo hi'.2.2.1 hi'.2.2.2
    (fun i => ((PSIOP.process env s t).operators i).out) ho
  have hlev : 0 ≤ (PSIOP.process env s t).level := by
    rcases hl' with e | e <;> rw [e] <;> norm_num
  rw [abs_mul, abs_mul, abs_of_nonneg hlev, abs_of_nonneg (by norm_num : (0 : ℚ) ≤ 4)]
  nlinarith [mul_le_mul_of_nonneg_right hm hlev]

theorem PSIOP.run_bounded (env : Env) (hpos : env.Positive)
    (heuc : env.EucModUnit) (hfit : env.LengthsFit) (hw : env.TablesBounded) (ts : List Tick) :
    ∀ s : PSIOP, (∀ t ∈ ts, 0 ≤ t.args.sampleTime) → s.Bounded →
      (PSIOP.run env s ts).Bounded := by
  induction ts with
  | nil => intro s _ h; exact h
  | cons t ts ih =>
    intro s hts h
    exact ih _ (fun u hu => hts u (List.mem_cons_of_mem _ hu))
      (PSIOP.process_bounded env hpos heuc hfit hw s t (hts t (List.mem_cons_self _ _)) h)

theorem PSIOP.init_bounded : PSIOP.init.Bounded := by
  refine ⟨?_, ?_, Or.inl rfl, ?_, ?_⟩
  · intro k
    show (0 : ℚ) ≤ 0 ∧ (0 : ℚ) ≤ 1
    constructor <;> norm_num
  · unfold PSIOP.IndicesInRange PSIOP.init
    decide
  · intro i _
    show |(0 : ℚ)| ≤ 1
    norm_num
  · show |(0 : ℚ)| ≤ 4 * 1
    norm_num

/-- The level after a run is the accented preset exactly when the most recent
trigger edge came with an accent edge. -/
theorem PSIOP.run_level (env : Env) (ts : List Tick) :
    ∀ (s : PSIOP) (b : Bool), s.level = (if b then 9 / 5 else 1) →
      (PSIOP.run env s ts).level = (if PSIOP.accentedLast env s b ts then 9 / 5 else 1) := by
  induction ts with
  | nil => intro s b h; exact h
  | cons t ts ih =>
    intro s b h
    apply ih
    rw [PSIOP.process_level, h]
    split_ifs <;> rfl

/-- C20, as stated, fails: with every sample `0..7` of every table in `[-1, 1]`
and `100` in the entry 8 behind the samples, the module reached by a quiet
tick, a trigger tick with the start knob at 4 and six quiet ticks has operator
0 at `295431047641/7680000000`, of size above `1`, and an audio output of size
above `4 * level`: operator 0 reads at the table boundary, between the entries
7 and 8. -/
theorem PSIOP.outputs_unbounded_behind_table :
    (∀ table k, k < spikeEnv.wavetable_opal_lengths table →
        |spikeEnv.wavetable_opal table k| ≤ 1)
    ∧ spikeEnv.Positive
    ∧ (∀ t ∈ [quietTick, highTick, quietTick, quietTick, quietTick, quietTick, quietTick,
          quietTick], 0 ≤ t.args.sampleTime)
    ∧ ((PSIOP.run spikeEnv PSIOP.init [quietTick, highTick, quietTick, quietTick, quietTick,
          quietTick, quietTick, quietTick]).operators 0).out = 295431047641 / 7680000000
    ∧ ¬ |((PSIOP.run spikeEnv PSIOP.init [quietTick, highTick, quietTick, quietTick,
          quietTick, quietTick, quietTick, quietTick]).operators 0).out| ≤ 1
    ∧ ¬ |(PSIOP.run spikeEnv PSIOP.init [quietTick, highTick, quietTick, quietTick,
          quietTick, quietTick, quietTick, quietTick]).outputs OUT_OUTPUT|
        ≤ 4 * (PSIOP.run spikeEnv PSIOP.init [quietTick, highTick, quietTick, quietTick,
          quietTick, quietTick, quietTick, quietTick]).level := by
  refine ⟨?_, sampleEnv_positive, ?_, by decide!, by decide!, by decide!⟩
  · intro table k hk
    have hk8 : k < 8 := hk
    show |(if k = 8 then (100 : ℚ) else if k % 8 < 4 then 1 else -1)| ≤ 1
    rw [if_neg (by omega)]
    split_ifs <;> norm_num
  · intro t ht
    simp only [List.mem_cons, List.mem_singleton, List.not_mem_nil, or_false] at ht
    rcases ht with rfl | rfl | rfl | rfl | rfl | rfl | rfl | rfl <;> decide!

/-- C20, amended: if `pow` and `M_E` are positive, the remainder `eucMod(.., 1)`
is in `[0, 1]`, the table lengths fit in `int`, and every entry of every
wavetable array at the indices `0..L+1` has size at most `1` (the `L` samples
of the table and the two entries behind them, which the interpolation can
read), then in every state reached from construction by ticks of non-negative
sample time each operator output has size at most `1`, the audio output has
size at most `4 * level ≤ 7.2`, and at most `4` when the most recent trigger
edge came without an accent edge (then `level = 1`); the three ramps are in
`[0, 1]` and in every algorithm `0..5` the mix weights `modMatrix[a][i][4]` are
non-negative and sum to at most `1`. -/
theorem PSIOP.outputs_bounded (env : Env) (hpos : env.Positive)
    (heuc : env.EucModUnit) (hfit : env.LengthsFit) (hw : env.TablesBounded) (ts : List Tick)
    (hts : ∀ t ∈ ts, 0 ≤ t.args.sampleTime) :
    (∀ i, i < 4 → |((PSIOP.run env PSIOP.init ts).operators i).out| ≤ 1)
    ∧ |(PSIOP.run env PSIOP.init ts).outputs OUT_OUTPUT|
        ≤ 4 * (PSIOP.run env PSIOP.init ts).level
    ∧ 4 * (PSIOP.run env PSIOP.init ts).level ≤ 36 / 5
    ∧ (PSIOP.accentedLast env PSIOP.init false ts = false →
        (PSIOP.run env PSIOP.init ts).level = 1
        ∧ |(PSIOP.run env PSIOP.init ts).outputs OUT_OUTPUT| ≤ 4)
    ∧ (∀ i, i < 3 → 0 ≤ ((PSIOP.run env PSIOP.init ts).ramps i).out
        ∧ ((PSIOP.run env PSIOP.init ts).ramps i).out ≤ 1)
    ∧ (∀ a : Int, 0 ≤ a → a ≤ 5 →
        (∀ i, i < 4 → 0 ≤ modMatrixGet a i 4)
        ∧ ∑ i in Finset.range 4, modMatrixGet a i 4 ≤ 1) := by
  obtain ⟨hr, _, hl, ho, hout⟩ := PSIOP.run_bounded env hpos heuc hfit hw ts PSIOP.init hts
    PSIOP.init_bounded
  have hlev := PSIOP.run_level env ts PSIOP.init false rfl
  refine ⟨ho, hout, ?_, ?_, fun i _ => hr i, ?_⟩
  · rcases hl with e | e <;> rw [e] <;> norm_num
  · intro hb
    rw [hb] at hlev
    have e : (PSIOP.run env PSIOP.init ts).level = 1 := hlev
    refine ⟨e, ?_⟩
    rw [e] at hout
    linarith
  · intro a h0 h5
    lift a to ℕ using h0
    obtain ⟨hn, hsum⟩ := modMatrix_mix_weights a (by omega)
    refine ⟨hn, ?_⟩
    simp only [Finset.sum_range_succ, Finset.sum_range_zero, zero_add]
    exact hsum

theorem sampleEnv_tables_bounded : sampleEnv.TablesBounded := by
  intro table k _
  show |(if k % 8 < 4 then (1 : ℚ) else -1)| ≤ 1
  split_ifs <;> norm_num

theorem sampleEnv_lengthsFit : sampleEnv.LengthsFit := by
  intro table
  show (8 : Nat) < 2147483648
  decide

/-- Instance: the module after a quiet tick, a trigger tick and a quiet tick. -/
theorem PSIOP.outputs_bounded_witness :
    sampleEnv.Positive
    ∧ sampleEnv.TablesBounded
    ∧ PSIOP.accentedLast sampleEnv PSIOP.init false [quietTick, triggerTick, quietTick] = false
    ∧ (PSIOP.run sampleEnv PSIOP.init [quietTick, triggerTick, quietTick]).outputs OUT_OUTPUT
        ≠ 0
    ∧ (∀ i, i < 4 →
        |((PSIOP.run sampleEnv PSIOP.init [quietTick, triggerTick, quietTick]).operators
            i).out| ≤ 1)
    ∧ |(PSIOP.run sampleEnv PSIOP.init [quietTick, triggerTick, quietTick]).outputs OUT_OUTPUT|
        ≤ 4 :=
  have h := PSIOP.outputs_bounded sampleEnv sampleEnv_positive sampleEnv_eucModUnit
    sampleEnv_lengthsFit sampleEnv_tables_bounded
    [quietTick, triggerTick, quietTick]
    (by
      intro t ht
      simp only [List.mem_cons, List.mem_singleton, List.not_mem_nil, or_false] at ht
      rcases ht with rfl | rfl | rfl <;> decide!)
  ⟨sampleEnv_positive, sampleEnv_tables_bounded, by decide!, by decide!, h.1,
    (h.2.2.2.1 (by decide!)).2⟩

end FehlerFabrik
